import Mathlib

/-!
# Sorth front end: the stack-effect checker of `parser.cpp`

A shallow embedding of `src/type.h`, `src/lang.h`, `src/ast.h`, the token
interface of `src/lexer.h` and every function of `src/parser.cpp`, followed by
theorems about the inferred signatures.

Conventions of the embedding.

* `std::vector` is `List`, with the top of a type stack at the tail.
* `int64_t` values (`type_t`, `local_offset`, `Token::int_val`, intrinsic codes)
  are `Int`; where the C++ compares a `size_t` with an `int64_t` the signed
  operand is converted to unsigned, which is written `% 2 ^ 64` here.
* `throw ParseException` is `Result.error`; the message is kept as a
  constructor of `Message` together with the location of the current token,
  which is what `err_message(lexer, ...)` prints.
* A read outside a vector (iterator before `begin()`, `back()` of an empty
  vector, `at` out of range) is not given a value: the function returns `none`,
  or `Result.out_of_bounds` inside the parser. The same holds for the overflow of
  the `int` counter of `match_signature`.
* An `assert` states a precondition of the C++ and is no part of the embedded
  behaviour.
* The recursive descent is defined by recursion on a fuel counter;
  `Result.out_of_fuel` is the only outcome that has no counterpart in the C++, and
  `parse_program` never yields it.
-/

namespace sorth

/-! ## type.h -/

namespace type

abbrev type_t := Int

abbrev TypeStack := List type_t

structure TypeSignature where
  «in» : TypeStack := []
  out : TypeStack := []
  deriving DecidableEq, Repr, Inhabited

def invalid_t : type_t := -1
def int_t : type_t := 1
def bool_t : type_t := 2
def char_t : type_t := 3

def from_name (name : String) : type_t :=
  if name = "int" then int_t
  else if name = "bool" then bool_t
  else if name = "char" then char_t
  else invalid_t

end type

/-! ## lang.h -/

namespace lang

inductive Keyword where
  | keyword_function
  | keyword_const
  | keyword_begin
  | keyword_end
  | keyword_if
  | keyword_else
  | keyword_else_if
  | keyword_while
  deriving DecidableEq, Repr, Inhabited

/-- The integer value of a `Keyword` enumerator. -/
def Keyword.toInt : Keyword → Int
  | keyword_function => 0
  | keyword_const => 1
  | keyword_begin => 2
  | keyword_end => 3
  | keyword_if => 4
  | keyword_else => 5
  | keyword_else_if => 6
  | keyword_while => 7

/-- The enumerator selected by `static_cast<lang::Keyword>(v)`; `none` when `v`
is the value of no enumerator, so that no `case` of a `switch` applies. -/
def Keyword.ofInt (v : Int) : Option Keyword :=
  if v = 0 then some keyword_function
  else if v = 1 then some keyword_const
  else if v = 2 then some keyword_begin
  else if v = 3 then some keyword_end
  else if v = 4 then some keyword_if
  else if v = 5 then some keyword_else
  else if v = 6 then some keyword_else_if
  else if v = 7 then some keyword_while
  else none

/-- The enumeration `Intrinsic : int64_t`: every `int64_t` is a value of it. -/
abbrev Intrinsic := Int

def intrinsic_invalid : Intrinsic := 0
def intrinsic_add : Intrinsic := 1
def intrinsic_sub : Intrinsic := 2
def intrinsic_mul : Intrinsic := 3
def intrinsic_div : Intrinsic := 4
def intrinsic_and : Intrinsic := 5
def intrinsic_or : Intrinsic := 6
def intrinsic_xor : Intrinsic := 7
def intrinsic_not : Intrinsic := 8
def intrinsic_drop : Intrinsic := 9
def intrinsic_swap : Intrinsic := 10
def intrinsic_dup : Intrinsic := 11
def intrinsic_equal : Intrinsic := 12
def intrinsic_less : Intrinsic := 13
def intrinsic_greater : Intrinsic := 14

inductive Operation where
  | op_none
  | op_push_int
  | op_call
  | op_add
  | op_sub
  | op_mul
  | op_div
  | op_and
  | op_or
  | op_xor
  | op_not
  | op_drop
  | op_dup
  | op_swap
  | op_equal
  | op_less
  | op_greater
  deriving DecidableEq, Repr, Inhabited

def get_intrinsic_input_count (intrinsic : Intrinsic) : Int :=
  if intrinsic = intrinsic_drop ∨ intrinsic = intrinsic_dup then 1
  else if intrinsic = intrinsic_add ∨ intrinsic = intrinsic_sub ∨ intrinsic = intrinsic_mul
      ∨ intrinsic = intrinsic_div ∨ intrinsic = intrinsic_swap ∨ intrinsic = intrinsic_and
      ∨ intrinsic = intrinsic_or ∨ intrinsic = intrinsic_xor ∨ intrinsic = intrinsic_not
      ∨ intrinsic = intrinsic_equal ∨ intrinsic = intrinsic_less
      ∨ intrinsic = intrinsic_greater then 2
  else -1

def intrinsic_to_operation (intrinsic : Intrinsic) : Operation :=
  if intrinsic = intrinsic_invalid then .op_none
  else if intrinsic = intrinsic_add then .op_add
  else if intrinsic = intrinsic_sub then .op_sub
  else if intrinsic = intrinsic_mul then .op_mul
  else if intrinsic = intrinsic_div then .op_div
  else if intrinsic = intrinsic_and then .op_and
  else if intrinsic = intrinsic_or then .op_or
  else if intrinsic = intrinsic_xor then .op_xor
  else if intrinsic = intrinsic_not then .op_not
  else if intrinsic = intrinsic_drop then .op_drop
  else if intrinsic = intrinsic_swap then .op_swap
  else if intrinsic = intrinsic_dup then .op_dup
  else if intrinsic = intrinsic_equal then .op_equal
  else if intrinsic = intrinsic_less then .op_less
  else if intrinsic = intrinsic_greater then .op_greater
  else .op_none

/-- The value of `type_stack.back()`; `none` on an empty vector. -/
def back (type_stack : type.TypeStack) : Option type.type_t :=
  type_stack.getLast?

/-- The value of `type_stack[i]` for an index computed in `size_t`. -/
def index (type_stack : type.TypeStack) (i : Int) : Option type.type_t :=
  if i < 0 then none else type_stack.get? i.toNat

/-- The signature of an intrinsic on the current stack. `none` stands for a read
outside `type_stack` (the function requires
`type_stack.size() >= get_intrinsic_input_count(intrinsic)` of its caller). -/
def get_intrinsic_signature (intrinsic : Intrinsic) (type_stack : type.TypeStack) :
    Option type.TypeSignature :=
  if intrinsic = intrinsic_add ∨ intrinsic = intrinsic_sub ∨ intrinsic = intrinsic_mul
      ∨ intrinsic = intrinsic_div ∨ intrinsic = intrinsic_and ∨ intrinsic = intrinsic_or
      ∨ intrinsic = intrinsic_xor ∨ intrinsic = intrinsic_not then
    some ⟨[type.int_t, type.int_t], [type.int_t]⟩
  else if intrinsic = intrinsic_drop then
    match back type_stack with
    | none => none
    | some first => some ⟨[first], []⟩
  else if intrinsic = intrinsic_swap then
    match back type_stack, index type_stack ((type_stack.length : Int) - 1) with
    | some first, some second => some ⟨[second, first], [first, second]⟩
    | _, _ => none
  else if intrinsic = intrinsic_dup then
    match back type_stack with
    | none => none
    | some first => some ⟨[first], [first, first]⟩
  else if intrinsic = intrinsic_equal ∨ intrinsic = intrinsic_less
      ∨ intrinsic = intrinsic_greater then
    some ⟨[type.int_t, type.int_t], [type.bool_t]⟩
  else some ⟨[], []⟩

end lang

/-! ## ast.h -/

namespace ast

open type lang

mutual
inductive Expression where
  | operation (operation : Operation)
  | operation_string (operation : Operation) (value : String)
  | operation_int (operation : Operation) (value : Int)
  | scope (s : Scope)
  | if_expression (e : IfExpression)
  | while_expression (e : WhileExpression)
inductive Scope where
  | mk (signature : TypeSignature) (expressions : List Expression)
inductive ConditionalBranch where
  | mk (condition : Scope) (body : Scope)
inductive IfExpression where
  | mk (signature : TypeSignature) (first_if : ConditionalBranch)
      (else_if : List ConditionalBranch) (else_body : Scope)
inductive WhileExpression where
  | mk (signature : TypeSignature) (condition : Scope) (body : Scope)
end

def Scope.signature : Scope → TypeSignature
  | .mk signature _ => signature

def Scope.expressions : Scope → List Expression
  | .mk _ expressions => expressions

def IfExpression.signature : IfExpression → TypeSignature
  | .mk signature _ _ _ => signature

def IfExpression.first_if : IfExpression → ConditionalBranch
  | .mk _ first_if _ _ => first_if

def IfExpression.else_if : IfExpression → List ConditionalBranch
  | .mk _ _ else_if _ => else_if

def IfExpression.else_body : IfExpression → Scope
  | .mk _ _ _ else_body => else_body

def WhileExpression.signature : WhileExpression → TypeSignature
  | .mk signature _ _ => signature

/-- The default-constructed `Scope`. -/
def Scope.empty : Scope := .mk {} []

mutual
def Expression.has_if : Expression → Bool
  | .operation _ => false
  | .operation_string _ _ => false
  | .operation_int _ _ => false
  | .scope s => s.has_if
  | .if_expression _ => true
  | .while_expression _ => false
def Scope.has_if : Scope → Bool
  | .mk _ expressions => has_if_list expressions
def has_if_list : List Expression → Bool
  | [] => false
  | e :: es => e.has_if || has_if_list es
end

/-- The effect of `scope.expressions.emplace_back(e)`. -/
def Scope.emplace_back : Scope → Expression → Scope
  | .mk signature expressions, e => .mk signature (expressions ++ [e])

/-- The effect of assigning `scope.signature`. -/
def Scope.with_signature : Scope → TypeSignature → Scope
  | .mk _ expressions, signature => .mk signature expressions

structure Function where
  name : String
  signature : TypeSignature
  body : Scope

/-- The map `functions` of a `Program`, as an association list in insertion
order. -/
structure Program where
  functions : List (String × Function) := []

def Program.find (program : Program) (name : String) : Option Function :=
  program.functions.lookup name

def Program.contains (program : Program) (name : String) : Bool :=
  (program.find name).isSome

/-- The effect of `functions.insert(std::make_pair(name, function))`: a key that is
present keeps its value. -/
def Program.insert (program : Program) (name : String) (function : Function) : Program :=
  if program.contains name then program
  else { functions := program.functions ++ [(name, function)] }

end ast

/-! ## lexer.h: tokens and the token source -/

inductive TokenType where
  | tok_eof
  | tok_int
  | tok_word
  | tok_keyword
  | tok_intrinsic
  | tok_str
  | tok_char
  | tok_unexpected
  deriving DecidableEq, Repr, Inhabited

structure Location where
  line : Int
  column : Int
  deriving DecidableEq, Repr, Inhabited

structure Token where
  type : TokenType := .tok_unexpected
  str_val : String := ""
  int_val : Int := 0
  location : Location := ⟨1, 0⟩
  deriving DecidableEq, Repr, Inhabited

/-- The state of a `Lexer` as the parser sees it: the current token followed by the
tokens that `next_token` will deliver, in order. When they are used up the current
token is the end-of-input token, and stays so. -/
structure Lexer where
  tokens : List Token
  eof_location : Location := ⟨1, 0⟩
  deriving DecidableEq, Repr, Inhabited

def Lexer.current_token (lexer : Lexer) : Token :=
  match lexer.tokens with
  | [] => ⟨.tok_eof, "", 0, lexer.eof_location⟩
  | token :: _ => token

def Lexer.next_token (lexer : Lexer) : Lexer :=
  { lexer with tokens := lexer.tokens.tail }

/-! ## parser.h, parser.cpp -/

open type lang ast

/-- The texts that `parser.cpp` passes to `err_message`. -/
inductive Message where
  /-- "Unexpected end of file. Scope is left unclosed." -/
  | scope_left_unclosed
  /-- "Not enough data on the stack." -/
  | not_enough_data
  /-- "Required types on stack aren't matching." -/
  | types_not_matching
  /-- "Unknown word: " followed by the word. -/
  | unknown_word (word : String)
  /-- "Const not implemented yet" -/
  | const_not_implemented
  /-- "Unexpected end of scope." -/
  | unexpected_end_of_scope
  /-- "While not supported yet." -/
  | while_not_supported
  /-- "Unexpected else." -/
  | unexpected_else
  /-- "Unexpected else if." -/
  | unexpected_else_if
  /-- "Functions are only allowed at toplevel." -/
  | functions_only_at_toplevel
  /-- "Unknown Intrinsic." -/
  | unknown_intrinsic
  /-- "Strings are not implemented yet." -/
  | strings_not_implemented
  /-- "Unexpected token." -/
  | unexpected_token_in_scope
  /-- "Expected word as function name" -/
  | expected_function_name
  /-- "Redefinition of function: " followed by the name. -/
  | redefinition (name : String)
  /-- "Expected word in function signature" -/
  | expected_word_in_signature
  /-- "Unknown type " followed by the word. -/
  | unknown_type (word : String)
  /-- "Function signature does not match. Expected: ... but got: ..." -/
  | signature_does_not_match (expected : TypeSignature) (got : TypeSignature)
  /-- "Unexpected keyword: " followed by the keyword. -/
  | unexpected_keyword (word : String)
  /-- "Unexpected token" -/
  | unexpected_token
  deriving DecidableEq, Repr, Inhabited

/-- A `ParseException`: the message and the location of the token that was current
when it was thrown. -/
structure ParseException where
  location : Location
  message : Message
  deriving DecidableEq, Repr, Inhabited

/-- The outcome of a parsing function. -/
inductive Result (α : Type) where
  /-- normal return -/
  | ok (value : α)
  /-- a `ParseException` was thrown -/
  | error (e : ParseException)
  /-- a vector was read outside its bounds -/
  | out_of_bounds
  /-- the recursion budget of the embedding was used up -/
  | out_of_fuel
  deriving Repr

/-- Sequencing: the first outcome that is not `ok` ends the computation. -/
def Result.bind {α β : Type} (r : Result α) (f : α → Result β) : Result β :=
  match r with
  | .ok value => f value
  | .error e => .error e
  | .out_of_bounds => .out_of_bounds
  | .out_of_fuel => .out_of_fuel

/-- The statement `throw ParseException{err_message(lexer, ...)}`. -/
def throw_at {α : Type} (lexer : Lexer) (message : Message) : Result α :=
  .error ⟨lexer.current_token.location, message⟩

def is_keyword (token : Token) (keyword : Keyword) : Bool :=
  token.type = .tok_keyword && token.int_val = keyword.toInt

/-- The comparison `size < v` of a `size_t` with an `int64_t`: `v` is converted to
`size_t`. -/
def size_lt_int64 (size : Nat) (v : Int) : Bool :=
  (size : Int) < v % 2 ^ 64

/-- The new `local_offset` and the new `output_signature`. The parser calls it with
`local_offset ≥ 0`, so that the inserted range
`[applied.in.begin(), applied.in.begin() - local_offset)` lies inside `applied.in`. -/
def recalibrate_offset (local_offset : Int) (applied_signature : TypeSignature)
    (output_signature : TypeSignature) : Int × TypeSignature :=
  let local_offset := local_offset - (applied_signature.in.length : Int)
  if local_offset < 0 then
    (0 + (applied_signature.out.length : Int),
      { output_signature with
        «in» := applied_signature.in.take (-local_offset).toNat ++ output_signature.in })
  else
    (local_offset + (applied_signature.out.length : Int), output_signature)

/-- The returned flag and the type stack after the call. `none` when
`type_stack.end() - input_count` lies before `type_stack.begin()`. -/
def check_and_apply_signature (signature : TypeSignature) (type_stack : TypeStack) :
    Option (Bool × TypeStack) :=
  let input_count := signature.in.length
  if type_stack.length < input_count then none
  else if signature.in ≠ type_stack.drop (type_stack.length - input_count) then
    some (false, type_stack)
  else
    some (true, type_stack.take (type_stack.length - input_count) ++ signature.out)

/-- The loop `for (auto i = 0; i < offset; ++i)` of `match_signature` with
`remaining` iterations to go: `some true` when it runs to its end, `some false`
when it returns `false`, `none` when an `at` is out of range. The counter `i` is an
`int` (`auto i = 0`), compared with the `int64_t` offset: `++i` at `2 ^ 31 - 1`
overflows, which has no defined value and is `none` here as well. -/
def match_signature_loop (outer : TypeSignature) : (remaining : Nat) → (i : Nat) → Option Bool
  | 0, _ => some true
  | remaining + 1, i =>
    match outer.in.get? i, outer.out.get? i with
    | some a, some b =>
      if a ≠ b then some false
      else if 2 ^ 31 ≤ i + 1 then none
      else match_signature_loop outer remaining (i + 1)
    | _, _ => none

/-- The result of `match_signature`; `none` when a vector is read outside its bounds
(an `at` of the loop, or the range that `std::equal` reads from
`outer.out.begin() + offset`) or the counter of the loop overflows. The sizes of the
vectors, as `int64_t` and as `size_t`, are their lengths. -/
def match_signature (outer : TypeSignature) (inner : TypeSignature) : Option Bool :=
  let offset : Int := (outer.in.length : Int) - (inner.in.length : Int)
  if size_lt_int64 outer.out.length offset then some false
  else
    match match_signature_loop outer offset.toNat 0 with
    | none => none
    | some false => some false
    | some true =>
      if ((outer.out.length : Int) - offset) % 2 ^ 64 ≠ (inner.out.length : Int) then some false
      else if offset < 0 ∨ outer.out.length < offset.toNat + inner.out.length then none
      else some (inner.out == (outer.out.drop offset.toNat).take inner.out.length)

/-- The type that `parse_scope` pushes for a literal token: `int_t` for `tok_int`,
`char_t` for `tok_char`. -/
def literal_type (token : Token) : type_t :=
  if token.type = .tok_int then int_t else char_t

/-- The last statement of `parse_scope`: the top `local_offset` types become the
output of the scope. -/
def seal_scope (scope : Scope) (local_offset : Int) (type_stack : TypeStack) (lexer : Lexer) :
    Result (Scope × Lexer × TypeStack) :=
  if local_offset < 0 ∨ (type_stack.length : Int) < local_offset then .out_of_bounds
  else
    .ok (scope.with_signature
          { scope.signature with
            out := type_stack.drop (type_stack.length - local_offset.toNat)
                    ++ scope.signature.out },
        lexer, type_stack)

/-- The function `parse_while`: it throws. -/
def parse_while (lexer : Lexer) (_program : Program) (_type_stack : TypeStack) :
    Result (WhileExpression × Lexer × TypeStack) :=
  throw_at lexer .while_not_supported

/-- The `IfExpression` that `parse_if` returns: the first branch only. -/
def if_expression (first_condition first_body : Scope) : IfExpression :=
  .mk {} (.mk first_condition first_body) [] Scope.empty

mutual

/-- The function `parse_scope`: it returns the scope, and the lexer and the type
stack as it leaves them. -/
def parse_scope : Nat → Lexer → Program → TypeStack → Keyword →
    Result (Scope × Lexer × TypeStack)
  | 0, _, _, _, _ => .out_of_fuel
  | fuel + 1, lexer, program, type_stack, end_keyword =>
    parse_scope_loop fuel lexer.next_token program type_stack end_keyword Scope.empty 0

/-- The `while` loop of `parse_scope`, entered with the state `scope`,
`local_offset`. -/
def parse_scope_loop : Nat → Lexer → Program → TypeStack → Keyword → Scope → Int →
    Result (Scope × Lexer × TypeStack)
  | 0, _, _, _, _, _, _ => .out_of_fuel
  | fuel + 1, lexer, program, type_stack, end_keyword, scope, local_offset =>
    if is_keyword lexer.current_token end_keyword then
      seal_scope scope local_offset type_stack lexer
    else
      let token := lexer.current_token
      match token.type with
      | .tok_eof => throw_at lexer .scope_left_unclosed
      | .tok_int =>
        parse_scope_loop fuel lexer.next_token program (type_stack ++ [int_t]) end_keyword
          (scope.emplace_back (.operation_int .op_push_int token.int_val)) (local_offset + 1)
      | .tok_word =>
        match program.find token.str_val with
        | some function =>
          let signature := function.signature
          if type_stack.length < signature.in.length then throw_at lexer .not_enough_data
          else
            match check_and_apply_signature signature type_stack with
            | none => .out_of_bounds
            | some (false, _) => throw_at lexer .types_not_matching
            | some (true, type_stack) =>
              let r := recalibrate_offset local_offset signature scope.signature
              parse_scope_loop fuel lexer.next_token program type_stack end_keyword
                ((scope.with_signature r.2).emplace_back
                  (.operation_string .op_call token.str_val)) r.1
        | none => throw_at lexer (.unknown_word token.str_val)
      | .tok_keyword =>
        match Keyword.ofInt token.int_val with
        | some .keyword_const => throw_at lexer .const_not_implemented
        | some .keyword_begin =>
          (parse_scope fuel lexer program type_stack .keyword_end).bind fun p =>
            let r := recalibrate_offset local_offset p.1.signature scope.signature
            parse_scope_loop fuel p.2.1.next_token program p.2.2 end_keyword
              ((scope.with_signature r.2).emplace_back (.scope p.1)) r.1
        | some .keyword_end => throw_at lexer .unexpected_end_of_scope
        | some .keyword_if =>
          (parse_if fuel lexer program type_stack).bind fun p =>
            let r := recalibrate_offset local_offset (IfExpression.signature p.1) scope.signature
            parse_scope_loop fuel p.2.1 program p.2.2 end_keyword
              ((scope.with_signature r.2).emplace_back (.if_expression p.1)) r.1
        | some .keyword_while =>
          (parse_while lexer program type_stack).bind fun p =>
            let r :=
              recalibrate_offset local_offset (WhileExpression.signature p.1) scope.signature
            parse_scope_loop fuel p.2.1.next_token program p.2.2 end_keyword
              ((scope.with_signature r.2).emplace_back (.while_expression p.1)) r.1
        | some .keyword_else => throw_at lexer .unexpected_else
        | some .keyword_else_if => throw_at lexer .unexpected_else_if
        | some .keyword_function => throw_at lexer .functions_only_at_toplevel
        | none =>
          parse_scope_loop fuel lexer.next_token program type_stack end_keyword scope local_offset
      | .tok_intrinsic =>
        let intrinsic : Intrinsic := token.int_val
        if intrinsic = intrinsic_invalid then throw_at lexer .unknown_intrinsic
        else if size_lt_int64 type_stack.length (get_intrinsic_input_count intrinsic) then
          throw_at lexer .not_enough_data
        else
          match get_intrinsic_signature intrinsic type_stack with
          | none => .out_of_bounds
          | some signature =>
            match check_and_apply_signature signature type_stack with
            | none => .out_of_bounds
            | some (false, _) => throw_at lexer .types_not_matching
            | some (true, type_stack) =>
              let r := recalibrate_offset local_offset signature scope.signature
              parse_scope_loop fuel lexer.next_token program type_stack end_keyword
                ((scope.with_signature r.2).emplace_back
                  (.operation (intrinsic_to_operation intrinsic))) r.1
      | .tok_str => throw_at lexer .strings_not_implemented
      | .tok_char =>
        parse_scope_loop fuel lexer.next_token program (type_stack ++ [char_t]) end_keyword
          (scope.emplace_back (.operation_int .op_push_int token.int_val)) (local_offset + 1)
      | .tok_unexpected => throw_at lexer .unexpected_token_in_scope

/-- The function `parse_if`, called with the `if` keyword as current token. -/
def parse_if : Nat → Lexer → Program → TypeStack → Result (IfExpression × Lexer × TypeStack)
  | 0, _, _, _ => .out_of_fuel
  | fuel + 1, lexer, program, type_stack =>
    (parse_scope fuel lexer program type_stack .keyword_begin).bind fun first_condition =>
    (parse_scope fuel first_condition.2.1 program first_condition.2.2 .keyword_end).bind
      fun first_body =>
    (parse_if_loop fuel first_body.2.1.next_token program first_body.2.2).bind fun s =>
    if is_keyword s.1.current_token .keyword_else then
      (parse_scope fuel s.1 program s.2 .keyword_end).bind fun else_body =>
        .ok (if_expression first_condition.1 first_body.1, else_body.2.1, else_body.2.2)
    else
      .ok (if_expression first_condition.1 first_body.1, s.1, s.2)

/-- The loop `while (is_keyword(lexer.current_token(), lang::keyword_else_if))` of
`parse_if`. -/
def parse_if_loop : Nat → Lexer → Program → TypeStack → Result (Lexer × TypeStack)
  | 0, _, _, _ => .out_of_fuel
  | fuel + 1, lexer, program, type_stack =>
    if is_keyword lexer.current_token .keyword_else_if then
      (parse_scope fuel lexer program type_stack .keyword_begin).bind fun elif_condition =>
      (parse_scope fuel elif_condition.2.1 program elif_condition.2.2 .keyword_end).bind
        fun elif_body =>
      parse_if_loop fuel elif_body.2.1.next_token program elif_body.2.2
    else
      .ok (lexer, type_stack)

end

/-- One iteration of the loop of `parse_scope` that does not throw: from the lexer,
type stack, scope and `local_offset` before it to those after it. `fuel` is the
budget of the calls of `parse_scope` and `parse_if` made by the iteration. -/
inductive Iteration (fuel : Nat) (program : Program) (lexer : Lexer) (type_stack : TypeStack)
    (scope : Scope) (local_offset : Int) : Lexer → TypeStack → Scope → Int → Prop where
  /-- `case Lexer::tok_int`, `case Lexer::tok_char` -/
  | literal :
    (lexer.current_token.type = .tok_int ∨ lexer.current_token.type = .tok_char) →
    Iteration fuel program lexer type_stack scope local_offset
      lexer.next_token (type_stack ++ [literal_type lexer.current_token])
      (scope.emplace_back (.operation_int .op_push_int lexer.current_token.int_val))
      (local_offset + 1)
  /-- `case Lexer::tok_word` with a defined function -/
  | call (function : Function) (type_stack' : TypeStack) :
    lexer.current_token.type = .tok_word →
    program.find lexer.current_token.str_val = some function →
    function.signature.in.length ≤ type_stack.length →
    check_and_apply_signature function.signature type_stack = some (true, type_stack') →
    Iteration fuel program lexer type_stack scope local_offset
      lexer.next_token type_stack'
      ((scope.with_signature
          (recalibrate_offset local_offset function.signature scope.signature).2).emplace_back
        (.operation_string .op_call lexer.current_token.str_val))
      (recalibrate_offset local_offset function.signature scope.signature).1
  /-- `case Lexer::tok_intrinsic` -/
  | intrinsic (signature : TypeSignature) (type_stack' : TypeStack) :
    lexer.current_token.type = .tok_intrinsic →
    lexer.current_token.int_val ≠ intrinsic_invalid →
    size_lt_int64 type_stack.length (get_intrinsic_input_count lexer.current_token.int_val)
      = false →
    get_intrinsic_signature lexer.current_token.int_val type_stack = some signature →
    check_and_apply_signature signature type_stack = some (true, type_stack') →
    Iteration fuel program lexer type_stack scope local_offset
      lexer.next_token type_stack'
      ((scope.with_signature
          (recalibrate_offset local_offset signature scope.signature).2).emplace_back
        (.operation (intrinsic_to_operation lexer.current_token.int_val)))
      (recalibrate_offset local_offset signature scope.signature).1
  /-- `case lang::keyword_begin` -/
  | block (p : Scope × Lexer × TypeStack) :
    lexer.current_token.type = .tok_keyword →
    Keyword.ofInt lexer.current_token.int_val = some .keyword_begin →
    parse_scope fuel lexer program type_stack .keyword_end = .ok p →
    Iteration fuel program lexer type_stack scope local_offset
      p.2.1.next_token p.2.2
      ((scope.with_signature
          (recalibrate_offset local_offset p.1.signature scope.signature).2).emplace_back
        (.scope p.1))
      (recalibrate_offset local_offset p.1.signature scope.signature).1
  /-- `case lang::keyword_if` -/
  | conditional (p : IfExpression × Lexer × TypeStack) :
    lexer.current_token.type = .tok_keyword →
    Keyword.ofInt lexer.current_token.int_val = some .keyword_if →
    parse_if fuel lexer program type_stack = .ok p →
    Iteration fuel program lexer type_stack scope local_offset
      p.2.1 p.2.2
      ((scope.with_signature
          (recalibrate_offset local_offset p.1.signature scope.signature).2).emplace_back
        (.if_expression p.1))
      (recalibrate_offset local_offset p.1.signature scope.signature).1
  /-- a keyword token whose value selects no `case` -/
  | skip :
    lexer.current_token.type = .tok_keyword →
    Keyword.ofInt lexer.current_token.int_val = none →
    Iteration fuel program lexer type_stack scope local_offset
      lexer.next_token type_stack scope local_offset

/-- The first `for` loop of `parse_function` (the input types), run on the current
token and the tokens after it: the types read are appended to `signature_in`. -/
def read_input_types (eof_location : Location) : List Token → TypeStack →
    Result (TypeStack × Lexer)
  | [], _ => throw_at ⟨[], eof_location⟩ .expected_word_in_signature
  | token :: rest, signature_in =>
    let lexer : Lexer := ⟨token :: rest, eof_location⟩
    if is_keyword token .keyword_begin then .ok (signature_in, lexer)
    else if token.type ≠ .tok_word then throw_at lexer .expected_word_in_signature
    else if token.str_val = "--" then .ok (signature_in, lexer.next_token)
    else if from_name token.str_val = invalid_t then
      throw_at lexer (.unknown_type token.str_val)
    else read_input_types eof_location rest (signature_in ++ [from_name token.str_val])

/-- The second `for` loop of `parse_function` (the output types). -/
def read_output_types (eof_location : Location) : List Token → TypeStack →
    Result (TypeStack × Lexer)
  | [], _ => throw_at ⟨[], eof_location⟩ .expected_word_in_signature
  | token :: rest, signature_out =>
    let lexer : Lexer := ⟨token :: rest, eof_location⟩
    if is_keyword token .keyword_begin then .ok (signature_out, lexer)
    else if token.type ≠ .tok_word then throw_at lexer .expected_word_in_signature
    else if from_name token.str_val = invalid_t then
      throw_at lexer (.unknown_type token.str_val)
    else read_output_types eof_location rest (signature_out ++ [from_name token.str_val])

/-- The part of `parse_function` before the body: the name and the declared
signature, and the lexer standing on the token that opens the body. -/
def parse_function_header (lexer : Lexer) (program : Program) :
    Result (String × TypeSignature × Lexer) :=
  let lexer := lexer.next_token
  if lexer.current_token.type ≠ .tok_word then throw_at lexer .expected_function_name
  else
    let name := lexer.current_token.str_val
    if program.contains name then throw_at lexer (.redefinition name)
    else
      let lexer := lexer.next_token
      (read_input_types lexer.eof_location lexer.tokens []).bind fun i =>
      (read_output_types i.2.eof_location i.2.tokens []).bind fun o =>
      .ok (name, ⟨i.1, o.1⟩, o.2)

/-- The function `parse_function`, called with the `func` keyword as current
token. -/
def parse_function (fuel : Nat) (lexer : Lexer) (program : Program) :
    Result (Function × Lexer) :=
  (parse_function_header lexer program).bind fun h =>
  let name := h.1
  let signature := h.2.1
  (parse_scope fuel h.2.2 program signature.in .keyword_end).bind fun b =>
  match match_signature signature b.1.signature with
  | none => .out_of_bounds
  | some false => throw_at b.2.1 (.signature_does_not_match signature b.1.signature)
  | some true => .ok (⟨name, signature, b.1⟩, b.2.1)

/-- The `for` loop of `parse_program`. -/
def parse_program_loop : Nat → Lexer → Program → Result Program
  | 0, _, _ => .out_of_fuel
  | fuel + 1, lexer, program =>
    if lexer.current_token.type = .tok_eof then .ok program
    else
      let token := lexer.current_token
      match token.type with
      | .tok_keyword =>
        if token.int_val = Keyword.keyword_function.toInt then
          (parse_function fuel lexer program).bind fun f =>
            parse_program_loop fuel f.2.next_token (program.insert f.1.name f.1)
        else throw_at lexer (.unexpected_keyword token.str_val)
      | _ => throw_at lexer .unexpected_token

/-- The function `parse_program`, on the lexer as its constructor leaves it (the
first token is current). Three units of fuel per token are enough for the descent
(`parse_program_ne_out_of_fuel`). -/
def parse_program (lexer : Lexer) : Result Program :=
  parse_program_loop (3 * lexer.tokens.length + 3) lexer {}

/-- The state of the loop of `parse_scope` on a scope entered with the stack `S`:
`S` is an untouched part `Q` followed by what the scope has borrowed so far, and the
stack is `Q` followed by the `local_offset` elements that the scope has produced. -/
def Borrowed (S type_stack : TypeStack) (scope : Scope) (local_offset : Int) : Prop :=
  ∃ Q L : TypeStack, S = Q ++ scope.signature.in ∧ type_stack = Q ++ L
    ∧ local_offset = (L.length : Int) ∧ scope.signature.out = []

/-! ## Example inputs -/

/-- The tokens of the block `{ dup + }`. -/
def dup_add_tokens : List Token :=
  [⟨.tok_keyword, "\x7b", Keyword.keyword_begin.toInt, ⟨1, 1⟩⟩,
   ⟨.tok_intrinsic, "dup", intrinsic_dup, ⟨1, 3⟩⟩,
   ⟨.tok_intrinsic, "+", intrinsic_add, ⟨1, 7⟩⟩,
   ⟨.tok_keyword, "\x7d", Keyword.keyword_end.toInt, ⟨1, 9⟩⟩]

/-- The tokens of `func add2 int -- int { 1 + }`. -/
def add2_tokens : List Token :=
  [⟨.tok_keyword, "func", Keyword.keyword_function.toInt, ⟨1, 1⟩⟩,
   ⟨.tok_word, "add2", 0, ⟨1, 6⟩⟩,
   ⟨.tok_word, "int", 0, ⟨1, 11⟩⟩,
   ⟨.tok_word, "--", 0, ⟨1, 15⟩⟩,
   ⟨.tok_word, "int", 0, ⟨1, 18⟩⟩,
   ⟨.tok_keyword, "\x7b", Keyword.keyword_begin.toInt, ⟨1, 22⟩⟩,
   ⟨.tok_int, "1", 1, ⟨1, 24⟩⟩,
   ⟨.tok_intrinsic, "+", intrinsic_add, ⟨1, 26⟩⟩,
   ⟨.tok_keyword, "\x7d", Keyword.keyword_end.toInt, ⟨1, 28⟩⟩]

/-- The body of `add2` as `parse_function` returns it. -/
def add2_body : Scope :=
  .mk ⟨[int_t], [int_t]⟩ [.operation_int .op_push_int 1, .operation .op_add]

/-- The tokens of `func bad int -- bool { dup }`. -/
def bad_tokens : List Token :=
  [⟨.tok_keyword, "func", Keyword.keyword_function.toInt, ⟨1, 1⟩⟩,
   ⟨.tok_word, "bad", 0, ⟨1, 6⟩⟩,
   ⟨.tok_word, "int", 0, ⟨1, 10⟩⟩,
   ⟨.tok_word, "--", 0, ⟨1, 14⟩⟩,
   ⟨.tok_word, "bool", 0, ⟨1, 17⟩⟩,
   ⟨.tok_keyword, "\x7b", Keyword.keyword_begin.toInt, ⟨1, 22⟩⟩,
   ⟨.tok_intrinsic, "dup", intrinsic_dup, ⟨1, 24⟩⟩,
   ⟨.tok_keyword, "\x7d", Keyword.keyword_end.toInt, ⟨1, 28⟩⟩]

/-- The tokens of `func f { if 1 { } }`. -/
def unbalanced_if_tokens : List Token :=
  [⟨.tok_keyword, "func", Keyword.keyword_function.toInt, ⟨1, 1⟩⟩,
   ⟨.tok_word, "f", 0, ⟨1, 6⟩⟩,
   ⟨.tok_keyword, "\x7b", Keyword.keyword_begin.toInt, ⟨1, 8⟩⟩,
   ⟨.tok_keyword, "if", Keyword.keyword_if.toInt, ⟨1, 10⟩⟩,
   ⟨.tok_int, "1", 1, ⟨1, 13⟩⟩,
   ⟨.tok_keyword, "\x7b", Keyword.keyword_begin.toInt, ⟨1, 15⟩⟩,
   ⟨.tok_keyword, "\x7d", Keyword.keyword_end.toInt, ⟨1, 17⟩⟩,
   ⟨.tok_keyword, "\x7d", Keyword.keyword_end.toInt, ⟨1, 19⟩⟩]

/-- The body of `f` in `func f { if 1 { } }` as `parse_function` returns it: one
conditional whose condition pushes `1` and whose body is empty. -/
def unbalanced_if_body : Scope :=
  .mk ⟨[], []⟩
    [.if_expression
      (if_expression (.mk ⟨[], [int_t]⟩ [.operation_int .op_push_int 1]) (.mk ⟨[], []⟩ []))]

/-- The tokens of the block `{ 1 { + } }`. -/
def nested_block_tokens : List Token :=
  [⟨.tok_keyword, "\x7b", Keyword.keyword_begin.toInt, ⟨1, 1⟩⟩,
   ⟨.tok_int, "1", 1, ⟨1, 3⟩⟩,
   ⟨.tok_keyword, "\x7b", Keyword.keyword_begin.toInt, ⟨1, 5⟩⟩,
   ⟨.tok_intrinsic, "+", intrinsic_add, ⟨1, 7⟩⟩,
   ⟨.tok_keyword, "\x7d", Keyword.keyword_end.toInt, ⟨1, 9⟩⟩,
   ⟨.tok_keyword, "\x7d", Keyword.keyword_end.toInt, ⟨1, 11⟩⟩]

/-- The tokens of the block `{ 7 'a' }`. -/
def literal_block_tokens : List Token :=
  [⟨.tok_keyword, "\x7b", Keyword.keyword_begin.toInt, ⟨1, 1⟩⟩,
   ⟨.tok_int, "7", 7, ⟨1, 3⟩⟩,
   ⟨.tok_char, "a", 97, ⟨1, 5⟩⟩,
   ⟨.tok_keyword, "\x7d", Keyword.keyword_end.toInt, ⟨1, 9⟩⟩]

/-- The intrinsics of the first group of `case` labels of `get_intrinsic_signature`. -/
def arithmetic_logic_intrinsics : List Intrinsic :=
  [intrinsic_add, intrinsic_sub, intrinsic_mul, intrinsic_div, intrinsic_and, intrinsic_or,
   intrinsic_xor, intrinsic_not]

/-- The intrinsics of the last group of `case` labels of `get_intrinsic_signature`. -/
def comparison_intrinsics : List Intrinsic :=
  [intrinsic_equal, intrinsic_less, intrinsic_greater]

/-- The tokens of `func f int char -- char int { swap }`. -/
def swap_tokens : List Token :=
  [⟨.tok_keyword, "func", Keyword.keyword_function.toInt, ⟨1, 1⟩⟩,
   ⟨.tok_word, "f", 0, ⟨1, 6⟩⟩,
   ⟨.tok_word, "int", 0, ⟨1, 8⟩⟩,
   ⟨.tok_word, "char", 0, ⟨1, 12⟩⟩,
   ⟨.tok_word, "--", 0, ⟨1, 17⟩⟩,
   ⟨.tok_word, "char", 0, ⟨1, 20⟩⟩,
   ⟨.tok_word, "int", 0, ⟨1, 25⟩⟩,
   ⟨.tok_keyword, "\x7b", Keyword.keyword_begin.toInt, ⟨1, 29⟩⟩,
   ⟨.tok_intrinsic, "swap", intrinsic_swap, ⟨1, 31⟩⟩,
   ⟨.tok_keyword, "\x7d", Keyword.keyword_end.toInt, ⟨1, 36⟩⟩]

/-- The token of the intrinsic `drop`. -/
def drop_token : Token := ⟨.tok_intrinsic, "drop", intrinsic_drop, ⟨1, 3⟩⟩

/-- The token of the intrinsic `dup`. -/
def dup_token : Token := ⟨.tok_intrinsic, "dup", intrinsic_dup, ⟨1, 3⟩⟩

/-- The token of the intrinsic `and`. -/
def and_token : Token := ⟨.tok_intrinsic, "and", intrinsic_and, ⟨1, 3⟩⟩

/-- The token of the intrinsic `not`. -/
def not_token : Token := ⟨.tok_intrinsic, "not", intrinsic_not, ⟨1, 3⟩⟩

/-- The token of the intrinsic `=`. -/
def equal_token : Token := ⟨.tok_intrinsic, "=", intrinsic_equal, ⟨1, 3⟩⟩

/-- The token that closes a block. -/
def end_token : Token := ⟨.tok_keyword, "\x7d", Keyword.keyword_end.toInt, ⟨1, 9⟩⟩

/-- The tokens of `if 1 { } elif 2 { 3 } else { 4 } }`: a conditional with an else-if
and an else branch, and the `}` that closes the enclosing block. -/
def if_elif_else_tokens : List Token :=
  [⟨.tok_keyword, "if", Keyword.keyword_if.toInt, ⟨1, 1⟩⟩,
   ⟨.tok_int, "1", 1, ⟨1, 4⟩⟩,
   ⟨.tok_keyword, "\x7b", Keyword.keyword_begin.toInt, ⟨1, 6⟩⟩,
   ⟨.tok_keyword, "\x7d", Keyword.keyword_end.toInt, ⟨1, 8⟩⟩,
   ⟨.tok_keyword, "elif", Keyword.keyword_else_if.toInt, ⟨1, 10⟩⟩,
   ⟨.tok_int, "2", 2, ⟨1, 15⟩⟩,
   ⟨.tok_keyword, "\x7b", Keyword.keyword_begin.toInt, ⟨1, 17⟩⟩,
   ⟨.tok_int, "3", 3, ⟨1, 19⟩⟩,
   ⟨.tok_keyword, "\x7d", Keyword.keyword_end.toInt, ⟨1, 21⟩⟩,
   ⟨.tok_keyword, "else", Keyword.keyword_else.toInt, ⟨1, 23⟩⟩,
   ⟨.tok_keyword, "\x7b", Keyword.keyword_begin.toInt, ⟨1, 28⟩⟩,
   ⟨.tok_int, "4", 4, ⟨1, 30⟩⟩,
   ⟨.tok_keyword, "\x7d", Keyword.keyword_end.toInt, ⟨1, 32⟩⟩,
   ⟨.tok_keyword, "\x7d", Keyword.keyword_end.toInt, ⟨1, 34⟩⟩]

/-- A run of the loop of `parse_program` that returns normally, from a lexer and a
program: the functions that `parse_function` returned, in order (the function
definitions of the input), and the program that is returned. Every token met at top
level is the `func` keyword, until the end of input. -/
inductive Definitions : Lexer → Program → List Function → Program → Prop where
  /-- the end of input is reached -/
  | eof (lexer : Lexer) (program : Program) :
    lexer.current_token.type = .tok_eof →
    Definitions lexer program [] program
  /-- a function definition is parsed and inserted, and the loop goes on after the
  token on which `parse_function` returned -/
  | func (fuel : Nat) (lexer : Lexer) (program : Program) (f : Function) (lexer' : Lexer)
      (fs : List Function) (result : Program) :
    is_keyword lexer.current_token .keyword_function = true →
    parse_function fuel lexer program = .ok (f, lexer') →
    Definitions lexer'.next_token (program.insert f.name f) fs result →
    Definitions lexer program (f :: fs) result

/-- The keys of a program, in insertion order. -/
def ast.Program.keys (program : Program) : List String :=
  program.functions.map Prod.fst

/-- The tokens of `func f int -- int { } func f int -- int { }`. -/
def redefinition_tokens : List Token :=
  [⟨.tok_keyword, "func", Keyword.keyword_function.toInt, ⟨1, 1⟩⟩,
   ⟨.tok_word, "f", 0, ⟨1, 6⟩⟩,
   ⟨.tok_word, "int", 0, ⟨1, 8⟩⟩,
   ⟨.tok_word, "--", 0, ⟨1, 12⟩⟩,
   ⟨.tok_word, "int", 0, ⟨1, 15⟩⟩,
   ⟨.tok_keyword, "\x7b", Keyword.keyword_begin.toInt, ⟨1, 19⟩⟩,
   ⟨.tok_keyword, "\x7d", Keyword.keyword_end.toInt, ⟨1, 21⟩⟩,
   ⟨.tok_keyword, "func", Keyword.keyword_function.toInt, ⟨1, 23⟩⟩,
   ⟨.tok_word, "f", 0, ⟨1, 28⟩⟩,
   ⟨.tok_word, "int", 0, ⟨1, 30⟩⟩,
   ⟨.tok_word, "--", 0, ⟨1, 34⟩⟩,
   ⟨.tok_word, "int", 0, ⟨1, 37⟩⟩,
   ⟨.tok_keyword, "\x7b", Keyword.keyword_begin.toInt, ⟨1, 41⟩⟩,
   ⟨.tok_keyword, "\x7d", Keyword.keyword_end.toInt, ⟨1, 43⟩⟩]

/-- The function `f` of `func f int -- int { }`: an empty body under the declared
signature `(int -- int)`. -/
def passthrough_f : Function := ⟨"f", ⟨[int_t], [int_t]⟩, .mk ⟨[], []⟩ []⟩

/-- The tokens of `func g { h } func h { }`. -/
def forward_reference_tokens : List Token :=
  [⟨.tok_keyword, "func", Keyword.keyword_function.toInt, ⟨1, 1⟩⟩,
   ⟨.tok_word, "g", 0, ⟨1, 6⟩⟩,
   ⟨.tok_keyword, "\x7b", Keyword.keyword_begin.toInt, ⟨1, 8⟩⟩,
   ⟨.tok_word, "h", 0, ⟨1, 10⟩⟩,
   ⟨.tok_keyword, "\x7d", Keyword.keyword_end.toInt, ⟨1, 12⟩⟩,
   ⟨.tok_keyword, "func", Keyword.keyword_function.toInt, ⟨1, 14⟩⟩,
   ⟨.tok_word, "h", 0, ⟨1, 19⟩⟩,
   ⟨.tok_keyword, "\x7b", Keyword.keyword_begin.toInt, ⟨1, 21⟩⟩,
   ⟨.tok_keyword, "\x7d", Keyword.keyword_end.toInt, ⟨1, 23⟩⟩]

/-- The tokens of `func r { r }`. -/
def self_call_tokens : List Token :=
  [⟨.tok_keyword, "func", Keyword.keyword_function.toInt, ⟨1, 1⟩⟩,
   ⟨.tok_word, "r", 0, ⟨1, 6⟩⟩,
   ⟨.tok_keyword, "\x7b", Keyword.keyword_begin.toInt, ⟨1, 8⟩⟩,
   ⟨.tok_word, "r", 0, ⟨1, 10⟩⟩,
   ⟨.tok_keyword, "\x7d", Keyword.keyword_end.toInt, ⟨1, 12⟩⟩]

/-- A word token that names a basic type: `int`, `bool` or `char`. -/
def is_type_word (token : Token) : Prop :=
  token.type = .tok_word
    ∧ (token.str_val = "int" ∨ token.str_val = "bool" ∨ token.str_val = "char")

/-- The word token `--` that separates the input types from the output types. -/
def is_separator (token : Token) : Prop :=
  token.type = .tok_word ∧ token.str_val = "--"

/-- The types named by a list of word tokens. -/
def type_names (tokens : List Token) : TypeStack :=
  tokens.map fun token => from_name token.str_val

/-- The message of the exception that the loops over the signature of
`parse_function` throw at a token that is not a type name. -/
def signature_message (token : Token) : Message :=
  if token.type ≠ .tok_word then .expected_word_in_signature
  else .unknown_type token.str_val

/-- The tokens of `func bad int -- bool -- {`. -/
def second_separator_tokens : List Token :=
  [⟨.tok_keyword, "func", Keyword.keyword_function.toInt, ⟨1, 1⟩⟩,
   ⟨.tok_word, "bad", 0, ⟨1, 6⟩⟩,
   ⟨.tok_word, "int", 0, ⟨1, 10⟩⟩,
   ⟨.tok_word, "--", 0, ⟨1, 14⟩⟩,
   ⟨.tok_word, "bool", 0, ⟨1, 17⟩⟩,
   ⟨.tok_word, "--", 0, ⟨1, 22⟩⟩,
   ⟨.tok_keyword, "\x7b", Keyword.keyword_begin.toInt, ⟨1, 25⟩⟩]

/-- The tokens of `func f int -- int { } func g int -- int { f }`. -/
def two_functions_tokens : List Token :=
  [⟨.tok_keyword, "func", Keyword.keyword_function.toInt, ⟨1, 1⟩⟩,
   ⟨.tok_word, "f", 0, ⟨1, 6⟩⟩,
   ⟨.tok_word, "int", 0, ⟨1, 8⟩⟩,
   ⟨.tok_word, "--", 0, ⟨1, 12⟩⟩,
   ⟨.tok_word, "int", 0, ⟨1, 15⟩⟩,
   ⟨.tok_keyword, "\x7b", Keyword.keyword_begin.toInt, ⟨1, 19⟩⟩,
   ⟨.tok_keyword, "\x7d", Keyword.keyword_end.toInt, ⟨1, 21⟩⟩,
   ⟨.tok_keyword, "func", Keyword.keyword_function.toInt, ⟨1, 23⟩⟩,
   ⟨.tok_word, "g", 0, ⟨1, 28⟩⟩,
   ⟨.tok_word, "int", 0, ⟨1, 30⟩⟩,
   ⟨.tok_word, "--", 0, ⟨1, 34⟩⟩,
   ⟨.tok_word, "int", 0, ⟨1, 37⟩⟩,
   ⟨.tok_keyword, "\x7b", Keyword.keyword_begin.toInt, ⟨1, 41⟩⟩,
   ⟨.tok_word, "f", 0, ⟨1, 43⟩⟩,
   ⟨.tok_keyword, "\x7d", Keyword.keyword_end.toInt, ⟨1, 45⟩⟩]

/-- The function `g` of `func g int -- int { f }`. -/
def calling_g : Function :=
  ⟨"g", ⟨[int_t], [int_t]⟩, .mk ⟨[int_t], [int_t]⟩ [.operation_string .op_call "f"]⟩

/-- The message of the exception that `parse_program` throws at a top-level token
that is neither the end of input nor the `func` keyword. -/
def top_level_message (token : Token) : Message :=
  if token.type = .tok_keyword then .unexpected_keyword token.str_val
  else .unexpected_token

/-- The tokens of `func f { if 1 1 = { 1 } else { } }`: the first branch pushes an
`int`, the else branch pushes nothing. -/
def branch_mismatch_tokens : List Token :=
  [⟨.tok_keyword, "func", Keyword.keyword_function.toInt, ⟨1, 1⟩⟩,
   ⟨.tok_word, "f", 0, ⟨1, 6⟩⟩,
   ⟨.tok_keyword, "\x7b", Keyword.keyword_begin.toInt, ⟨1, 8⟩⟩,
   ⟨.tok_keyword, "if", Keyword.keyword_if.toInt, ⟨1, 10⟩⟩,
   ⟨.tok_int, "1", 1, ⟨1, 13⟩⟩,
   ⟨.tok_int, "1", 1, ⟨1, 15⟩⟩,
   ⟨.tok_intrinsic, "=", intrinsic_equal, ⟨1, 17⟩⟩,
   ⟨.tok_keyword, "\x7b", Keyword.keyword_begin.toInt, ⟨1, 19⟩⟩,
   ⟨.tok_int, "1", 1, ⟨1, 21⟩⟩,
   ⟨.tok_keyword, "\x7d", Keyword.keyword_end.toInt, ⟨1, 23⟩⟩,
   ⟨.tok_keyword, "else", Keyword.keyword_else.toInt, ⟨1, 25⟩⟩,
   ⟨.tok_keyword, "\x7b", Keyword.keyword_begin.toInt, ⟨1, 30⟩⟩,
   ⟨.tok_keyword, "\x7d", Keyword.keyword_end.toInt, ⟨1, 32⟩⟩,
   ⟨.tok_keyword, "\x7d", Keyword.keyword_end.toInt, ⟨1, 34⟩⟩]

/-- The conditional that `parse_if` returns for `if 1 1 = { 1 } else { }`. -/
def branch_mismatch_if : IfExpression :=
  if_expression
    (.mk ⟨[], [bool_t]⟩
      [.operation_int .op_push_int 1, .operation_int .op_push_int 1, .operation .op_equal])
    (.mk ⟨[], [int_t]⟩ [.operation_int .op_push_int 1])

/-- The tokens of `func f { 1`: the body is not closed. -/
def unclosed_tokens : List Token :=
  [⟨.tok_keyword, "func", Keyword.keyword_function.toInt, ⟨1, 1⟩⟩,
   ⟨.tok_word, "f", 0, ⟨1, 6⟩⟩,
   ⟨.tok_keyword, "\x7b", Keyword.keyword_begin.toInt, ⟨1, 8⟩⟩,
   ⟨.tok_int, "1", 1, ⟨1, 10⟩⟩]

/-- The tokens of `func f { { 1 }`: the inner block is closed, the body is not. -/
def unclosed_outer_tokens : List Token :=
  [⟨.tok_keyword, "func", Keyword.keyword_function.toInt, ⟨1, 1⟩⟩,
   ⟨.tok_word, "f", 0, ⟨1, 6⟩⟩,
   ⟨.tok_keyword, "\x7b", Keyword.keyword_begin.toInt, ⟨1, 8⟩⟩,
   ⟨.tok_keyword, "\x7b", Keyword.keyword_begin.toInt, ⟨1, 10⟩⟩,
   ⟨.tok_int, "1", 1, ⟨1, 12⟩⟩,
   ⟨.tok_keyword, "\x7d", Keyword.keyword_end.toInt, ⟨1, 14⟩⟩]

/-- The tokens of `func f { if 1 } { } }`: a `}` inside the condition of a
conditional. -/
def end_in_condition_tokens : List Token :=
  [⟨.tok_keyword, "func", Keyword.keyword_function.toInt, ⟨1, 1⟩⟩,
   ⟨.tok_word, "f", 0, ⟨1, 6⟩⟩,
   ⟨.tok_keyword, "\x7b", Keyword.keyword_begin.toInt, ⟨1, 8⟩⟩,
   ⟨.tok_keyword, "if", Keyword.keyword_if.toInt, ⟨1, 10⟩⟩,
   ⟨.tok_int, "1", 1, ⟨1, 13⟩⟩,
   ⟨.tok_keyword, "\x7d", Keyword.keyword_end.toInt, ⟨1, 15⟩⟩,
   ⟨.tok_keyword, "\x7b", Keyword.keyword_begin.toInt, ⟨1, 17⟩⟩,
   ⟨.tok_keyword, "\x7d", Keyword.keyword_end.toInt, ⟨1, 19⟩⟩,
   ⟨.tok_keyword, "\x7d", Keyword.keyword_end.toInt, ⟨1, 21⟩⟩]

/-- The tokens of `func f { else }`. -/
def misplaced_else_tokens : List Token :=
  [⟨.tok_keyword, "func", Keyword.keyword_function.toInt, ⟨1, 1⟩⟩,
   ⟨.tok_word, "f", 0, ⟨1, 6⟩⟩,
   ⟨.tok_keyword, "\x7b", Keyword.keyword_begin.toInt, ⟨1, 8⟩⟩,
   ⟨.tok_keyword, "else", Keyword.keyword_else.toInt, ⟨1, 10⟩⟩,
   ⟨.tok_keyword, "\x7d", Keyword.keyword_end.toInt, ⟨1, 15⟩⟩]

/-- The tokens of `func f { while 1 { } }`. -/
def while_tokens : List Token :=
  [⟨.tok_keyword, "func", Keyword.keyword_function.toInt, ⟨1, 1⟩⟩,
   ⟨.tok_word, "f", 0, ⟨1, 6⟩⟩,
   ⟨.tok_keyword, "\x7b", Keyword.keyword_begin.toInt, ⟨1, 8⟩⟩,
   ⟨.tok_keyword, "while", Keyword.keyword_while.toInt, ⟨1, 10⟩⟩,
   ⟨.tok_int, "1", 1, ⟨1, 16⟩⟩,
   ⟨.tok_keyword, "\x7b", Keyword.keyword_begin.toInt, ⟨1, 18⟩⟩,
   ⟨.tok_keyword, "\x7d", Keyword.keyword_end.toInt, ⟨1, 20⟩⟩,
   ⟨.tok_keyword, "\x7d", Keyword.keyword_end.toInt, ⟨1, 22⟩⟩]

/-- The tokens of `func f { "hi" }`. -/
def string_tokens : List Token :=
  [⟨.tok_keyword, "func", Keyword.keyword_function.toInt, ⟨1, 1⟩⟩,
   ⟨.tok_word, "f", 0, ⟨1, 6⟩⟩,
   ⟨.tok_keyword, "\x7b", Keyword.keyword_begin.toInt, ⟨1, 8⟩⟩,
   ⟨.tok_str, "hi", 0, ⟨1, 10⟩⟩,
   ⟨.tok_keyword, "\x7d", Keyword.keyword_end.toInt, ⟨1, 15⟩⟩]

mutual
/-- An expression holds a node that the parser cannot build: a loop, or an operation
with a string value other than the call of a function by its name (such as the push
of a string). -/
def ast.Expression.has_unimplemented : Expression → Bool
  | .operation _ => false
  | .operation_string operation _ => decide (operation ≠ .op_call)
  | .operation_int _ _ => false
  | .scope s => s.has_unimplemented
  | .if_expression e => e.has_unimplemented
  | .while_expression _ => true
def ast.Scope.has_unimplemented : Scope → Bool
  | .mk _ expressions => ast.has_unimplemented_list expressions
def ast.has_unimplemented_list : List Expression → Bool
  | [] => false
  | e :: es => e.has_unimplemented || ast.has_unimplemented_list es
def ast.ConditionalBranch.has_unimplemented : ConditionalBranch → Bool
  | .mk condition body => condition.has_unimplemented || body.has_unimplemented
def ast.IfExpression.has_unimplemented : IfExpression → Bool
  | .mk _ first_if else_if else_body =>
    first_if.has_unimplemented || ast.has_unimplemented_branches else_if
      || else_body.has_unimplemented
def ast.has_unimplemented_branches : List ConditionalBranch → Bool
  | [] => false
  | b :: bs => b.has_unimplemented || ast.has_unimplemented_branches bs
end

/-- The tokens of `func f { 1 if drop { } }`: the condition of the conditional drops
the value that the body has pushed. -/
def drop_in_condition_tokens : List Token :=
  [⟨.tok_keyword, "func", Keyword.keyword_function.toInt, ⟨1, 1⟩⟩,
   ⟨.tok_word, "f", 0, ⟨1, 6⟩⟩,
   ⟨.tok_keyword, "\x7b", Keyword.keyword_begin.toInt, ⟨1, 8⟩⟩,
   ⟨.tok_int, "1", 1, ⟨1, 10⟩⟩,
   ⟨.tok_keyword, "if", Keyword.keyword_if.toInt, ⟨1, 12⟩⟩,
   ⟨.tok_intrinsic, "drop", intrinsic_drop, ⟨1, 15⟩⟩,
   ⟨.tok_keyword, "\x7b", Keyword.keyword_begin.toInt, ⟨1, 20⟩⟩,
   ⟨.tok_keyword, "\x7d", Keyword.keyword_end.toInt, ⟨1, 22⟩⟩,
   ⟨.tok_keyword, "\x7d", Keyword.keyword_end.toInt, ⟨1, 24⟩⟩]

/-- The conditional of `drop_in_condition_tokens` as `parse_if` returns it. -/
def drop_in_condition_if : IfExpression :=
  if_expression (.mk ⟨[int_t], []⟩ [.operation .op_drop]) (.mk ⟨[], []⟩ [])

/-- The body of `drop_in_condition_tokens` when its closing `}` is reached. -/
def drop_in_condition_body : Scope :=
  .mk ⟨[], []⟩ [.operation_int .op_push_int 1, .if_expression drop_in_condition_if]

theorem match_signature_loop_eq (outer : TypeSignature) (hint : outer.in.length < 2 ^ 31) :
    ∀ (n i : Nat), i + n ≤ outer.in.length → i + n ≤ outer.out.length →
      match_signature_loop outer n i
        = some (decide ((outer.in.drop i).take n = (outer.out.drop i).take n)) := by
  intro n
  induction n with
  | zero => intro i _ _; simp [match_signature_loop]
  | succ n ih =>
    intro i h1 h2
    have hi1 : i < outer.in.length := by omega
    have hi2 : i < outer.out.length := by omega
    have e1 : outer.in.drop i = outer.in[i] :: outer.in.drop (i + 1) :=
      List.drop_eq_getElem_cons hi1
    have e2 : outer.out.drop i = outer.out[i] :: outer.out.drop (i + 1) :=
      List.drop_eq_getElem_cons hi2
    rw [match_signature_loop, List.get?_eq_getElem?, List.get?_eq_getElem?,
      List.getElem?_eq_getElem hi1, List.getElem?_eq_getElem hi2]
    simp only [e1, e2, List.take_succ_cons, List.cons.injEq]
    by_cases hab : outer.in[i] = outer.out[i]
    · rw [if_neg (by simpa using hab), if_neg (by omega), ih (i + 1) (by omega) (by omega)]
      simp [hab]
    · rw [if_pos hab]
      simp [hab]

theorem size_lt_int64_of_nonneg (size : Nat) (v : Nat) (hv : (v : Int) < 2 ^ 64) :
    size_lt_int64 size (v : Int) = decide (size < v) := by
  unfold size_lt_int64
  rw [Int.emod_eq_of_lt (by omega) hv]
  simp

/-- The value of `match_signature` when the inferred input is not longer than the
declared one, the size of the declared input being in the range of the `int` counter
and the size of the declared output a `size_t` value. -/
theorem match_signature_eq (declared inferred : TypeSignature) (o : Nat)
    (hoff : (declared.in.length : Int) - (inferred.in.length : Int) = (o : Int))
    (hin : (declared.in.length : Int) < 2 ^ 31) (hout : (declared.out.length : Int) < 2 ^ 64) :
    match_signature declared inferred
      = some (decide (o ≤ declared.out.length ∧ declared.in.take o = declared.out.take o
          ∧ declared.out.drop o = inferred.out)) := by
  unfold match_signature
  simp only [hoff, Int.toNat_ofNat]
  rw [size_lt_int64_of_nonneg _ _ (by omega)]
  by_cases h1 : declared.out.length < o
  · rw [if_pos (by simpa using h1)]
    have : ¬ o ≤ declared.out.length := by omega
    simp [this]
  · rw [if_neg (by simpa using h1)]
    rw [match_signature_loop_eq declared (by omega) o 0 (by omega) (by omega)]
    simp only [List.drop_zero]
    by_cases h2 : declared.in.take o = declared.out.take o
    · rw [decide_eq_true h2]
      simp only []
      rw [Int.emod_eq_of_lt (by omega) (by omega)]
      by_cases h3 : (declared.out.length : Int) - (o : Int) = (inferred.out.length : Int)
      · have h5 : (declared.out.drop o).take inferred.out.length = declared.out.drop o := by
          apply List.take_of_length_le
          simp only [List.length_drop]; omega
        rw [if_neg (by simpa using h3), if_neg (by omega), h5]
        have h6 : o ≤ declared.out.length := by omega
        by_cases h7 : inferred.out = declared.out.drop o
        · simp [h2, h6, h7]
        · have h8 : ¬ declared.out.drop o = inferred.out := fun h => h7 h.symm
          simp [h2, h6, h7, h8]
      · rw [if_pos (by simpa using h3)]
        have h4 : ¬ declared.out.drop o = inferred.out := by
          intro h
          have := congrArg List.length h
          simp only [List.length_drop] at this
          omega
        simp [h4]
    · rw [decide_eq_false h2]
      simp [h2]

/-- C6. For signatures `declared`, `inferred` with `|inferred.in| ≤ |declared.in|` and
`offset = |declared.in| - |inferred.in|` (`|declared.in|` below `2 ^ 31`, the range of
the `int` counter of the loop, and `|declared.out|` a `size_t` value, so below
`2 ^ 64`): `match_signature declared inferred` returns `true` exactly when
`offset ≤ |declared.out|`, the first `offset` elements of `declared.in` and of
`declared.out` agree, and `declared.out` without its first `offset` elements is
`inferred.out`; in every other case it returns `false`. The contents of
`inferred.in` play no part. -/
theorem match_signature_iff (declared inferred : TypeSignature)
    (hle : inferred.in.length ≤ declared.in.length)
    (hin : (declared.in.length : Int) < 2 ^ 31) (hout : (declared.out.length : Int) < 2 ^ 64) :
    (match_signature declared inferred = some true ↔
      (declared.in.length - inferred.in.length ≤ declared.out.length
        ∧ declared.in.take (declared.in.length - inferred.in.length)
            = declared.out.take (declared.in.length - inferred.in.length)
        ∧ declared.out.drop (declared.in.length - inferred.in.length) = inferred.out))
    ∧ (match_signature declared inferred = some true
        ∨ match_signature declared inferred = some false) := by
  obtain ⟨o, ho⟩ : ∃ o : Nat, o = declared.in.length - inferred.in.length := ⟨_, rfl⟩
  have hoff : (declared.in.length : Int) - (inferred.in.length : Int) = (o : Int) := by omega
  rw [← ho]
  have key := match_signature_eq declared inferred o hoff hin hout
  rw [key]
  constructor
  · simp
  · by_cases h : o ≤ declared.out.length ∧ declared.in.take o = declared.out.take o
        ∧ declared.out.drop o = inferred.out
    · left; rw [decide_eq_true h]
    · right; rw [decide_eq_false h]

/-- C6, at an instance: declared `(int bool -- int char)` against inferred
`(bool -- char)` leaves one slot passing through. -/
theorem match_signature_iff_witness :
    (match_signature ⟨[int_t, bool_t], [int_t, char_t]⟩ ⟨[bool_t], [char_t]⟩ = some true ↔
      (2 - 1 ≤ 2 ∧ [int_t, bool_t].take (2 - 1) = [int_t, char_t].take (2 - 1)
        ∧ [int_t, char_t].drop (2 - 1) = [char_t]))
    ∧ (match_signature ⟨[int_t, bool_t], [int_t, char_t]⟩ ⟨[bool_t], [char_t]⟩ = some true
        ∨ match_signature ⟨[int_t, bool_t], [int_t, char_t]⟩ ⟨[bool_t], [char_t]⟩ = some false) :=
  match_signature_iff ⟨[int_t, bool_t], [int_t, char_t]⟩ ⟨[bool_t], [char_t]⟩
    (by decide) (by decide) (by decide)

/-- C7. When the stack has at least `|signature.in|` elements and its top
`|signature.in|` elements differ from `signature.in` at some position,
`check_and_apply_signature` returns `false` and the stack is unchanged. -/
theorem check_and_apply_signature_reject (signature : TypeSignature) (type_stack : TypeStack)
    (hlen : signature.in.length ≤ type_stack.length)
    (hdiff : ∃ i, i < signature.in.length ∧
      type_stack[type_stack.length - signature.in.length + i]? ≠ signature.in[i]?) :
    check_and_apply_signature signature type_stack = some (false, type_stack) := by
  obtain ⟨i, _, hi⟩ := hdiff
  unfold check_and_apply_signature
  simp only
  rw [if_neg (by omega), if_pos]
  intro heq
  apply hi
  rw [heq, List.getElem?_drop, List.length_drop]
  congr 1
  omega

/-- C7, at an instance: `(int int -- int)` on the stack `[bool, char, int]`. -/
theorem check_and_apply_signature_reject_witness :
    check_and_apply_signature ⟨[int_t, int_t], [int_t]⟩ [bool_t, char_t, int_t]
      = some (false, [bool_t, char_t, int_t]) :=
  check_and_apply_signature_reject ⟨[int_t, int_t], [int_t]⟩ [bool_t, char_t, int_t]
    (by decide) ⟨0, by decide, by decide⟩

/-- C8. On a stack `P ++ signature.in`, `check_and_apply_signature` returns `true`
and leaves `P ++ signature.out`: the elements below the inputs are the same and the
new length is `|st| - |signature.in| + |signature.out|`. -/
theorem check_and_apply_signature_accept (signature : TypeSignature) (P type_stack : TypeStack)
    (h : type_stack = P ++ signature.in) :
    check_and_apply_signature signature type_stack = some (true, P ++ signature.out)
    ∧ (P ++ signature.out).take (type_stack.length - signature.in.length)
        = type_stack.take (type_stack.length - signature.in.length)
    ∧ (P ++ signature.out).length
        = type_stack.length - signature.in.length + signature.out.length := by
  subst h
  have hl : (P ++ signature.in).length - signature.in.length = P.length := by simp
  refine ⟨?_, ?_, ?_⟩
  · unfold check_and_apply_signature
    simp only [hl]
    rw [if_neg (by simp), if_neg (by simp)]
    simp
  · rw [hl]; simp
  · rw [hl]; simp

/-- C8, at an instance: `(int int -- bool)` on the stack `[char, int, int]`. -/
theorem check_and_apply_signature_accept_witness :
    check_and_apply_signature ⟨[int_t, int_t], [bool_t]⟩ [char_t, int_t, int_t]
        = some (true, [char_t] ++ [bool_t])
    ∧ ([char_t] ++ [bool_t]).take ([char_t, int_t, int_t].length - 2)
        = [char_t, int_t, int_t].take ([char_t, int_t, int_t].length - 2)
    ∧ ([char_t] ++ [bool_t]).length = [char_t, int_t, int_t].length - 2 + 1 :=
  check_and_apply_signature_accept ⟨[int_t, int_t], [bool_t]⟩ [char_t] [char_t, int_t, int_t] rfl

/-- C9. From a `local_offset` `k ≥ 0`, `recalibrate_offset` with applied signature
`a` and scope signature `s` gives: when `|a.in| > k`, the input
`(first |a.in| - k elements of a.in) ++ s.in` and the offset `|a.out|`; when
`|a.in| ≤ k`, the input `s.in` and the offset `k - |a.in| + |a.out|`. The output
`s.out` is unchanged and the new offset is not negative. For the block `{ dup + }`
on the stack `[int]` the scope is sealed with input `[int]` (borrowed at `dup`,
where the offset becomes 2, and unchanged at `+`) and output `[int]`. -/
theorem recalibrate_offset_spec (k : Int) (hk : 0 ≤ k) (a s : TypeSignature) :
    (k < (a.in.length : Int) →
      recalibrate_offset k a s
        = ((a.out.length : Int), ⟨a.in.take (a.in.length - k.toNat) ++ s.in, s.out⟩))
    ∧ ((a.in.length : Int) ≤ k →
      recalibrate_offset k a s = (k - (a.in.length : Int) + (a.out.length : Int), s))
    ∧ (recalibrate_offset k a s).2.out = s.out
    ∧ 0 ≤ (recalibrate_offset k a s).1
    ∧ (∀ fuel, 4 ≤ fuel →
        parse_scope fuel ⟨dup_add_tokens, ⟨1, 10⟩⟩ {} [int_t] .keyword_end
          = .ok (Scope.mk ⟨[int_t], [int_t]⟩ [.operation .op_dup, .operation .op_add],
              ⟨[⟨.tok_keyword, "\x7d", Keyword.keyword_end.toInt, ⟨1, 9⟩⟩], ⟨1, 10⟩⟩, [int_t]))
    ∧ recalibrate_offset 0 ⟨[int_t], [int_t, int_t]⟩ {} = (2, ⟨[int_t], []⟩)
    ∧ recalibrate_offset 2 ⟨[int_t, int_t], [int_t]⟩ ⟨[int_t], []⟩ = (1, ⟨[int_t], []⟩) := by
  refine ⟨?_, ?_, ?_, ?_, ?_, by decide, by decide⟩
  · intro h
    unfold recalibrate_offset
    simp only
    rw [if_pos (by omega)]
    have e : (-(k - (a.in.length : Int))).toNat = a.in.length - k.toNat := by omega
    rw [e]
    simp
  · intro h
    unfold recalibrate_offset
    simp only
    rw [if_neg (by omega)]
  · unfold recalibrate_offset
    simp only
    split <;> rfl
  · unfold recalibrate_offset
    simp only
    split
    · simp
    · simp only; omega
  · intro fuel hfuel
    obtain ⟨n, rfl⟩ : ∃ n, fuel = n + 4 := ⟨fuel - 4, by omega⟩
    rfl

/-- C9, at an instance: offset 1 and the signature `(int int -- int)` of `+` on a
scope that has borrowed nothing yet: one `int` is borrowed and the offset is 1. -/
theorem recalibrate_offset_spec_witness :
    recalibrate_offset 1 ⟨[int_t, int_t], [int_t]⟩ {} = (1, ⟨[int_t], []⟩)
    ∧ (recalibrate_offset 1 ⟨[int_t, int_t], [int_t]⟩ {}).2.out = []
    ∧ 0 ≤ (recalibrate_offset 1 ⟨[int_t, int_t], [int_t]⟩ {}).1 :=
  have h := recalibrate_offset_spec 1 (by decide) ⟨[int_t, int_t], [int_t]⟩ {}
  ⟨h.1 (by decide), h.2.2.1, h.2.2.2.1⟩

theorem is_keyword_of_literal (t : Token) (k : Keyword)
    (h : t.type = .tok_int ∨ t.type = .tok_char) : is_keyword t k = false := by
  unfold is_keyword
  rcases h with h | h <;> simp [h]

theorem Scope.emplace_back_expressions (s : Scope) (e : Expression) :
    (s.emplace_back e).expressions = s.expressions ++ [e] := by
  cases s; rfl

theorem Scope.emplace_back_signature (s : Scope) (e : Expression) :
    (s.emplace_back e).signature = s.signature := by
  cases s; rfl

theorem Scope.with_signature_expressions (s : Scope) (sig : TypeSignature) :
    (s.with_signature sig).expressions = s.expressions := by
  cases s; rfl

theorem Scope.with_signature_signature (s : Scope) (sig : TypeSignature) :
    (s.with_signature sig).signature = sig := by
  cases s; rfl

theorem Scope.eta (s : Scope) : Scope.mk s.signature s.expressions = s := by
  cases s; rfl

/-- The loop of `parse_scope` on a run of literals followed by the terminator. -/
theorem parse_scope_loop_literals (program : Program) (end_keyword : Keyword)
    (terminator : Token) (rest : List Token) (eof : Location)
    (hterm : is_keyword terminator end_keyword = true) :
    ∀ (literals : List Token),
      (∀ t ∈ literals, t.type = .tok_int ∨ t.type = .tok_char) →
      ∀ (fuel : Nat) (type_stack : TypeStack) (scope : Scope) (local_offset : Int),
        literals.length + 1 ≤ fuel →
        parse_scope_loop fuel ⟨literals ++ terminator :: rest, eof⟩ program type_stack
            end_keyword scope local_offset
          = seal_scope
              (Scope.mk scope.signature
                (scope.expressions
                  ++ literals.map fun t => Expression.operation_int .op_push_int t.int_val))
              (local_offset + (literals.length : Int))
              (type_stack ++ literals.map literal_type)
              ⟨terminator :: rest, eof⟩ := by
  intro literals
  induction literals with
  | nil =>
    intro _ fuel type_stack scope local_offset hfuel
    obtain ⟨n, rfl⟩ : ∃ n, fuel = n + 1 := ⟨fuel - 1, by omega⟩
    rw [parse_scope_loop]
    simp [Lexer.current_token, hterm, Scope.eta]
  | cons t ts ih =>
    intro hl fuel type_stack scope local_offset hfuel
    obtain ⟨n, rfl⟩ : ∃ n, fuel = n + 1 := ⟨fuel - 1, by omega⟩
    have ht := hl t (List.mem_cons_self _ _)
    have hts : ∀ t ∈ ts, t.type = .tok_int ∨ t.type = .tok_char :=
      fun x hx => hl x (List.mem_cons_of_mem _ hx)
    have hk := is_keyword_of_literal t end_keyword ht
    have hn : ts.length + 1 ≤ n := by simp only [List.length_cons] at hfuel; omega
    rw [parse_scope_loop]
    simp only [Lexer.current_token, List.cons_append, hk, Bool.false_eq_true, if_false,
      Lexer.next_token, List.tail_cons]
    rcases ht with ht | ht
    · simp only [ht]
      rw [ih hts n _ _ _ hn]
      simp only [Scope.emplace_back_expressions, Scope.emplace_back_signature, List.map_cons,
        List.length_cons, literal_type, ht, if_true, List.append_assoc, List.singleton_append,
        Nat.cast_add, Nat.cast_one]
      congr 1
      omega
    · simp only [ht]
      rw [ih hts n _ _ _ hn]
      have hne : ¬ (TokenType.tok_char = TokenType.tok_int) := by decide
      simp only [Scope.emplace_back_expressions, Scope.emplace_back_signature, List.map_cons,
        List.length_cons, literal_type, ht, hne, if_false, List.append_assoc,
        List.singleton_append, Nat.cast_add, Nat.cast_one]
      congr 1
      omega

/-- C10. A scope whose tokens before the terminator are `N` integer or character
literals, parsed on any type stack `S` with at least `N + 2` units of fuel: parsing
succeeds, the inferred input is empty, the inferred output is the literals' types in
order (`int` for an integer literal, `char` for a character literal), the final
stack is `S` followed by those types, the scope holds the `N` push expressions with
the literals' values in order, and the lexer stands on the terminator. -/
theorem parse_scope_literals (program : Program) (end_keyword : Keyword)
    (lexer : Lexer) (literals : List Token) (terminator : Token) (rest : List Token)
    (S : TypeStack) (fuel : Nat)
    (htokens : lexer.next_token.tokens = literals ++ terminator :: rest)
    (hlit : ∀ t ∈ literals, t.type = .tok_int ∨ t.type = .tok_char)
    (hterm : is_keyword terminator end_keyword = true)
    (hfuel : literals.length + 2 ≤ fuel) :
    parse_scope fuel lexer program S end_keyword
      = .ok (Scope.mk ⟨[], literals.map literal_type⟩
              (literals.map fun t => Expression.operation_int .op_push_int t.int_val),
            ⟨terminator :: rest, lexer.eof_location⟩,
            S ++ literals.map literal_type)
    ∧ (literals.map literal_type).length = literals.length := by
  refine ⟨?_, by simp⟩
  obtain ⟨n, rfl⟩ : ∃ n, fuel = n + 1 := ⟨fuel - 1, by omega⟩
  have hlex : lexer.next_token = ⟨literals ++ terminator :: rest, lexer.eof_location⟩ := by
    have : lexer.next_token.eof_location = lexer.eof_location := rfl
    cases hx : lexer.next_token with
    | mk tokens eof_location =>
      rw [hx] at htokens this
      simp only at htokens this
      rw [htokens, this]
  rw [parse_scope, hlex,
    parse_scope_loop_literals program end_keyword terminator rest _ hterm literals hlit n S
      Scope.empty 0 (by omega)]
  unfold seal_scope
  have h1 : ¬ ((0 : Int) + (literals.length : Int) < 0
      ∨ ((S ++ literals.map literal_type).length : Int) < 0 + (literals.length : Int)) := by
    simp only [List.length_append, List.length_map]
    push_cast
    omega
  rw [if_neg h1]
  simp [Scope.empty, Scope.with_signature, Scope.signature, Scope.expressions]

theorem Result.bind_eq_ok {α β : Type} {r : Result α} {f : α → Result β} {b : β}
    (h : r.bind f = .ok b) : ∃ a, r = .ok a ∧ f a = .ok b := by
  cases r with
  | ok a => exact ⟨a, rfl, h⟩
  | error e => cases h
  | out_of_bounds => cases h
  | out_of_fuel => cases h

theorem has_if_list_append (xs ys : List Expression) :
    has_if_list (xs ++ ys) = (has_if_list xs || has_if_list ys) := by
  induction xs with
  | nil => simp [has_if_list]
  | cons x xs ih => simp [has_if_list, ih, Bool.or_assoc]

theorem Scope.has_if_eq (s : Scope) : s.has_if = has_if_list s.expressions := by
  cases s; simp [Scope.has_if, Scope.expressions]

theorem Scope.has_if_emplace_back (s : Scope) (e : Expression) :
    (s.emplace_back e).has_if = (s.has_if || e.has_if) := by
  simp [Scope.has_if_eq, Scope.emplace_back_expressions, has_if_list_append, has_if_list]

theorem Scope.has_if_with_signature (s : Scope) (sig : TypeSignature) :
    (s.with_signature sig).has_if = s.has_if := by
  simp [Scope.has_if_eq, Scope.with_signature_expressions]

theorem seal_scope_eq_ok {scope : Scope} {local_offset : Int} {type_stack : TypeStack}
    {lexer : Lexer} {r : Scope × Lexer × TypeStack}
    (h : seal_scope scope local_offset type_stack lexer = .ok r) :
    0 ≤ local_offset ∧ local_offset ≤ (type_stack.length : Int)
    ∧ r = (scope.with_signature
            { scope.signature with
              out := type_stack.drop (type_stack.length - local_offset.toNat)
                      ++ scope.signature.out },
          lexer, type_stack) := by
  unfold seal_scope at h
  split at h
  · cases h
  · rename_i hb
    injection h with h
    exact ⟨by omega, by omega, h.symm⟩

/-- What a normal return of the loop of `parse_scope` went through: the terminator
and the sealing of the scope, or one iteration and the rest of the loop. -/
theorem parse_scope_loop_ok_cases {program : Program} {end_keyword : Keyword} {n : Nat}
    {lexer : Lexer} {type_stack : TypeStack} {scope : Scope} {local_offset : Int}
    {r : Scope × Lexer × TypeStack}
    (h : parse_scope_loop (n + 1) lexer program type_stack end_keyword scope local_offset
      = .ok r) :
    (is_keyword lexer.current_token end_keyword = true
      ∧ seal_scope scope local_offset type_stack lexer = .ok r)
    ∨ (is_keyword lexer.current_token end_keyword = false
      ∧ ∃ lexer' type_stack' scope' local_offset',
          Iteration n program lexer type_stack scope local_offset
            lexer' type_stack' scope' local_offset'
          ∧ parse_scope_loop n lexer' program type_stack' end_keyword scope' local_offset'
              = .ok r) := by
  rw [parse_scope_loop] at h
  split at h
  · rename_i hk
    exact Or.inl ⟨hk, h⟩
  · rename_i hk
    refine Or.inr ⟨by simpa using hk, ?_⟩
    simp only at h
    split at h
    · cases h
    · rename_i ht
      have e : literal_type lexer.current_token = int_t := by simp [literal_type, ht]
      exact ⟨_, _, _, _, e ▸ Iteration.literal (Or.inl ht), h⟩
    · rename_i ht
      split at h
      · rename_i function hf
        split at h
        · cases h
        · rename_i hlen
          split at h
          · cases h
          · cases h
          · rename_i st' hc
            exact ⟨_, _, _, _, Iteration.call function st' ht hf (by omega) hc, h⟩
      · cases h
    · rename_i ht
      split at h
      · cases h
      · rename_i hkw
        obtain ⟨p, hp, h⟩ := Result.bind_eq_ok h
        exact ⟨_, _, _, _, Iteration.block p ht hkw hp, h⟩
      · cases h
      · rename_i hkw
        obtain ⟨p, hp, h⟩ := Result.bind_eq_ok h
        exact ⟨_, _, _, _, Iteration.conditional p ht hkw hp, h⟩
      · simp [parse_while, throw_at, Result.bind] at h
      · cases h
      · cases h
      · cases h
      · rename_i hkw
        exact ⟨_, _, _, _, Iteration.skip ht hkw, h⟩
    · rename_i ht
      split at h
      · cases h
      · rename_i hinv
        split at h
        · cases h
        · rename_i hsize
          split at h
          · cases h
          · rename_i signature hsig
            split at h
            · cases h
            · cases h
            · rename_i st' hc
              exact ⟨_, _, _, _,
                Iteration.intrinsic signature st' ht hinv (by simpa using hsize) hsig hc, h⟩
    · cases h
    · rename_i ht
      have e : literal_type lexer.current_token = char_t := by simp [literal_type, ht]
      exact ⟨_, _, _, _, e ▸ Iteration.literal (Or.inr ht), h⟩
    · cases h

/-- Expressions are only ever appended: an iteration keeps a conditional that the
scope already holds. -/
theorem Iteration.has_if {n : Nat} {program : Program} {lexer : Lexer}
    {type_stack : TypeStack} {scope : Scope} {local_offset : Int} {lexer' : Lexer}
    {type_stack' : TypeStack} {scope' : Scope} {local_offset' : Int}
    (h : Iteration n program lexer type_stack scope local_offset
      lexer' type_stack' scope' local_offset')
    (h' : scope'.has_if = false) : scope.has_if = false := by
  cases h <;>
    first
    | exact h'
    | (simp only [Scope.has_if_emplace_back, Scope.has_if_with_signature,
        Bool.or_eq_false_iff] at h'
       exact h'.1)

/-- A sealed scope without a conditional was built from a state without one. -/
theorem parse_scope_loop_has_if (program : Program) (end_keyword : Keyword) :
    ∀ (fuel : Nat) (lexer : Lexer) (type_stack : TypeStack) (scope : Scope)
      (local_offset : Int) (r : Scope × Lexer × TypeStack),
      parse_scope_loop fuel lexer program type_stack end_keyword scope local_offset = .ok r →
      r.1.has_if = false → scope.has_if = false := by
  intro fuel
  induction fuel with
  | zero => intro lexer type_stack scope local_offset r h; simp [parse_scope_loop] at h
  | succ n ih =>
    intro lexer type_stack scope local_offset r h hr
    rcases parse_scope_loop_ok_cases h with ⟨_, hs⟩ | ⟨_, lexer', st', scope', k', hit, hrec⟩
    · obtain ⟨_, _, rfl⟩ := seal_scope_eq_ok hs
      simpa [Scope.has_if_with_signature] using hr
    · exact hit.has_if (ih _ _ _ _ _ hrec hr)

theorem check_and_apply_signature_eq_true {signature : TypeSignature}
    {type_stack type_stack' : TypeStack}
    (h : check_and_apply_signature signature type_stack = some (true, type_stack')) :
    ∃ P, type_stack = P ++ signature.in ∧ type_stack' = P ++ signature.out := by
  unfold check_and_apply_signature at h
  simp only at h
  split at h
  · cases h
  · rename_i hlen
    split at h
    · cases h
    · rename_i heq
      simp only [ne_eq, not_not] at heq
      simp only [Option.some.injEq, Prod.mk.injEq, true_and] at h
      refine ⟨type_stack.take (type_stack.length - signature.in.length), ?_, h.symm⟩
      conv_lhs => rw [← List.take_append_drop (type_stack.length - signature.in.length) type_stack]
      rw [← heq]

theorem Borrowed.apply {S P : TypeStack} {scope : Scope} {local_offset : Int}
    {a : TypeSignature} (e : Expression)
    (h : Borrowed S (P ++ a.in) scope local_offset) :
    Borrowed S (P ++ a.out)
      ((scope.with_signature (recalibrate_offset local_offset a scope.signature).2).emplace_back e)
      (recalibrate_offset local_offset a scope.signature).1 := by
  obtain ⟨Q, L, hS, hst, hk, hout⟩ := h
  subst hk
  unfold Borrowed
  simp only [Scope.emplace_back_signature, Scope.with_signature_signature]
  unfold recalibrate_offset
  simp only
  by_cases hlt : (L.length : Int) - (a.in.length : Int) < 0
  · rw [if_pos hlt]
    simp only
    -- the step reaches below the watermark: `a.in = B ++ L` and `Q = P ++ B`
    have hlen : L.length ≤ a.in.length := by omega
    obtain ⟨B, hB⟩ : ∃ B, a.in = B ++ L := by
      refine ⟨a.in.take (a.in.length - L.length), ?_⟩
      have h1 : (P ++ a.in).drop ((P ++ a.in).length - L.length) = a.in.drop (a.in.length - L.length) := by
        rw [List.drop_append_eq_append_drop]
        have : (P ++ a.in).length - L.length - P.length = a.in.length - L.length := by
          simp only [List.length_append]; omega
        rw [this, List.drop_of_length_le (by simp only [List.length_append]; omega)]
        simp
      have h2 : (Q ++ L).drop ((Q ++ L).length - L.length) = L := by simp
      rw [hst, h2] at h1
      conv_lhs => rw [← List.take_append_drop (a.in.length - L.length) a.in]
      rw [← h1]
    have hQ : Q = P ++ B := by
      rw [hB, ← List.append_assoc] at hst
      exact (List.append_cancel_right hst).symm
    have htake : a.in.take (-((L.length : Int) - (a.in.length : Int))).toNat = B := by
      have hBl : a.in.length = B.length + L.length := by rw [hB]; simp
      have : (-((L.length : Int) - (a.in.length : Int))).toNat = B.length := by omega
      rw [this, hB]
      simp
    refine ⟨P, a.out, ?_, rfl, by simp, hout⟩
    rw [htake, hS, hQ]
    simp
  · rw [if_neg hlt]
    simp only
    -- the step stays above the watermark: `L = L₁ ++ a.in` and `P = Q ++ L₁`
    have hlen : a.in.length ≤ L.length := by omega
    obtain ⟨L₁, hL⟩ : ∃ L₁, L = L₁ ++ a.in := by
      refine ⟨L.take (L.length - a.in.length), ?_⟩
      have h1 : (Q ++ L).drop ((Q ++ L).length - a.in.length) = L.drop (L.length - a.in.length) := by
        rw [List.drop_append_eq_append_drop]
        have : (Q ++ L).length - a.in.length - Q.length = L.length - a.in.length := by
          simp only [List.length_append]; omega
        rw [this, List.drop_of_length_le (by simp only [List.length_append]; omega)]
        simp
      have h2 : (P ++ a.in).drop ((P ++ a.in).length - a.in.length) = a.in := by simp
      rw [← hst, h2] at h1
      conv_lhs => rw [← List.take_append_drop (L.length - a.in.length) L]
      rw [← h1]
    have hP : P = Q ++ L₁ := by
      rw [hL, ← List.append_assoc] at hst
      exact List.append_cancel_right hst
    refine ⟨Q, L₁ ++ a.out, hS, by rw [hP]; simp, ?_, hout⟩
    rw [hL]
    simp only [List.length_append]
    push_cast
    omega

/-- The passthrough property of the loop and of `parse_scope`, by induction on the
fuel. -/
theorem parse_scope_passthrough_aux (program : Program) :
    ∀ (fuel : Nat),
      (∀ (lexer : Lexer) (type_stack : TypeStack) (end_keyword : Keyword) (scope : Scope)
        (local_offset : Int) (r : Scope × Lexer × TypeStack) (S : TypeStack),
        parse_scope_loop fuel lexer program type_stack end_keyword scope local_offset = .ok r →
        r.1.has_if = false → Borrowed S type_stack scope local_offset →
        ∃ P, S = P ++ r.1.signature.in ∧ r.2.2 = P ++ r.1.signature.out)
      ∧ (∀ (lexer : Lexer) (S : TypeStack) (end_keyword : Keyword)
        (r : Scope × Lexer × TypeStack),
        parse_scope fuel lexer program S end_keyword = .ok r →
        r.1.has_if = false →
        ∃ P, S = P ++ r.1.signature.in ∧ r.2.2 = P ++ r.1.signature.out) := by
  intro fuel
  induction fuel with
  | zero =>
    constructor
    · intro lexer type_stack end_keyword scope local_offset r S h
      simp [parse_scope_loop] at h
    · intro lexer S end_keyword r h
      simp [parse_scope] at h
  | succ n ih =>
    obtain ⟨ih_loop, ih_scope⟩ := ih
    constructor
    · intro lexer type_stack end_keyword scope local_offset r S h hr hinv
      rcases parse_scope_loop_ok_cases h with ⟨_, hs⟩ | ⟨_, lexer', st', scope', k', hit, hrec⟩
      · obtain ⟨_, _, rfl⟩ := seal_scope_eq_ok hs
        obtain ⟨Q, L, hS, hst, hk, hout⟩ := hinv
        refine ⟨Q, ?_, ?_⟩
        · simpa [Scope.with_signature_signature] using hS
        · subst hk
          simp [Scope.with_signature_signature, hout, hst]
      · have hno := parse_scope_loop_has_if program end_keyword n _ _ _ _ _ hrec hr
        apply ih_loop _ _ _ _ _ _ S hrec hr
        cases hit with
        | literal ht =>
          obtain ⟨Q, L, hS, hst, hk, hout⟩ := hinv
          refine ⟨Q, L ++ [literal_type lexer.current_token], ?_, ?_, ?_, ?_⟩
          · simpa [Scope.emplace_back_signature] using hS
          · rw [hst]; simp
          · rw [hk]; simp
          · simpa [Scope.emplace_back_signature] using hout
        | call function st' ht hf hlen hc =>
          obtain ⟨P, h1, h2⟩ := check_and_apply_signature_eq_true hc
          subst h1 h2
          exact hinv.apply _
        | intrinsic signature st' ht hinval hsize hsig hc =>
          obtain ⟨P, h1, h2⟩ := check_and_apply_signature_eq_true hc
          subst h1 h2
          exact hinv.apply _
        | block p ht hkw hp =>
          have hp_no : p.1.has_if = false := by
            simp only [Scope.has_if_emplace_back, Bool.or_eq_false_iff, Expression.has_if] at hno
            exact hno.2
          obtain ⟨P, h1, h2⟩ := ih_scope _ _ _ _ hp hp_no
          rw [h2]
          rw [h1] at hinv
          exact hinv.apply _
        | conditional p ht hkw hp =>
          simp [Scope.has_if_emplace_back, Expression.has_if] at hno
        | skip ht hkw => exact hinv
    · intro lexer S end_keyword r h hr
      rw [parse_scope] at h
      exact ih_loop _ _ _ _ _ _ S h hr ⟨S, [], by simp [Scope.empty, Scope.signature],
        by simp, by simp, by simp [Scope.empty, Scope.signature]⟩

/-- C1. If `parse_scope`, entered with the type stack `S`, returns a scope that holds
no conditional at any depth, with inferred signature `(in, out)` and final type
stack `S'`, then `S = P ++ in` and `S' = P ++ out` for some `P`: the scope touches
the top `|in|` elements of `S` and leaves everything below as it was. -/
theorem parse_scope_passthrough (fuel : Nat) (lexer : Lexer) (program : Program)
    (S : TypeStack) (end_keyword : Keyword) (scope : Scope) (lexer' : Lexer) (S' : TypeStack)
    (h : parse_scope fuel lexer program S end_keyword = .ok (scope, lexer', S'))
    (hno : scope.has_if = false) :
    ∃ P, S = P ++ scope.signature.in ∧ S' = P ++ scope.signature.out :=
  (parse_scope_passthrough_aux program fuel).2 lexer S end_keyword (scope, lexer', S') h hno

/-- C1, at an instance: the block `{ 1 { + } }` on the stack `[bool, int]` borrows
the `int` and leaves the `bool` below it untouched. -/
theorem parse_scope_passthrough_witness :
    ∃ P, [bool_t, int_t] = P ++ [int_t] ∧ [bool_t, int_t] = P ++ [int_t] :=
  parse_scope_passthrough 6 ⟨nested_block_tokens, ⟨1, 11⟩⟩ {} [bool_t, int_t] .keyword_end
    (.mk ⟨[int_t], [int_t]⟩
      [.operation_int .op_push_int 1, .scope (.mk ⟨[int_t, int_t], [int_t]⟩ [.operation .op_add])])
    ⟨[⟨.tok_keyword, "\x7d", Keyword.keyword_end.toInt, ⟨1, 11⟩⟩], ⟨1, 11⟩⟩ [bool_t, int_t]
    rfl rfl

/-- C10, at an instance: the block `{ 7 'a' }` on the stack `[bool]`. -/
theorem parse_scope_literals_witness :
    parse_scope 4 ⟨literal_block_tokens, ⟨1, 9⟩⟩ {} [bool_t] .keyword_end
      = .ok (Scope.mk ⟨[], [int_t, char_t]⟩
              [.operation_int .op_push_int 7, .operation_int .op_push_int 97],
            ⟨[⟨.tok_keyword, "\x7d", Keyword.keyword_end.toInt, ⟨1, 9⟩⟩], ⟨1, 9⟩⟩,
            [bool_t, int_t, char_t])
    ∧ [int_t, char_t].length = 2 :=
  parse_scope_literals {} .keyword_end ⟨literal_block_tokens, ⟨1, 9⟩⟩
    [⟨.tok_int, "7", 7, ⟨1, 3⟩⟩, ⟨.tok_char, "a", 97, ⟨1, 5⟩⟩]
    ⟨.tok_keyword, "\x7d", Keyword.keyword_end.toInt, ⟨1, 9⟩⟩ [] [bool_t] 4
    rfl (by decide) (by decide) (by decide)

/-- On a body that passes `P` through, `match_signature` tests whether the declared
output is `P` followed by the inferred output. -/
theorem match_signature_of_passthrough (declared inferred : TypeSignature) (P : TypeStack)
    (hP : declared.in = P ++ inferred.in)
    (hin : (declared.in.length : Int) < 2 ^ 31) (hout : (declared.out.length : Int) < 2 ^ 64) :
    match_signature declared inferred = some (decide (P ++ inferred.out = declared.out)) := by
  have hlen : declared.in.length = P.length + inferred.in.length := by rw [hP]; simp
  rw [match_signature_eq declared inferred P.length (by omega) hin hout]
  congr 1
  have htake : declared.in.take P.length = P := by rw [hP]; simp
  rw [htake]
  by_cases h : P ++ inferred.out = declared.out
  · rw [decide_eq_true h, ← h]
    simp
  · rw [decide_eq_false h]
    simp only [decide_eq_false_iff_not, not_and]
    intro _ h2 h3
    apply h
    rw [h2, ← h3, List.take_append_drop]

/-- The outcome of `parse_function` once the header and the body have been read. -/
theorem parse_function_eq (fuel : Nat) (lexer : Lexer) (program : Program) (name : String)
    (signature : TypeSignature) (lexer_body : Lexer)
    (hheader : parse_function_header lexer program = .ok (name, signature, lexer_body)) :
    parse_function fuel lexer program
      = (parse_scope fuel lexer_body program signature.in .keyword_end).bind fun b =>
          match match_signature signature b.1.signature with
          | none => .out_of_bounds
          | some false => throw_at b.2.1 (.signature_does_not_match signature b.1.signature)
          | some true => .ok (⟨name, signature, b.1⟩, b.2.1) := by
  unfold parse_function
  rw [hheader]
  rfl

/-- C3. For a function whose header is well formed (it yields `name`, `signature`
and the lexer on the opening `{`; the declared input list is shorter than `2 ^ 31`,
the range of the `int` counter of `match_signature`, and the declared output list is
a vector, so shorter than `2 ^ 64`) and whose body holds no conditional at any depth:
`parse_function`
returns the function `f` exactly when `parse_scope`, started on the declared input
list, returns `f.body` with the final type stack equal to the declared output list
(and `f` carries the declared name and signature). On such a body `match_signature`
holds exactly when the final stack is the declared output. -/
theorem parse_function_accepts_iff (fuel : Nat) (lexer : Lexer) (program : Program)
    (name : String) (signature : TypeSignature) (lexer_body : Lexer)
    (hheader : parse_function_header lexer program = .ok (name, signature, lexer_body))
    (hin : (signature.in.length : Int) < 2 ^ 31) (hout : (signature.out.length : Int) < 2 ^ 64)
    (hno : ∀ b, parse_scope fuel lexer_body program signature.in .keyword_end = .ok b →
      b.1.has_if = false) :
    (∀ f lexer', parse_function fuel lexer program = .ok (f, lexer') ↔
      ∃ S', parse_scope fuel lexer_body program signature.in .keyword_end
              = .ok (f.body, lexer', S')
        ∧ S' = signature.out ∧ f.name = name ∧ f.signature = signature)
    ∧ (∀ b, parse_scope fuel lexer_body program signature.in .keyword_end = .ok b →
        (match_signature signature b.1.signature = some true ↔ b.2.2 = signature.out)) := by
  have hmatch : ∀ b, parse_scope fuel lexer_body program signature.in .keyword_end = .ok b →
      match_signature signature b.1.signature = some (decide (b.2.2 = signature.out)) := by
    intro b hb
    obtain ⟨P, h1, h2⟩ := (parse_scope_passthrough_aux program fuel).2 _ _ _ b hb (hno b hb)
    rw [match_signature_of_passthrough signature b.1.signature P h1 hin hout, h2]
  constructor
  · intro f lexer'
    rw [parse_function_eq fuel lexer program name signature lexer_body hheader]
    constructor
    · intro h
      obtain ⟨b, hb, h⟩ := Result.bind_eq_ok h
      rw [hmatch b hb] at h
      by_cases hS : b.2.2 = signature.out
      · rw [decide_eq_true hS] at h
        simp only [Result.ok.injEq, Prod.mk.injEq] at h
        obtain ⟨hf, hl⟩ := h
        subst hf hl
        exact ⟨b.2.2, hb, hS, rfl, rfl⟩
      · rw [decide_eq_false hS] at h
        cases h
    · rintro ⟨S', hb, hS, hname, hsig⟩
      rw [hb]
      simp only [Result.bind]
      rw [hmatch _ hb, decide_eq_true hS]
      cases f
      simp only at hname hsig
      subst hname hsig
      rfl
  · intro b hb
    rw [hmatch b hb]
    simp

/-- C3, at an instance: `func add2 int -- int { 1 + }`, whose body leaves `[int]`. -/
theorem parse_function_accepts_iff_witness :
    (∀ f lexer', parse_function 4 ⟨add2_tokens, ⟨1, 28⟩⟩ {} = .ok (f, lexer') ↔
      ∃ S', parse_scope 4 ⟨add2_tokens.drop 5, ⟨1, 28⟩⟩ {} [int_t] .keyword_end
              = .ok (f.body, lexer', S')
        ∧ S' = [int_t] ∧ f.name = "add2" ∧ f.signature = ⟨[int_t], [int_t]⟩)
    ∧ (∀ b, parse_scope 4 ⟨add2_tokens.drop 5, ⟨1, 28⟩⟩ {} [int_t] .keyword_end = .ok b →
        (match_signature ⟨[int_t], [int_t]⟩ b.1.signature = some true ↔ b.2.2 = [int_t])) :=
  parse_function_accepts_iff 4 ⟨add2_tokens, ⟨1, 28⟩⟩ {} "add2" ⟨[int_t], [int_t]⟩
    ⟨add2_tokens.drop 5, ⟨1, 28⟩⟩ rfl (by decide) (by decide)
    (fun b hb => by
      have e : parse_scope 4 ⟨add2_tokens.drop 5, ⟨1, 28⟩⟩ {} [int_t] .keyword_end
          = .ok (add2_body, ⟨add2_tokens.drop 8, ⟨1, 28⟩⟩, [int_t]) := rfl
      rw [e] at hb
      cases hb
      rfl)

/-- C4. Parsing `func add2 int -- int { 1 + }` into an empty program succeeds. The
body, parsed on the declared input `[int]`, is sealed with the signature
`(int -- int)` (the `+` borrows the declared `int`), which matches the declared
signature, and the program holds exactly the function `add2` with the declared
signature `(int -- int)`. -/
theorem parse_program_add2 :
    parse_program ⟨add2_tokens, ⟨1, 28⟩⟩
      = .ok ⟨[("add2", ⟨"add2", ⟨[int_t], [int_t]⟩, add2_body⟩)]⟩
    ∧ (∀ fuel, 5 ≤ fuel →
        parse_program_loop fuel ⟨add2_tokens, ⟨1, 28⟩⟩ {}
          = .ok ⟨[("add2", ⟨"add2", ⟨[int_t], [int_t]⟩, add2_body⟩)]⟩)
    ∧ parse_function_header ⟨add2_tokens, ⟨1, 28⟩⟩ {}
        = .ok ("add2", ⟨[int_t], [int_t]⟩, ⟨add2_tokens.drop 5, ⟨1, 28⟩⟩)
    ∧ (∀ fuel, 4 ≤ fuel →
        parse_scope fuel ⟨add2_tokens.drop 5, ⟨1, 28⟩⟩ {} [int_t] .keyword_end
          = .ok (add2_body, ⟨add2_tokens.drop 8, ⟨1, 28⟩⟩, [int_t]))
    ∧ add2_body.signature = ⟨[int_t], [int_t]⟩
    ∧ match_signature ⟨[int_t], [int_t]⟩ add2_body.signature = some true := by
  refine ⟨rfl, ?_, rfl, ?_, rfl, by decide⟩
  · intro fuel hfuel
    obtain ⟨n, rfl⟩ : ∃ n, fuel = n + 5 := ⟨fuel - 5, by omega⟩
    rfl
  · intro fuel hfuel
    obtain ⟨n, rfl⟩ : ∃ n, fuel = n + 4 := ⟨fuel - 4, by omega⟩
    rfl

/-- A `ParseException` of `parse_function` ends `parse_program`: no program is
returned. -/
theorem parse_program_loop_of_parse_function_error (fuel : Nat) (lexer : Lexer)
    (program : Program) (e : ParseException)
    (hfunc : is_keyword lexer.current_token .keyword_function = true)
    (h : parse_function fuel lexer program = .error e) :
    parse_program_loop (fuel + 1) lexer program = .error e := by
  unfold is_keyword at hfunc
  simp only [Bool.and_eq_true, decide_eq_true_eq] at hfunc
  obtain ⟨ht, hv⟩ := hfunc
  rw [parse_program_loop]
  simp only [ht, hv, h]
  rfl

/-- C5. Parsing `func bad int -- bool { dup }` fails with the signature-mismatch
`ParseException`: the body is sealed with the output `[int, int]` against the
declared `[bool]`. In general, when the header of a function is well formed (with
a declared input list shorter than `2 ^ 31`, the range of the `int` counter of
`match_signature`, and a declared output list shorter than `2 ^ 64`), its body
parses without a conditional and the inferred output differs from the declared
output without its first `|declared.in| - |inferred.in|` elements, `parse_function`
throws the signature-mismatch exception and `parse_program` throws it too. -/
theorem parse_function_signature_mismatch (fuel : Nat) (lexer : Lexer) (program : Program)
    (name : String) (signature : TypeSignature) (lexer_body : Lexer)
    (scope : Scope) (lexer' : Lexer) (S' : TypeStack)
    (hfunc : is_keyword lexer.current_token .keyword_function = true)
    (hheader : parse_function_header lexer program = .ok (name, signature, lexer_body))
    (hin : (signature.in.length : Int) < 2 ^ 31) (hout : (signature.out.length : Int) < 2 ^ 64)
    (hbody : parse_scope fuel lexer_body program signature.in .keyword_end
      = .ok (scope, lexer', S'))
    (hno : scope.has_if = false)
    (hdiff : scope.signature.out
      ≠ signature.out.drop (signature.in.length - scope.signature.in.length)) :
    (parse_function fuel lexer program
        = .error ⟨lexer'.current_token.location,
            .signature_does_not_match signature scope.signature⟩
      ∧ parse_program_loop (fuel + 1) lexer program
        = .error ⟨lexer'.current_token.location,
            .signature_does_not_match signature scope.signature⟩)
    ∧ parse_program ⟨bad_tokens, ⟨1, 28⟩⟩
        = .error ⟨⟨1, 28⟩,
            .signature_does_not_match ⟨[int_t], [bool_t]⟩ ⟨[int_t], [int_t, int_t]⟩⟩
    ∧ (∀ fuel, 3 ≤ fuel →
        parse_scope fuel ⟨bad_tokens.drop 5, ⟨1, 28⟩⟩ {} [int_t] .keyword_end
          = .ok (.mk ⟨[int_t], [int_t, int_t]⟩ [.operation .op_dup],
              ⟨bad_tokens.drop 7, ⟨1, 28⟩⟩, [int_t, int_t])) := by
  have hfn : parse_function fuel lexer program
      = .error ⟨lexer'.current_token.location,
          .signature_does_not_match signature scope.signature⟩ := by
    rw [parse_function_eq fuel lexer program name signature lexer_body hheader, hbody]
    simp only [Result.bind]
    obtain ⟨P, h1, _⟩ := (parse_scope_passthrough_aux program fuel).2 _ _ _ _ hbody hno
    rw [match_signature_of_passthrough signature scope.signature P h1 hin hout]
    have hne : ¬ P ++ scope.signature.out = signature.out := by
      intro h
      apply hdiff
      have hl : signature.in.length - scope.signature.in.length = P.length := by
        rw [h1]; simp
      rw [hl, ← h]
      simp
    rw [decide_eq_false hne]
    rfl
  refine ⟨⟨hfn, parse_program_loop_of_parse_function_error _ _ _ _ hfunc hfn⟩, rfl, ?_⟩
  intro fuel hfuel
  obtain ⟨n, rfl⟩ : ∃ n, fuel = n + 3 := ⟨fuel - 3, by omega⟩
  rfl

/-- C5, at an instance: `func bad int -- bool { dup }`. -/
theorem parse_function_signature_mismatch_witness :
    (parse_function 3 ⟨bad_tokens, ⟨1, 28⟩⟩ {}
        = .error ⟨⟨1, 28⟩,
            .signature_does_not_match ⟨[int_t], [bool_t]⟩ ⟨[int_t], [int_t, int_t]⟩⟩
      ∧ parse_program_loop (3 + 1) ⟨bad_tokens, ⟨1, 28⟩⟩ {}
        = .error ⟨⟨1, 28⟩,
            .signature_does_not_match ⟨[int_t], [bool_t]⟩ ⟨[int_t], [int_t, int_t]⟩⟩)
    ∧ parse_program ⟨bad_tokens, ⟨1, 28⟩⟩
        = .error ⟨⟨1, 28⟩,
            .signature_does_not_match ⟨[int_t], [bool_t]⟩ ⟨[int_t], [int_t, int_t]⟩⟩
    ∧ (∀ fuel, 3 ≤ fuel →
        parse_scope fuel ⟨bad_tokens.drop 5, ⟨1, 28⟩⟩ {} [int_t] .keyword_end
          = .ok (.mk ⟨[int_t], [int_t, int_t]⟩ [.operation .op_dup],
              ⟨bad_tokens.drop 7, ⟨1, 28⟩⟩, [int_t, int_t])) :=
  parse_function_signature_mismatch 3 ⟨bad_tokens, ⟨1, 28⟩⟩ {} "bad" ⟨[int_t], [bool_t]⟩
    ⟨bad_tokens.drop 5, ⟨1, 28⟩⟩ (.mk ⟨[int_t], [int_t, int_t]⟩ [.operation .op_dup])
    ⟨bad_tokens.drop 7, ⟨1, 28⟩⟩ [int_t, int_t]
    (by decide) rfl (by decide) (by decide) rfl rfl (by decide)

/-- C2, on the code: `parse_function` accepts `func f { if 1 { } }` with the
declared signature `( -- )`, although the body, parsed on the declared input `[]`,
ends with the type stack `[int]`: the `1` of the condition stays on the stack, the
conditional is given the empty signature, and the body is sealed as `( -- )`. -/
theorem parse_function_accepts_unbalanced_conditional :
    (∀ fuel, 6 ≤ fuel →
      parse_function fuel ⟨unbalanced_if_tokens, ⟨1, 19⟩⟩ {}
        = .ok (⟨"f", ⟨[], []⟩, unbalanced_if_body⟩, ⟨unbalanced_if_tokens.drop 7, ⟨1, 19⟩⟩))
    ∧ parse_function_header ⟨unbalanced_if_tokens, ⟨1, 19⟩⟩ {}
        = .ok ("f", ⟨[], []⟩, ⟨unbalanced_if_tokens.drop 2, ⟨1, 19⟩⟩)
    ∧ (∀ fuel, 6 ≤ fuel →
      parse_scope fuel ⟨unbalanced_if_tokens.drop 2, ⟨1, 19⟩⟩ {} [] .keyword_end
        = .ok (unbalanced_if_body, ⟨unbalanced_if_tokens.drop 7, ⟨1, 19⟩⟩, [int_t]))
    ∧ [int_t] ≠ (⟨[], []⟩ : TypeSignature).out
    ∧ parse_program ⟨unbalanced_if_tokens, ⟨1, 19⟩⟩
        = .ok ⟨[("f", ⟨"f", ⟨[], []⟩, unbalanced_if_body⟩)]⟩ := by
  refine ⟨?_, rfl, ?_, by decide, rfl⟩
  · intro fuel hfuel
    obtain ⟨n, rfl⟩ : ∃ n, fuel = n + 6 := ⟨fuel - 6, by omega⟩
    rfl
  · intro fuel hfuel
    obtain ⟨n, rfl⟩ : ∃ n, fuel = n + 6 := ⟨fuel - 6, by omega⟩
    rfl

/-! ## The token source only moves forward, and the fuel of `parse_program` suffices -/

theorem is_keyword_eq_false_of_type {token : Token} (keyword : Keyword)
    (h : token.type ≠ .tok_keyword) : is_keyword token keyword = false := by
  unfold is_keyword
  simp [h]

/-- The loop of `parse_scope` on an intrinsic token. -/
theorem parse_scope_loop_intrinsic (fuel : Nat) (lexer : Lexer) (program : Program)
    (type_stack : TypeStack) (end_keyword : Keyword) (scope : Scope) (local_offset : Int)
    (ht : lexer.current_token.type = .tok_intrinsic) :
    parse_scope_loop (fuel + 1) lexer program type_stack end_keyword scope local_offset
      = if lexer.current_token.int_val = intrinsic_invalid then
          throw_at lexer .unknown_intrinsic
        else if size_lt_int64 type_stack.length
            (get_intrinsic_input_count lexer.current_token.int_val) then
          throw_at lexer .not_enough_data
        else
          match get_intrinsic_signature lexer.current_token.int_val type_stack with
          | none => .out_of_bounds
          | some signature =>
            match check_and_apply_signature signature type_stack with
            | none => .out_of_bounds
            | some (false, _) => throw_at lexer .types_not_matching
            | some (true, type_stack') =>
              parse_scope_loop fuel lexer.next_token program type_stack' end_keyword
                ((scope.with_signature
                    (recalibrate_offset local_offset signature scope.signature).2).emplace_back
                  (.operation (intrinsic_to_operation lexer.current_token.int_val)))
                (recalibrate_offset local_offset signature scope.signature).1 := by
  rw [parse_scope_loop,
    is_keyword_eq_false_of_type end_keyword (by rw [ht]; decide)]
  simp only [Bool.false_eq_true, if_false, ht]

/-- The loop of `parse_scope` on a word token. -/
theorem parse_scope_loop_word (fuel : Nat) (lexer : Lexer) (program : Program)
    (type_stack : TypeStack) (end_keyword : Keyword) (scope : Scope) (local_offset : Int)
    (ht : lexer.current_token.type = .tok_word) :
    parse_scope_loop (fuel + 1) lexer program type_stack end_keyword scope local_offset
      = match program.find lexer.current_token.str_val with
        | some function =>
          if type_stack.length < function.signature.in.length then
            throw_at lexer .not_enough_data
          else
            match check_and_apply_signature function.signature type_stack with
            | none => .out_of_bounds
            | some (false, _) => throw_at lexer .types_not_matching
            | some (true, type_stack') =>
              parse_scope_loop fuel lexer.next_token program type_stack' end_keyword
                ((scope.with_signature
                    (recalibrate_offset local_offset function.signature
                      scope.signature).2).emplace_back
                  (.operation_string .op_call lexer.current_token.str_val))
                (recalibrate_offset local_offset function.signature scope.signature).1
        | none => throw_at lexer (.unknown_word lexer.current_token.str_val) := by
  rw [parse_scope_loop,
    is_keyword_eq_false_of_type end_keyword (by rw [ht]; decide)]
  simp only [Bool.false_eq_true, if_false, ht]

/-- The loop of `parse_scope` on an intrinsic token whose guards pass and whose
signature `signature` is on top of the stack `P ++ signature.in`. -/
theorem parse_scope_loop_intrinsic_apply (fuel : Nat) (lexer : Lexer) (program : Program)
    (P : TypeStack) (end_keyword : Keyword) (scope : Scope) (local_offset : Int)
    (signature : TypeSignature)
    (ht : lexer.current_token.type = .tok_intrinsic)
    (hvalid : lexer.current_token.int_val ≠ intrinsic_invalid)
    (hsize : size_lt_int64 (P ++ signature.in).length
      (get_intrinsic_input_count lexer.current_token.int_val) = false)
    (hsig : get_intrinsic_signature lexer.current_token.int_val (P ++ signature.in)
      = some signature) :
    parse_scope_loop (fuel + 1) lexer program (P ++ signature.in) end_keyword scope local_offset
      = parse_scope_loop fuel lexer.next_token program (P ++ signature.out) end_keyword
          ((scope.with_signature
              (recalibrate_offset local_offset signature scope.signature).2).emplace_back
            (.operation (intrinsic_to_operation lexer.current_token.int_val)))
          (recalibrate_offset local_offset signature scope.signature).1 := by
  rw [parse_scope_loop_intrinsic _ _ _ _ _ _ _ ht, if_neg hvalid, hsize]
  simp only [Bool.false_eq_true, if_false, hsig]
  have h : check_and_apply_signature signature (P ++ signature.in)
      = some (true, P ++ signature.out) := by
    unfold check_and_apply_signature
    simp
  rw [h]

theorem size_lt_int64_one (size : Nat) : size_lt_int64 size 1 = decide (size < 1) := by
  have := size_lt_int64_of_nonneg size 1 (by decide)
  simpa using this

theorem size_lt_int64_two (size : Nat) : size_lt_int64 size 2 = decide (size < 2) := by
  have := size_lt_int64_of_nonneg size 2 (by decide)
  simpa using this

theorem arithmetic_logic_intrinsics_spec {i : Intrinsic} (hi : i ∈ arithmetic_logic_intrinsics)
    (type_stack : TypeStack) :
    get_intrinsic_signature i type_stack = some ⟨[int_t, int_t], [int_t]⟩
    ∧ get_intrinsic_input_count i = 2 ∧ i ≠ intrinsic_invalid := by
  simp only [arithmetic_logic_intrinsics, List.mem_cons, List.mem_singleton, List.mem_nil_iff,
    or_false] at hi
  rcases hi with h | h | h | h | h | h | h | h <;> subst h <;>
    refine ⟨?_, by decide, by decide⟩ <;>
    simp [get_intrinsic_signature, intrinsic_add, intrinsic_sub, intrinsic_mul, intrinsic_div,
      intrinsic_and, intrinsic_or, intrinsic_xor, intrinsic_not]

theorem comparison_intrinsics_spec {i : Intrinsic} (hi : i ∈ comparison_intrinsics)
    (type_stack : TypeStack) :
    get_intrinsic_signature i type_stack = some ⟨[int_t, int_t], [bool_t]⟩
    ∧ get_intrinsic_input_count i = 2 ∧ i ≠ intrinsic_invalid := by
  simp only [comparison_intrinsics, List.mem_cons, List.mem_singleton, List.mem_nil_iff,
    or_false] at hi
  rcases hi with h | h | h <;> subst h <;>
    refine ⟨?_, by decide, by decide⟩ <;>
    simp [get_intrinsic_signature, intrinsic_add, intrinsic_sub, intrinsic_mul, intrinsic_div,
      intrinsic_and, intrinsic_or, intrinsic_xor, intrinsic_not, intrinsic_drop, intrinsic_swap,
      intrinsic_dup, intrinsic_equal, intrinsic_less, intrinsic_greater]

theorem back_append_singleton (P : TypeStack) (T : type_t) : back (P ++ [T]) = some T := by
  simp [back]

theorem index_last (P : TypeStack) (T : type_t) :
    index (P ++ [T]) (((P ++ [T]).length : Int) - 1) = some T := by
  unfold index
  have h : ¬ (((P ++ [T]).length : Int) - 1 < 0) := by
    simp only [List.length_append, List.length_singleton]; push_cast; omega
  rw [if_neg h]
  have e : (((P ++ [T]).length : Int) - 1).toNat = P.length := by
    simp only [List.length_append, List.length_singleton]; push_cast; omega
  rw [e]
  simp

theorem get_intrinsic_signature_drop (P : TypeStack) (T : type_t) :
    get_intrinsic_signature intrinsic_drop (P ++ [T]) = some ⟨[T], []⟩ := by
  have h : get_intrinsic_signature intrinsic_drop (P ++ [T])
      = match back (P ++ [T]) with
        | none => none
        | some first => some ⟨[first], []⟩ := by
    unfold get_intrinsic_signature
    rw [if_neg (by decide), if_pos rfl]
  rw [h, back_append_singleton]

theorem get_intrinsic_signature_dup (P : TypeStack) (T : type_t) :
    get_intrinsic_signature intrinsic_dup (P ++ [T]) = some ⟨[T], [T, T]⟩ := by
  have h : get_intrinsic_signature intrinsic_dup (P ++ [T])
      = match back (P ++ [T]) with
        | none => none
        | some first => some ⟨[first], [first, first]⟩ := by
    unfold get_intrinsic_signature
    rw [if_neg (by decide), if_neg (by decide), if_neg (by decide), if_pos rfl]
  rw [h, back_append_singleton]

theorem get_intrinsic_signature_swap (P : TypeStack) (T : type_t) :
    get_intrinsic_signature intrinsic_swap (P ++ [T]) = some ⟨[T, T], [T, T]⟩ := by
  have h : get_intrinsic_signature intrinsic_swap (P ++ [T])
      = match back (P ++ [T]), index (P ++ [T]) (((P ++ [T]).length : Int) - 1) with
        | some first, some second => some ⟨[second, first], [first, second]⟩
        | _, _ => none := by
    unfold get_intrinsic_signature
    rw [if_neg (by decide), if_neg (by decide), if_pos rfl]
  rw [h, back_append_singleton, index_last]

/-- C13, on the code: `get_intrinsic_signature` reads the top of the stack for both
operands of `swap` (`type_stack[type_stack.size() - 1]` is `type_stack.back()`), so on
a stack ending in `T2, T1` the signature is `(T1 T1 -- T1 T1)` and not
`(T2 T1 -- T1 T2)`. On `[int, char]` it is `(char char -- char char)`, the check of
the inputs fails, and `func f int char -- char int { swap }` is rejected with the
type-mismatch exception at `swap`. When the two types are equal, `swap` is accepted
and leaves the stack as it was. -/
theorem get_intrinsic_signature_swap_top_twice :
    (∀ (P : TypeStack) (T2 T1 : type_t),
      get_intrinsic_signature intrinsic_swap (P ++ [T2, T1]) = some ⟨[T1, T1], [T1, T1]⟩)
    ∧ get_intrinsic_signature intrinsic_swap [int_t, char_t]
        = some ⟨[char_t, char_t], [char_t, char_t]⟩
    ∧ get_intrinsic_signature intrinsic_swap [int_t, char_t]
        ≠ some ⟨[int_t, char_t], [char_t, int_t]⟩
    ∧ (∀ fuel, 2 ≤ fuel →
        parse_scope fuel ⟨swap_tokens.drop 7, ⟨1, 36⟩⟩ {} [int_t, char_t] .keyword_end
          = .error ⟨⟨1, 31⟩, .types_not_matching⟩)
    ∧ parse_program ⟨swap_tokens, ⟨1, 36⟩⟩ = .error ⟨⟨1, 31⟩, .types_not_matching⟩
    ∧ (∀ (fuel : Nat) (lexer : Lexer) (program : Program) (P : TypeStack) (T : type_t)
        (end_keyword : Keyword) (scope : Scope) (local_offset : Int),
        lexer.current_token.type = .tok_intrinsic →
        lexer.current_token.int_val = intrinsic_swap →
        parse_scope_loop (fuel + 1) lexer program (P ++ [T, T]) end_keyword scope local_offset
          = parse_scope_loop fuel lexer.next_token program (P ++ [T, T]) end_keyword
              ((scope.with_signature
                  (recalibrate_offset local_offset ⟨[T, T], [T, T]⟩
                    scope.signature).2).emplace_back
                (.operation .op_swap))
              (recalibrate_offset local_offset ⟨[T, T], [T, T]⟩ scope.signature).1) := by
  refine ⟨?_, by decide, by decide, ?_, rfl, ?_⟩
  · intro P T2 T1
    have h := get_intrinsic_signature_swap (P ++ [T2]) T1
    simpa using h
  · intro fuel hfuel
    obtain ⟨n, rfl⟩ : ∃ n, fuel = n + 2 := ⟨fuel - 2, by omega⟩
    rfl
  · intro fuel lexer program P T end_keyword scope local_offset ht hi
    have hsig : get_intrinsic_signature intrinsic_swap (P ++ [T, T])
        = some ⟨[T, T], [T, T]⟩ := by
      have h := get_intrinsic_signature_swap (P ++ [T]) T
      simpa using h
    have h := parse_scope_loop_intrinsic_apply fuel lexer program P end_keyword scope
      local_offset ⟨[T, T], [T, T]⟩ ht (by rw [hi]; decide)
      (by rw [hi]
          have : get_intrinsic_input_count intrinsic_swap = 2 := by decide
          rw [this, size_lt_int64_two]; simp)
      (by rw [hi]; exact hsig)
    rw [hi] at h
    simpa using h

/-- The `local_offset` after an applied signature is at most the length of the stack
after it, when it was so before. -/
theorem recalibrate_offset_le (local_offset : Int) (applied output : TypeSignature)
    (n : Nat) (hn : local_offset ≤ (n : Int)) (ha : applied.in.length ≤ n) :
    0 ≤ (recalibrate_offset local_offset applied output).1
    ∧ (recalibrate_offset local_offset applied output).1
        ≤ ((n - applied.in.length + applied.out.length : Nat) : Int) := by
  unfold recalibrate_offset
  simp only
  split
  · simp only; omega
  · simp only; omega

/-- The loop of `parse_scope` on the terminator, with `local_offset` inside the
stack: the scope is sealed and returned. -/
theorem parse_scope_loop_seal (fuel : Nat) (lexer : Lexer) (program : Program)
    (type_stack : TypeStack) (end_keyword : Keyword) (scope : Scope) (local_offset : Int)
    (hk : is_keyword lexer.current_token end_keyword = true)
    (h0 : 0 ≤ local_offset) (hn : local_offset ≤ (type_stack.length : Int)) :
    parse_scope_loop (fuel + 1) lexer program type_stack end_keyword scope local_offset
      = .ok (scope.with_signature
              { scope.signature with
                out := type_stack.drop (type_stack.length - local_offset.toNat)
                        ++ scope.signature.out },
            lexer, type_stack) := by
  rw [parse_scope_loop, if_pos hk]
  unfold seal_scope
  rw [if_neg (by omega)]

/-- C14. On a stack `P ++ [T]`, `get_intrinsic_signature` gives `(T -- )` for `drop`
and `(T -- T T)` for `dup`. The loop of `parse_scope` on a `drop` token goes on with
the stack `P`, and on a `dup` token with the stack `P ++ [T, T]`: it does not throw
at the token, and `P` is unchanged. When the terminator follows, the loop returns
the scope with the operation appended, on the terminator, with the stack `P` after
`drop` and `P ++ [T, T]` after `dup`; the block `{ drop }` is returned as the scope
`(T -- )` holding `drop`, and `{ dup }` as the scope `(T -- T T)` holding `dup`. -/
theorem parse_scope_loop_drop_dup (fuel : Nat) (lexer : Lexer) (program : Program)
    (P : TypeStack) (T : type_t) (end_keyword : Keyword) (scope : Scope) (local_offset : Int)
    (ht : lexer.current_token.type = .tok_intrinsic) :
    get_intrinsic_signature intrinsic_drop (P ++ [T]) = some ⟨[T], []⟩
    ∧ get_intrinsic_signature intrinsic_dup (P ++ [T]) = some ⟨[T], [T, T]⟩
    ∧ (lexer.current_token.int_val = intrinsic_drop →
        parse_scope_loop (fuel + 1) lexer program (P ++ [T]) end_keyword scope local_offset
          = parse_scope_loop fuel lexer.next_token program P end_keyword
              ((scope.with_signature
                  (recalibrate_offset local_offset ⟨[T], []⟩ scope.signature).2).emplace_back
                (.operation .op_drop))
              (recalibrate_offset local_offset ⟨[T], []⟩ scope.signature).1)
    ∧ (lexer.current_token.int_val = intrinsic_dup →
        parse_scope_loop (fuel + 1) lexer program (P ++ [T]) end_keyword scope local_offset
          = parse_scope_loop fuel lexer.next_token program (P ++ [T, T]) end_keyword
              ((scope.with_signature
                  (recalibrate_offset local_offset ⟨[T], [T, T]⟩ scope.signature).2).emplace_back
                (.operation .op_dup))
              (recalibrate_offset local_offset ⟨[T], [T, T]⟩ scope.signature).1)
    ∧ (lexer.current_token.int_val = intrinsic_drop →
        is_keyword lexer.next_token.current_token end_keyword = true →
        0 ≤ local_offset → local_offset ≤ (P.length : Int) + 1 →
        ∃ scope' : Scope,
          parse_scope_loop (fuel + 2) lexer program (P ++ [T]) end_keyword scope local_offset
            = .ok (scope', lexer.next_token, P)
          ∧ scope'.expressions = scope.expressions ++ [.operation .op_drop])
    ∧ (lexer.current_token.int_val = intrinsic_dup →
        is_keyword lexer.next_token.current_token end_keyword = true →
        0 ≤ local_offset → local_offset ≤ (P.length : Int) + 1 →
        ∃ scope' : Scope,
          parse_scope_loop (fuel + 2) lexer program (P ++ [T]) end_keyword scope local_offset
            = .ok (scope', lexer.next_token, P ++ [T, T])
          ∧ scope'.expressions = scope.expressions ++ [.operation .op_dup])
    ∧ (∀ (opening drop closing : Token) (rest : List Token) (eof_location : Location),
        drop.type = .tok_intrinsic → drop.int_val = intrinsic_drop →
        is_keyword closing .keyword_end = true →
        parse_scope (fuel + 3) ⟨opening :: drop :: closing :: rest, eof_location⟩ program
            (P ++ [T]) .keyword_end
          = .ok (.mk ⟨[T], []⟩ [.operation .op_drop], ⟨closing :: rest, eof_location⟩, P))
    ∧ (∀ (opening dup closing : Token) (rest : List Token) (eof_location : Location),
        dup.type = .tok_intrinsic → dup.int_val = intrinsic_dup →
        is_keyword closing .keyword_end = true →
        parse_scope (fuel + 3) ⟨opening :: dup :: closing :: rest, eof_location⟩ program
            (P ++ [T]) .keyword_end
          = .ok (.mk ⟨[T], [T, T]⟩ [.operation .op_dup], ⟨closing :: rest, eof_location⟩,
              P ++ [T, T])) := by
  have hdrop : ∀ (fuel : Nat) (lexer : Lexer) (end_keyword : Keyword) (scope : Scope)
      (local_offset : Int), lexer.current_token.type = .tok_intrinsic →
      lexer.current_token.int_val = intrinsic_drop →
      parse_scope_loop (fuel + 1) lexer program (P ++ [T]) end_keyword scope local_offset
        = parse_scope_loop fuel lexer.next_token program P end_keyword
            ((scope.with_signature
                (recalibrate_offset local_offset ⟨[T], []⟩ scope.signature).2).emplace_back
              (.operation .op_drop))
            (recalibrate_offset local_offset ⟨[T], []⟩ scope.signature).1 := by
    intro fuel lexer end_keyword scope local_offset ht hi
    have h := parse_scope_loop_intrinsic_apply fuel lexer program P end_keyword scope
      local_offset ⟨[T], []⟩ ht (by rw [hi]; decide)
      (by rw [hi]
          have : get_intrinsic_input_count intrinsic_drop = 1 := by decide
          rw [this, size_lt_int64_one]; simp)
      (by rw [hi]; exact get_intrinsic_signature_drop P T)
    rw [hi] at h
    simpa using h
  have hdup : ∀ (fuel : Nat) (lexer : Lexer) (end_keyword : Keyword) (scope : Scope)
      (local_offset : Int), lexer.current_token.type = .tok_intrinsic →
      lexer.current_token.int_val = intrinsic_dup →
      parse_scope_loop (fuel + 1) lexer program (P ++ [T]) end_keyword scope local_offset
        = parse_scope_loop fuel lexer.next_token program (P ++ [T, T]) end_keyword
            ((scope.with_signature
                (recalibrate_offset local_offset ⟨[T], [T, T]⟩ scope.signature).2).emplace_back
              (.operation .op_dup))
            (recalibrate_offset local_offset ⟨[T], [T, T]⟩ scope.signature).1 := by
    intro fuel lexer end_keyword scope local_offset ht hi
    have h := parse_scope_loop_intrinsic_apply fuel lexer program P end_keyword scope
      local_offset ⟨[T], [T, T]⟩ ht (by rw [hi]; decide)
      (by rw [hi]
          have : get_intrinsic_input_count intrinsic_dup = 1 := by decide
          rw [this, size_lt_int64_one]; simp)
      (by rw [hi]; exact get_intrinsic_signature_dup P T)
    rw [hi] at h
    simpa using h
  refine ⟨get_intrinsic_signature_drop P T, get_intrinsic_signature_dup P T,
    hdrop fuel lexer end_keyword scope local_offset ht,
    hdup fuel lexer end_keyword scope local_offset ht, ?_, ?_, ?_, ?_⟩
  · intro hi hk h0 hn
    have hb := recalibrate_offset_le local_offset ⟨[T], []⟩ scope.signature (P.length + 1)
      (by push_cast; omega) (by simp)
    simp only [List.length_singleton, List.length_nil, Nat.add_sub_cancel, Nat.add_zero]
      at hb
    rw [hdrop (fuel + 1) lexer end_keyword scope local_offset ht hi,
      parse_scope_loop_seal fuel _ program P end_keyword _ _ hk hb.1 hb.2]
    exact ⟨_, rfl, by
      simp [Scope.with_signature_expressions, Scope.emplace_back_expressions]⟩
  · intro hi hk h0 hn
    have hb := recalibrate_offset_le local_offset ⟨[T], [T, T]⟩ scope.signature (P.length + 1)
      (by push_cast; omega) (by simp)
    simp only [List.length_singleton, List.length_cons, List.length_nil, Nat.add_sub_cancel]
      at hb
    rw [hdup (fuel + 1) lexer end_keyword scope local_offset ht hi,
      parse_scope_loop_seal fuel _ program (P ++ [T, T]) end_keyword _ _ hk hb.1
        (by simp only [List.length_append, List.length_cons, List.length_nil]; omega)]
    exact ⟨_, rfl, by
      simp [Scope.with_signature_expressions, Scope.emplace_back_expressions]⟩
  · intro opening drop closing rest eof_location hty hi hk
    rw [parse_scope]
    rw [hdrop (fuel + 1) (Lexer.next_token ⟨opening :: drop :: closing :: rest, eof_location⟩)
        .keyword_end Scope.empty 0 hty hi,
      parse_scope_loop_seal fuel
        (Lexer.next_token
          (Lexer.next_token ⟨opening :: drop :: closing :: rest, eof_location⟩))
        program P .keyword_end _ _ hk
        (by simp [recalibrate_offset, Scope.empty, Scope.signature])
        (by simp [recalibrate_offset, Scope.empty, Scope.signature])]
    simp [recalibrate_offset, Scope.empty, Scope.signature, Scope.with_signature,
      Scope.emplace_back, Lexer.next_token]
  · intro opening dup closing rest eof_location hty hi hk
    rw [parse_scope]
    rw [hdup (fuel + 1) (Lexer.next_token ⟨opening :: dup :: closing :: rest, eof_location⟩)
        .keyword_end Scope.empty 0 hty hi,
      parse_scope_loop_seal fuel
        (Lexer.next_token
          (Lexer.next_token ⟨opening :: dup :: closing :: rest, eof_location⟩))
        program (P ++ [T, T]) .keyword_end _ _ hk
        (by simp [recalibrate_offset, Scope.empty, Scope.signature])
        (by simp [recalibrate_offset, Scope.empty, Scope.signature])]
    simp [recalibrate_offset, Scope.empty, Scope.signature, Scope.with_signature,
      Scope.emplace_back, Lexer.next_token]

/-- C14, at an instance: `drop` with the stack `[bool, int]` before the closing `}` returns
the scope `(int -- )` holding `drop`, with the stack `[bool]`. -/
theorem parse_scope_loop_drop_dup_witness :
    (∃ scope' : Scope,
      parse_scope_loop (0 + 2) ⟨[drop_token, end_token], ⟨1, 9⟩⟩ {} ([bool_t] ++ [int_t])
          .keyword_end Scope.empty 0
        = .ok (scope', Lexer.next_token ⟨[drop_token, end_token], ⟨1, 9⟩⟩, [bool_t])
      ∧ scope'.expressions = Scope.empty.expressions ++ [.operation .op_drop])
    ∧ parse_scope (0 + 3) ⟨[end_token, drop_token, end_token], ⟨1, 9⟩⟩ {}
          ([bool_t] ++ [int_t]) .keyword_end
        = .ok (.mk ⟨[int_t], []⟩ [.operation .op_drop], ⟨[end_token], ⟨1, 9⟩⟩, [bool_t]) :=
  ⟨(parse_scope_loop_drop_dup 0 ⟨[drop_token, end_token], ⟨1, 9⟩⟩ {} [bool_t] int_t
      .keyword_end Scope.empty 0 rfl).2.2.2.2.1 rfl rfl (by decide) (by decide),
    (parse_scope_loop_drop_dup 0 ⟨[drop_token, end_token], ⟨1, 9⟩⟩ {} [bool_t] int_t
      .keyword_end Scope.empty 0 rfl).2.2.2.2.2.2.1 end_token drop_token end_token []
      ⟨1, 9⟩ rfl rfl rfl⟩

theorem check_and_apply_signature_eq_false {signature : TypeSignature} {type_stack : TypeStack}
    (hlen : signature.in.length ≤ type_stack.length)
    (hne : type_stack.drop (type_stack.length - signature.in.length) ≠ signature.in) :
    check_and_apply_signature signature type_stack = some (false, type_stack) := by
  unfold check_and_apply_signature
  simp only
  rw [if_neg (by omega), if_pos (fun h => hne h.symm)]

/-- C15. For each of `add sub mul div and or xor not` (with `out_type = int`) and each
of `equal less greater` (with `out_type = bool`), `get_intrinsic_signature` gives
`(int int -- out_type)` on every stack, and the input count is 2. The loop of
`parse_scope` on a token of such an intrinsic goes on with `P ++ [out_type]` when the
stack is `P ++ [int, int]`; it throws "Not enough data on the stack." when the stack
has fewer than two elements and "Required types on stack aren't matching." when its
top two elements are not `int, int`. -/
theorem parse_scope_loop_fixed_signature (fuel : Nat) (lexer : Lexer) (program : Program)
    (end_keyword : Keyword) (scope : Scope) (local_offset : Int) (out_type : type_t)
    (ht : lexer.current_token.type = .tok_intrinsic)
    (hi : (lexer.current_token.int_val ∈ arithmetic_logic_intrinsics ∧ out_type = int_t)
      ∨ (lexer.current_token.int_val ∈ comparison_intrinsics ∧ out_type = bool_t)) :
    (∀ type_stack : TypeStack,
      get_intrinsic_signature lexer.current_token.int_val type_stack
        = some ⟨[int_t, int_t], [out_type]⟩)
    ∧ get_intrinsic_input_count lexer.current_token.int_val = 2
    ∧ (∀ P : TypeStack,
        parse_scope_loop (fuel + 1) lexer program (P ++ [int_t, int_t]) end_keyword scope
            local_offset
          = parse_scope_loop fuel lexer.next_token program (P ++ [out_type]) end_keyword
              ((scope.with_signature
                  (recalibrate_offset local_offset ⟨[int_t, int_t], [out_type]⟩
                    scope.signature).2).emplace_back
                (.operation (intrinsic_to_operation lexer.current_token.int_val)))
              (recalibrate_offset local_offset ⟨[int_t, int_t], [out_type]⟩
                scope.signature).1)
    ∧ (∀ type_stack : TypeStack, type_stack.length < 2 →
        parse_scope_loop (fuel + 1) lexer program type_stack end_keyword scope local_offset
          = throw_at lexer .not_enough_data)
    ∧ (∀ type_stack : TypeStack, 2 ≤ type_stack.length →
        type_stack.drop (type_stack.length - 2) ≠ [int_t, int_t] →
        parse_scope_loop (fuel + 1) lexer program type_stack end_keyword scope local_offset
          = throw_at lexer .types_not_matching) := by
  have hspec : ∀ type_stack : TypeStack,
      get_intrinsic_signature lexer.current_token.int_val type_stack
        = some ⟨[int_t, int_t], [out_type]⟩
      ∧ get_intrinsic_input_count lexer.current_token.int_val = 2
      ∧ lexer.current_token.int_val ≠ intrinsic_invalid := by
    intro type_stack
    rcases hi with ⟨h, rfl⟩ | ⟨h, rfl⟩
    · exact arithmetic_logic_intrinsics_spec h type_stack
    · exact comparison_intrinsics_spec h type_stack
  obtain ⟨_, hcount, hvalid⟩ := hspec []
  refine ⟨fun st => (hspec st).1, hcount, ?_, ?_, ?_⟩
  · intro P
    exact parse_scope_loop_intrinsic_apply fuel lexer program P end_keyword scope local_offset
      ⟨[int_t, int_t], [out_type]⟩ ht hvalid
      (by rw [hcount, size_lt_int64_two]; simp)
      (hspec _).1
  · intro type_stack hlen
    rw [parse_scope_loop_intrinsic _ _ _ _ _ _ _ ht, if_neg hvalid, hcount, size_lt_int64_two,
      if_pos (by simpa using hlen)]
  · intro type_stack hlen hne
    rw [parse_scope_loop_intrinsic _ _ _ _ _ _ _ ht, if_neg hvalid, hcount, size_lt_int64_two,
      if_neg (by simp; omega)]
    simp only [(hspec type_stack).1]
    rw [check_and_apply_signature_eq_false (by simpa using hlen) (by simpa using hne)]

/-- C15, at instances: `and` on `[bool, bool]` is rejected for its types, `not` on
`[int]` for the missing second operand, and `=` on `[char, int, int]` goes on with
`[char, bool]`. -/
theorem parse_scope_loop_fixed_signature_witness :
    parse_scope_loop (1 + 1) ⟨[and_token, end_token], ⟨1, 9⟩⟩ {} [bool_t, bool_t]
        .keyword_end Scope.empty 0
      = throw_at ⟨[and_token, end_token], ⟨1, 9⟩⟩ .types_not_matching
    ∧ parse_scope_loop (1 + 1) ⟨[not_token, end_token], ⟨1, 9⟩⟩ {} [int_t]
        .keyword_end Scope.empty 0
      = throw_at ⟨[not_token, end_token], ⟨1, 9⟩⟩ .not_enough_data
    ∧ parse_scope_loop (1 + 1) ⟨[equal_token, end_token], ⟨1, 9⟩⟩ {}
        ([char_t] ++ [int_t, int_t]) .keyword_end Scope.empty 0
      = parse_scope_loop 1 (Lexer.next_token ⟨[equal_token, end_token], ⟨1, 9⟩⟩) {}
          ([char_t] ++ [bool_t]) .keyword_end
          ((Scope.empty.with_signature
              (recalibrate_offset 0 ⟨[int_t, int_t], [bool_t]⟩
                Scope.empty.signature).2).emplace_back
            (.operation (intrinsic_to_operation equal_token.int_val)))
          (recalibrate_offset 0 ⟨[int_t, int_t], [bool_t]⟩ Scope.empty.signature).1 :=
  ⟨(parse_scope_loop_fixed_signature 1 ⟨[and_token, end_token], ⟨1, 9⟩⟩ {} .keyword_end
      Scope.empty 0 int_t rfl (Or.inl ⟨by decide, rfl⟩)).2.2.2.2 [bool_t, bool_t]
      (by decide) (by decide),
    (parse_scope_loop_fixed_signature 1 ⟨[not_token, end_token], ⟨1, 9⟩⟩ {} .keyword_end
      Scope.empty 0 int_t rfl (Or.inl ⟨by decide, rfl⟩)).2.2.2.1 [int_t] (by decide),
    (parse_scope_loop_fixed_signature 1 ⟨[equal_token, end_token], ⟨1, 9⟩⟩ {} .keyword_end
      Scope.empty 0 bool_t rfl (Or.inr ⟨by decide, rfl⟩)).2.2.1 [char_t]⟩

theorem get_intrinsic_input_count_valid {i : Intrinsic} (h1 : 1 ≤ i) (h14 : i ≤ 14) :
    i ≠ intrinsic_invalid
    ∧ (get_intrinsic_input_count i = 1 ∨ get_intrinsic_input_count i = 2) := by
  interval_cases i <;> exact ⟨by decide, by decide⟩

theorem check_and_apply_signature_ne_none {signature : TypeSignature} {type_stack : TypeStack}
    (hlen : signature.in.length ≤ type_stack.length) :
    ∃ b type_stack', check_and_apply_signature signature type_stack = some (b, type_stack') := by
  unfold check_and_apply_signature
  simp only
  rw [if_neg (by omega)]
  split
  · exact ⟨_, _, rfl⟩
  · exact ⟨_, _, rfl⟩

theorem back_ne_none {type_stack : TypeStack} (h : 1 ≤ type_stack.length) :
    ∃ T, back type_stack = some T ∧ index type_stack ((type_stack.length : Int) - 1) = some T := by
  obtain ⟨P, T, rfl⟩ : ∃ P T, type_stack = P ++ [T] := by
    refine ⟨type_stack.dropLast, type_stack.getLast ?_, (List.dropLast_append_getLast _).symm⟩
    intro hnil
    rw [hnil] at h
    simp at h
  exact ⟨T, back_append_singleton P T, index_last P T⟩

/-- Past the guard `type_stack.size() < get_intrinsic_input_count(intrinsic)`, the
signature of the intrinsic is read inside the stack and has at most as many inputs as
the stack has elements. -/
theorem get_intrinsic_signature_in_bounds (i : Intrinsic) (type_stack : TypeStack)
    (h : size_lt_int64 type_stack.length (get_intrinsic_input_count i) = false) :
    ∃ signature, get_intrinsic_signature i type_stack = some signature
      ∧ signature.in.length ≤ type_stack.length := by
  unfold get_intrinsic_signature
  split
  · rename_i hi
    have hc : get_intrinsic_input_count i = 2 := by
      rcases hi with h | h | h | h | h | h | h | h <;> subst h <;> decide
    rw [hc, size_lt_int64_two] at h
    exact ⟨_, rfl, by simpa using h⟩
  · split
    · rename_i hi
      subst hi
      have hc : get_intrinsic_input_count intrinsic_drop = 1 := by decide
      rw [hc, size_lt_int64_one] at h
      have hlen : 1 ≤ type_stack.length := by
        simp only [decide_eq_false_iff_not, not_lt] at h
        exact h
      obtain ⟨T, hb, _⟩ := back_ne_none hlen
      rw [hb]
      exact ⟨_, rfl, hlen⟩
    · split
      · rename_i hi
        subst hi
        have hc : get_intrinsic_input_count intrinsic_swap = 2 := by decide
        rw [hc, size_lt_int64_two] at h
        have hlen : 2 ≤ type_stack.length := by simpa using h
        obtain ⟨T, hb, hx⟩ := back_ne_none (by omega : 1 ≤ type_stack.length)
        rw [hb, hx]
        exact ⟨_, rfl, hlen⟩
      · split
        · rename_i hi
          subst hi
          have hc : get_intrinsic_input_count intrinsic_dup = 1 := by decide
          rw [hc, size_lt_int64_one] at h
          have hlen : 1 ≤ type_stack.length := by
            simp only [decide_eq_false_iff_not, not_lt] at h
            exact h
          obtain ⟨T, hb, _⟩ := back_ne_none hlen
          rw [hb]
          exact ⟨_, rfl, hlen⟩
        · split
          · rename_i hi
            have hc : get_intrinsic_input_count i = 2 := by
              rcases hi with h | h | h <;> subst h <;> decide
            rw [hc, size_lt_int64_two] at h
            exact ⟨_, rfl, by simpa using h⟩
          · exact ⟨_, rfl, by simp⟩

/-- C16. In the loop of `parse_scope`, a call of a defined function on a stack with
fewer elements than `|signature.in|`, and a valid intrinsic (codes 1 to 14) on a stack
with fewer elements than `get_intrinsic_input_count`, throw "Not enough data on the
stack."; the exception is the result also where `get_intrinsic_signature` or
`check_and_apply_signature` would read outside the stack (`drop` on the empty stack,
`(int int -- int)` on `[int]`). Conversely, past the guard the signature has at most
as many inputs as the stack has elements, `get_intrinsic_signature` and
`check_and_apply_signature` read inside the stack, and the loop at a word or intrinsic
token either throws a `ParseException` at that token or goes on with the next token:
it never reads out of bounds there. -/
theorem parse_scope_loop_stack_underflow :
    (∀ (fuel : Nat) (lexer : Lexer) (program : Program) (type_stack : TypeStack)
        (end_keyword : Keyword) (scope : Scope) (local_offset : Int) (function : Function),
        lexer.current_token.type = .tok_word →
        program.find lexer.current_token.str_val = some function →
        type_stack.length < function.signature.in.length →
        parse_scope_loop (fuel + 1) lexer program type_stack end_keyword scope local_offset
          = throw_at lexer .not_enough_data)
    ∧ (∀ (fuel : Nat) (lexer : Lexer) (program : Program) (type_stack : TypeStack)
        (end_keyword : Keyword) (scope : Scope) (local_offset : Int),
        lexer.current_token.type = .tok_intrinsic →
        1 ≤ lexer.current_token.int_val → lexer.current_token.int_val ≤ 14 →
        (type_stack.length : Int) < get_intrinsic_input_count lexer.current_token.int_val →
        parse_scope_loop (fuel + 1) lexer program type_stack end_keyword scope local_offset
          = throw_at lexer .not_enough_data)
    ∧ (get_intrinsic_signature intrinsic_drop [] = none
        ∧ parse_scope_loop 1 ⟨[drop_token, end_token], ⟨1, 9⟩⟩ {} [] .keyword_end Scope.empty 0
            = .error ⟨⟨1, 3⟩, .not_enough_data⟩)
    ∧ (check_and_apply_signature ⟨[int_t, int_t], [int_t]⟩ [int_t] = none
        ∧ parse_scope_loop 1 ⟨[and_token, end_token], ⟨1, 9⟩⟩ {} [int_t] .keyword_end
            Scope.empty 0
            = .error ⟨⟨1, 3⟩, .not_enough_data⟩)
    ∧ (∀ (signature : TypeSignature) (type_stack : TypeStack),
        ¬ type_stack.length < signature.in.length →
        ∃ b type_stack',
          check_and_apply_signature signature type_stack = some (b, type_stack'))
    ∧ (∀ (i : Intrinsic) (type_stack : TypeStack),
        size_lt_int64 type_stack.length (get_intrinsic_input_count i) = false →
        ∃ signature, get_intrinsic_signature i type_stack = some signature
          ∧ signature.in.length ≤ type_stack.length
          ∧ ∃ b type_stack',
              check_and_apply_signature signature type_stack = some (b, type_stack'))
    ∧ (∀ (fuel : Nat) (lexer : Lexer) (program : Program) (type_stack : TypeStack)
        (end_keyword : Keyword) (scope : Scope) (local_offset : Int),
        lexer.current_token.type = .tok_word ∨ lexer.current_token.type = .tok_intrinsic →
        (∃ message,
          parse_scope_loop (fuel + 1) lexer program type_stack end_keyword scope local_offset
            = throw_at lexer message)
        ∨ (∃ (signature : TypeSignature) (P : TypeStack) (scope' : Scope) (local_offset' : Int),
            type_stack = P ++ signature.in
            ∧ parse_scope_loop (fuel + 1) lexer program type_stack end_keyword scope
                  local_offset
                = parse_scope_loop fuel lexer.next_token program (P ++ signature.out)
                    end_keyword scope' local_offset')) := by
  refine ⟨?_, ?_, ⟨by decide, rfl⟩, ⟨by decide, rfl⟩, ?_, ?_, ?_⟩
  · intro fuel lexer program type_stack end_keyword scope local_offset function ht hf hlen
    rw [parse_scope_loop_word _ _ _ _ _ _ _ ht]
    simp only [hf]
    rw [if_pos hlen]
  · intro fuel lexer program type_stack end_keyword scope local_offset ht h1 h14 hlen
    obtain ⟨hvalid, hc⟩ := get_intrinsic_input_count_valid h1 h14
    rw [parse_scope_loop_intrinsic _ _ _ _ _ _ _ ht, if_neg hvalid]
    have hguard : size_lt_int64 type_stack.length
        (get_intrinsic_input_count lexer.current_token.int_val) = true := by
      rcases hc with hc | hc
      · rw [hc] at hlen ⊢
        rw [size_lt_int64_one]
        simp only [decide_eq_true_eq]
        omega
      · rw [hc] at hlen ⊢
        rw [size_lt_int64_two]
        simp only [decide_eq_true_eq]
        omega
    rw [if_pos hguard]
  · intro signature type_stack hlen
    exact check_and_apply_signature_ne_none (by omega)
  · intro i type_stack h
    obtain ⟨signature, hsig, hlen⟩ := get_intrinsic_signature_in_bounds i type_stack h
    exact ⟨signature, hsig, hlen, check_and_apply_signature_ne_none hlen⟩
  · intro fuel lexer program type_stack end_keyword scope local_offset ht
    rcases ht with ht | ht
    · rw [parse_scope_loop_word _ _ _ _ _ _ _ ht]
      cases hf : program.find lexer.current_token.str_val with
      | none => exact Or.inl ⟨_, rfl⟩
      | some function =>
        simp only
        by_cases hlen : type_stack.length < function.signature.in.length
        · rw [if_pos hlen]
          exact Or.inl ⟨_, rfl⟩
        · rw [if_neg hlen]
          obtain ⟨b, st', hc⟩ :=
            @check_and_apply_signature_ne_none function.signature type_stack (by omega)
          cases b with
          | false => rw [hc]; exact Or.inl ⟨_, rfl⟩
          | true =>
            obtain ⟨P, h1, h2⟩ := check_and_apply_signature_eq_true hc
            rw [hc, h2]
            exact Or.inr ⟨function.signature, P, _, _, h1, rfl⟩
    · rw [parse_scope_loop_intrinsic _ _ _ _ _ _ _ ht]
      by_cases hvalid : lexer.current_token.int_val = intrinsic_invalid
      · rw [if_pos hvalid]
        exact Or.inl ⟨_, rfl⟩
      · rw [if_neg hvalid]
        cases hguard : size_lt_int64 type_stack.length
            (get_intrinsic_input_count lexer.current_token.int_val) with
        | true => exact Or.inl ⟨_, rfl⟩
        | false =>
          simp only [Bool.false_eq_true, if_false]
          obtain ⟨signature, hsig, hlen⟩ := get_intrinsic_signature_in_bounds _ _ hguard
          obtain ⟨b, st', hc⟩ := @check_and_apply_signature_ne_none signature type_stack hlen
          rw [hsig]
          cases b with
          | false => simp only [hc]; exact Or.inl ⟨_, rfl⟩
          | true =>
            obtain ⟨P, h1, h2⟩ := check_and_apply_signature_eq_true hc
            simp only [hc, h2]
            exact Or.inr ⟨signature, P, _, _, h1, rfl⟩

/-- The loop of `parse_scope` on a keyword token that is not the terminator. -/
theorem parse_scope_loop_keyword (fuel : Nat) (lexer : Lexer) (program : Program)
    (type_stack : TypeStack) (end_keyword : Keyword) (scope : Scope) (local_offset : Int)
    (ht : lexer.current_token.type = .tok_keyword)
    (hend : is_keyword lexer.current_token end_keyword = false) :
    parse_scope_loop (fuel + 1) lexer program type_stack end_keyword scope local_offset
      = match Keyword.ofInt lexer.current_token.int_val with
        | some .keyword_const => throw_at lexer .const_not_implemented
        | some .keyword_begin =>
          (parse_scope fuel lexer program type_stack .keyword_end).bind fun p =>
            parse_scope_loop fuel p.2.1.next_token program p.2.2 end_keyword
              ((scope.with_signature
                  (recalibrate_offset local_offset p.1.signature scope.signature).2).emplace_back
                (.scope p.1))
              (recalibrate_offset local_offset p.1.signature scope.signature).1
        | some .keyword_end => throw_at lexer .unexpected_end_of_scope
        | some .keyword_if =>
          (parse_if fuel lexer program type_stack).bind fun p =>
            parse_scope_loop fuel p.2.1 program p.2.2 end_keyword
              ((scope.with_signature
                  (recalibrate_offset local_offset (IfExpression.signature p.1)
                    scope.signature).2).emplace_back
                (.if_expression p.1))
              (recalibrate_offset local_offset (IfExpression.signature p.1) scope.signature).1
        | some .keyword_while =>
          (parse_while lexer program type_stack).bind fun p =>
            parse_scope_loop fuel p.2.1.next_token program p.2.2 end_keyword
              ((scope.with_signature
                  (recalibrate_offset local_offset (WhileExpression.signature p.1)
                    scope.signature).2).emplace_back
                (.while_expression p.1))
              (recalibrate_offset local_offset (WhileExpression.signature p.1)
                scope.signature).1
        | some .keyword_else => throw_at lexer .unexpected_else
        | some .keyword_else_if => throw_at lexer .unexpected_else_if
        | some .keyword_function => throw_at lexer .functions_only_at_toplevel
        | none =>
          parse_scope_loop fuel lexer.next_token program type_stack end_keyword scope
            local_offset := by
  rw [parse_scope_loop, hend]
  simp only [Bool.false_eq_true, if_false, ht]

theorem recalibrate_offset_empty (k : Int) (hk : 0 ≤ k) (s : TypeSignature) :
    recalibrate_offset k {} s = (k, s) := by
  unfold recalibrate_offset
  simp only [List.length_nil, Nat.cast_zero, sub_zero, add_zero]
  rw [if_neg (by omega)]

/-- The `local_offset` of the loop of `parse_scope` is never negative: it starts at 0
and every iteration keeps it so. -/
theorem Iteration.local_offset_nonneg {n : Nat} {program : Program} {lexer : Lexer}
    {type_stack : TypeStack} {scope : Scope} {local_offset : Int} {lexer' : Lexer}
    {type_stack' : TypeStack} {scope' : Scope} {local_offset' : Int}
    (h : Iteration n program lexer type_stack scope local_offset
      lexer' type_stack' scope' local_offset')
    (hk : 0 ≤ local_offset) : 0 ≤ local_offset' := by
  have hrec : ∀ a s, 0 ≤ (recalibrate_offset local_offset a s).1 := by
    intro a s
    unfold recalibrate_offset
    simp only
    split
    · simp
    · simp only; omega
  cases h with
  | literal _ => omega
  | call _ _ _ _ _ _ => exact hrec _ _
  | intrinsic _ _ _ _ _ _ _ => exact hrec _ _
  | block _ _ _ _ => exact hrec _ _
  | conditional _ _ _ _ => exact hrec _ _
  | skip _ _ => exact hk

/-- The shape of what `parse_if` returns. -/
theorem parse_if_eq_ok {fuel : Nat} {lexer : Lexer} {program : Program}
    {type_stack : TypeStack} {p : IfExpression × Lexer × TypeStack}
    (h : parse_if (fuel + 1) lexer program type_stack = .ok p) :
    ∃ (c b : Scope × Lexer × TypeStack),
      parse_scope fuel lexer program type_stack .keyword_begin = .ok c
      ∧ parse_scope fuel c.2.1 program c.2.2 .keyword_end = .ok b
      ∧ p.1 = if_expression c.1 b.1 := by
  rw [parse_if] at h
  obtain ⟨c, hc, h⟩ := Result.bind_eq_ok h
  obtain ⟨b, hb, h⟩ := Result.bind_eq_ok h
  obtain ⟨s, hs, h⟩ := Result.bind_eq_ok h
  refine ⟨c, b, hc, hb, ?_⟩
  split at h
  · obtain ⟨e, he, h⟩ := Result.bind_eq_ok h
    cases h
    rfl
  · cases h
    rfl

/-- C18. Whenever `parse_if` returns, the conditional it returns holds the first
condition scope and the first body scope as `parse_scope` returned them, an empty
else-if list, an empty else body and the empty signature, whatever else-if and else
branches were parsed. Folding it into an enclosing scope with `local_offset ≥ 0`
(which holds throughout the loop of `parse_scope`) leaves `local_offset` and the
scope's signature as they were: the loop goes on with the returned lexer and type
stack, the same `local_offset`, and the scope extended by the conditional only. -/
theorem parse_if_returns_first_branch (fuel : Nat) (lexer : Lexer) (program : Program)
    (type_stack : TypeStack) (p : IfExpression × Lexer × TypeStack)
    (h : parse_if fuel lexer program type_stack = .ok p) :
    (∃ (n : Nat) (c b : Scope × Lexer × TypeStack),
      fuel = n + 1
      ∧ parse_scope n lexer program type_stack .keyword_begin = .ok c
      ∧ parse_scope n c.2.1 program c.2.2 .keyword_end = .ok b
      ∧ p.1 = .mk ⟨[], []⟩ (.mk c.1 b.1) [] (.mk ⟨[], []⟩ []))
    ∧ p.1.else_if = []
    ∧ p.1.else_body = Scope.empty
    ∧ p.1.signature = ⟨[], []⟩
    ∧ (∀ (k : Int) (s : TypeSignature), 0 ≤ k →
        recalibrate_offset k p.1.signature s = (k, s))
    ∧ (∀ (end_keyword : Keyword) (scope : Scope) (local_offset : Int),
        0 ≤ local_offset →
        is_keyword lexer.current_token .keyword_if = true →
        end_keyword ≠ .keyword_if →
        parse_scope_loop (fuel + 1) lexer program type_stack end_keyword scope local_offset
          = parse_scope_loop fuel p.2.1 program p.2.2 end_keyword
              (scope.emplace_back (.if_expression p.1)) local_offset) := by
  cases fuel with
  | zero => simp [parse_if] at h
  | succ n =>
    obtain ⟨c, b, hc, hb, hp⟩ := parse_if_eq_ok h
    have hsig : p.1.signature = ⟨[], []⟩ := by rw [hp]; rfl
    refine ⟨⟨n, c, b, rfl, hc, hb, hp⟩, by rw [hp]; rfl, by rw [hp]; rfl, hsig, ?_, ?_⟩
    · intro k s hk
      rw [hsig]
      exact recalibrate_offset_empty k hk s
    · intro end_keyword scope local_offset hk hif hne
      unfold is_keyword at hif
      simp only [Bool.and_eq_true, decide_eq_true_eq] at hif
      obtain ⟨ht, hv⟩ := hif
      have hend : is_keyword lexer.current_token end_keyword = false := by
        unfold is_keyword
        simp only [ht, hv, decide_True, Bool.true_and, decide_eq_false_iff_not]
        cases end_keyword <;> first | exact absurd rfl hne | decide
      rw [parse_scope_loop_keyword _ _ _ _ _ _ _ ht hend, hv]
      have hof : Keyword.ofInt Keyword.keyword_if.toInt = some .keyword_if := by decide
      simp only [hof, h, Result.bind, hsig]
      rw [show recalibrate_offset local_offset ⟨[], []⟩ scope.signature
        = (local_offset, scope.signature) from recalibrate_offset_empty local_offset hk _]
      simp only
      congr 1
      cases scope
      rfl

/-- C18, at an instance: `if 1 { } elif 2 { 3 } else { 4 } }` on the empty stack. The
else-if and else branches leave three more `int`s on the stack and nothing in the
returned conditional. -/
theorem parse_if_returns_first_branch_witness :
    parse_if 8 ⟨if_elif_else_tokens, ⟨1, 34⟩⟩ {} []
      = .ok (.mk ⟨[], []⟩
              (.mk (.mk ⟨[], [int_t]⟩ [.operation_int .op_push_int 1]) (.mk ⟨[], []⟩ []))
              [] (.mk ⟨[], []⟩ []),
            ⟨if_elif_else_tokens.drop 13, ⟨1, 34⟩⟩, [int_t, int_t, int_t, int_t])
    ∧ (IfExpression.mk ⟨[], []⟩
        (.mk (.mk ⟨[], [int_t]⟩ [.operation_int .op_push_int 1]) (.mk ⟨[], []⟩ []))
        [] (.mk ⟨[], []⟩ [])).else_if = []
    ∧ (IfExpression.mk ⟨[], []⟩
        (.mk (.mk ⟨[], [int_t]⟩ [.operation_int .op_push_int 1]) (.mk ⟨[], []⟩ []))
        [] (.mk ⟨[], []⟩ [])).else_body = Scope.empty
    ∧ (IfExpression.mk ⟨[], []⟩
        (.mk (.mk ⟨[], [int_t]⟩ [.operation_int .op_push_int 1]) (.mk ⟨[], []⟩ []))
        [] (.mk ⟨[], []⟩ [])).signature = ⟨[], []⟩ :=
  have h := parse_if_returns_first_branch 8 ⟨if_elif_else_tokens, ⟨1, 34⟩⟩ {} []
    (.mk ⟨[], []⟩
        (.mk (.mk ⟨[], [int_t]⟩ [.operation_int .op_push_int 1]) (.mk ⟨[], []⟩ []))
        [] (.mk ⟨[], []⟩ []),
      ⟨if_elif_else_tokens.drop 13, ⟨1, 34⟩⟩, [int_t, int_t, int_t, int_t]) rfl
  ⟨rfl, h.2.1, h.2.2.1, h.2.2.2.1⟩

/-! ## Function definitions and the program -/

/-- The loop of `parse_program` on the `func` keyword. -/
theorem parse_program_loop_function (fuel : Nat) (lexer : Lexer) (program : Program)
    (hfunc : is_keyword lexer.current_token .keyword_function = true) :
    parse_program_loop (fuel + 1) lexer program
      = (parse_function fuel lexer program).bind fun f =>
          parse_program_loop fuel f.2.next_token (program.insert f.1.name f.1) := by
  unfold is_keyword at hfunc
  simp only [Bool.and_eq_true, decide_eq_true_eq] at hfunc
  obtain ⟨ht, hv⟩ := hfunc
  rw [parse_program_loop]
  simp only [ht, hv]
  rfl

theorem Program.contains_iff_mem_keys (program : Program) (name : String) :
    program.contains name = true ↔ name ∈ program.keys := by
  unfold Program.contains Program.find Program.keys
  cases program with
  | mk functions =>
    simp only
    induction functions with
    | nil => simp [List.lookup]
    | cons x xs ih =>
      obtain ⟨k, v⟩ := x
      simp only [List.lookup, List.map_cons, List.mem_cons]
      by_cases hk : name = k
      · subst hk
        simp
      · have hb : (name == k) = false := by simpa using hk
        rw [hb]
        simp only [hk, false_or]
        exact ih

theorem Program.insert_of_not_contains (program : Program) (name : String) (f : Function)
    (h : program.contains name = false) :
    program.insert name f = ⟨program.functions ++ [(name, f)]⟩ := by
  unfold Program.insert
  rw [h]
  rfl

theorem Program.contains_insert_self (program : Program) (name : String) (f : Function) :
    (program.insert name f).contains name = true := by
  by_cases h : program.contains name = true
  · unfold Program.insert
    rw [if_pos h]
    exact h
  · rw [Program.insert_of_not_contains program name f (by simpa using h),
      Program.contains_iff_mem_keys]
    simp [Program.keys]

theorem Program.contains_insert_of_contains (program : Program) (name name' : String)
    (f : Function) (h : program.contains name = true) :
    (program.insert name' f).contains name = true := by
  by_cases h' : program.contains name' = true
  · unfold Program.insert
    rw [if_pos h']
    exact h
  · rw [Program.insert_of_not_contains program name' f (by simpa using h'),
      Program.contains_iff_mem_keys]
    rw [Program.contains_iff_mem_keys] at h
    simp only [Program.keys, List.map_append, List.mem_append]
    exact Or.inl h

/-- What the header of an accepted function was: its name is new and its signature
is the declared one. -/
theorem parse_function_eq_ok {fuel : Nat} {lexer : Lexer} {program : Program}
    {f : Function} {lexer' : Lexer}
    (h : parse_function fuel lexer program = .ok (f, lexer')) :
    ∃ lexer_body,
      parse_function_header lexer program = .ok (f.name, f.signature, lexer_body)
      ∧ lexer.next_token.current_token.type = .tok_word
      ∧ f.name = lexer.next_token.current_token.str_val
      ∧ program.contains f.name = false := by
  have h0 := h
  unfold parse_function at h
  obtain ⟨hd, hhd, h⟩ := Result.bind_eq_ok h
  simp only at h
  obtain ⟨b, hb, h⟩ := Result.bind_eq_ok h
  split at h
  · cases h
  · cases h
  · simp only [Result.ok.injEq, Prod.mk.injEq] at h
    obtain ⟨hf, _⟩ := h
    subst hf
    refine ⟨hd.2.2, hhd, ?_⟩
    unfold parse_function_header at hhd
    simp only at hhd
    split at hhd
    · cases hhd
    · rename_i hw
      split at hhd
      · cases hhd
      · rename_i hc
        obtain ⟨i, hi, hhd⟩ := Result.bind_eq_ok hhd
        obtain ⟨o, ho, hhd⟩ := Result.bind_eq_ok hhd
        cases hhd
        exact ⟨by simpa using hw, rfl, by simpa using hc⟩

/-- A normal return of the loop of `parse_program` is a run of function
definitions. -/
theorem parse_program_loop_eq_ok :
    ∀ (fuel : Nat) (lexer : Lexer) (program result : Program),
      parse_program_loop fuel lexer program = .ok result →
      ∃ fs, Definitions lexer program fs result := by
  intro fuel
  induction fuel with
  | zero => intro lexer program result h; simp [parse_program_loop] at h
  | succ n ih =>
    intro lexer program result h
    rw [parse_program_loop] at h
    split at h
    · rename_i heof
      cases h
      exact ⟨[], Definitions.eof lexer program heof⟩
    · simp only at h
      split at h
      · rename_i ht
        split at h
        · rename_i hv
          obtain ⟨f, hf, h⟩ := Result.bind_eq_ok h
          obtain ⟨fs, hfs⟩ := ih _ _ _ h
          refine ⟨f.1 :: fs, Definitions.func n lexer program f.1 f.2 fs result ?_ hf hfs⟩
          unfold is_keyword
          simp [ht, hv]
        · cases h
      · cases h

/-- A run of function definitions appends them to the program: their names are new
and pairwise different. -/
theorem Definitions.functions_eq {lexer : Lexer} {program : Program} {fs : List Function}
    {result : Program} (h : Definitions lexer program fs result) :
    result.functions = program.functions ++ fs.map (fun f => (f.name, f))
    ∧ (fs.map Function.name).Nodup
    ∧ ∀ f ∈ fs, program.contains f.name = false := by
  induction h with
  | eof lexer program _ => simp
  | func fuel lexer program f lexer' fs result _ hf _ ih =>
    obtain ⟨_, _, _, _, hnew⟩ := parse_function_eq_ok hf
    obtain ⟨ih1, ih2, ih3⟩ := ih
    rw [Program.insert_of_not_contains program f.name f hnew] at ih1 ih3
    have hnot : ∀ g ∈ fs, g.name ≠ f.name := by
      intro g hg heq
      have := ih3 g hg
      rw [heq] at this
      have h2 : (Program.mk (program.functions ++ [(f.name, f)])).contains f.name = true := by
        rw [Program.contains_iff_mem_keys]
        simp [Program.keys]
      rw [h2] at this
      cases this
    refine ⟨?_, ?_, ?_⟩
    · rw [ih1]
      simp
    · simp only [List.map_cons, List.nodup_cons, List.mem_map, not_exists, not_and]
      exact ⟨fun g hg heq => hnot g hg heq, ih2⟩
    · intro g hg
      simp only [List.mem_cons] at hg
      rcases hg with rfl | hg
      · exact hnew
      · have := ih3 g hg
        by_contra hc
        have hc' : program.contains g.name = true := by simpa using hc
        rw [Program.contains_iff_mem_keys] at hc'
        have h2 : (Program.mk (program.functions ++ [(f.name, f)])).contains g.name = true := by
          rw [Program.contains_iff_mem_keys]
          simp only [Program.keys, List.map_append, List.mem_append]
          exact Or.inl hc'
        rw [h2] at this
        cases this

theorem parse_function_header_redefinition (lexer : Lexer) (program : Program)
    (hword : lexer.next_token.current_token.type = .tok_word)
    (hdef : program.contains lexer.next_token.current_token.str_val = true) :
    parse_function_header lexer program
      = throw_at lexer.next_token
          (.redefinition lexer.next_token.current_token.str_val) := by
  unfold parse_function_header
  simp only [hword, ne_eq, not_true_eq_false, if_false, hdef, if_true]

/-- C11. When `parse_program` stands on a `func` keyword followed by a word that is
already a key of the program, `parse_function` throws "Redefinition of function" at
that word, before the signature and the body are read, and `parse_program` throws it
too. A function that was accepted is a key of the program from then on, so a normal
return of `parse_program` only ever comes from definitions with pairwise different
names. For `func f int -- int { } func f int -- int { }` the first definition is
accepted (the empty body passes the declared `int` through) and the second is
rejected at its name. -/
theorem parse_function_redefinition (fuel : Nat) (lexer : Lexer) (program : Program)
    (hfunc : is_keyword lexer.current_token .keyword_function = true)
    (hword : lexer.next_token.current_token.type = .tok_word)
    (hdef : program.contains lexer.next_token.current_token.str_val = true) :
    (parse_function_header lexer program
        = .error ⟨lexer.next_token.current_token.location,
            .redefinition lexer.next_token.current_token.str_val⟩
      ∧ parse_function fuel lexer program
        = .error ⟨lexer.next_token.current_token.location,
            .redefinition lexer.next_token.current_token.str_val⟩
      ∧ parse_program_loop (fuel + 1) lexer program
        = .error ⟨lexer.next_token.current_token.location,
            .redefinition lexer.next_token.current_token.str_val⟩)
    ∧ (∀ (fuel : Nat) (lexer : Lexer) (program : Program) (f : Function) (lexer' : Lexer),
        parse_function fuel lexer program = .ok (f, lexer') →
        (program.insert f.name f).contains f.name = true)
    ∧ (∀ (program : Program) (name name' : String) (g : Function),
        program.contains name = true → (program.insert name' g).contains name = true)
    ∧ (∀ (fuel : Nat) (lexer : Lexer) (program result : Program),
        parse_program_loop fuel lexer program = .ok result →
        ∃ fs, Definitions lexer program fs result ∧ (fs.map Function.name).Nodup
          ∧ ∀ f ∈ fs, program.contains f.name = false)
    ∧ (∀ fuel, 2 ≤ fuel →
        parse_function fuel ⟨redefinition_tokens, ⟨1, 43⟩⟩ {}
          = .ok (passthrough_f, ⟨redefinition_tokens.drop 6, ⟨1, 43⟩⟩))
    ∧ parse_program ⟨redefinition_tokens, ⟨1, 43⟩⟩ = .error ⟨⟨1, 28⟩, .redefinition "f"⟩ := by
  have hheader := parse_function_header_redefinition lexer program hword hdef
  have hfunction : parse_function fuel lexer program
      = .error ⟨lexer.next_token.current_token.location,
          .redefinition lexer.next_token.current_token.str_val⟩ := by
    unfold parse_function
    rw [hheader]
    rfl
  refine ⟨⟨hheader, hfunction, ?_⟩, ?_, ?_, ?_, ?_, rfl⟩
  · rw [parse_program_loop_function fuel lexer program hfunc, hfunction]
    rfl
  · intro fuel lexer program f lexer' _
    exact Program.contains_insert_self program f.name f
  · intro program name name' g h
    exact Program.contains_insert_of_contains program name name' g h
  · intro fuel lexer program result h
    obtain ⟨fs, hfs⟩ := parse_program_loop_eq_ok fuel lexer program result h
    exact ⟨fs, hfs, hfs.functions_eq.2.1, hfs.functions_eq.2.2⟩
  · intro fuel hfuel
    obtain ⟨n, rfl⟩ : ∃ n, fuel = n + 2 := ⟨fuel - 2, by omega⟩
    rfl

/-- C11, at an instance: the second `func f` of
`func f int -- int { } func f int -- int { }`, reached with `f` in the program. -/
theorem parse_function_redefinition_witness :
    parse_function_header ⟨redefinition_tokens.drop 7, ⟨1, 43⟩⟩ ⟨[("f", passthrough_f)]⟩
        = .error ⟨⟨1, 28⟩, .redefinition "f"⟩
      ∧ parse_function 2 ⟨redefinition_tokens.drop 7, ⟨1, 43⟩⟩ ⟨[("f", passthrough_f)]⟩
        = .error ⟨⟨1, 28⟩, .redefinition "f"⟩
      ∧ parse_program_loop (2 + 1) ⟨redefinition_tokens.drop 7, ⟨1, 43⟩⟩
          ⟨[("f", passthrough_f)]⟩
        = .error ⟨⟨1, 28⟩, .redefinition "f"⟩ :=
  (parse_function_redefinition 2 ⟨redefinition_tokens.drop 7, ⟨1, 43⟩⟩
    ⟨[("f", passthrough_f)]⟩ (by decide) rfl (by decide)).1

theorem parse_function_header_new_name {lexer : Lexer} {program : Program} {name : String}
    {signature : TypeSignature} {lexer_body : Lexer}
    (h : parse_function_header lexer program = .ok (name, signature, lexer_body)) :
    program.contains name = false := by
  unfold parse_function_header at h
  simp only at h
  split at h
  · cases h
  · split at h
    · cases h
    · rename_i hc
      obtain ⟨i, hi, h⟩ := Result.bind_eq_ok h
      obtain ⟨o, ho, h⟩ := Result.bind_eq_ok h
      cases h
      simpa using hc

/-- C12. When the loop of `parse_scope` stands on a word that is not a key of the
program, it throws "Unknown word" at that word. While the body of a function is
parsed the program holds the functions accepted before it: the name of the function
itself is not a key (its header was accepted, and it is inserted after
`parse_function` has returned), so a word equal to it throws as well. Hence
`func g { h } func h { }` fails at `h` although `h` is defined later, and
`func r { r }` fails at the inner `r`. -/
theorem parse_scope_loop_unknown_word (fuel : Nat) (lexer : Lexer) (program : Program)
    (type_stack : TypeStack) (end_keyword : Keyword) (scope : Scope) (local_offset : Int)
    (hword : lexer.current_token.type = .tok_word) :
    (program.contains lexer.current_token.str_val = false →
      parse_scope_loop (fuel + 1) lexer program type_stack end_keyword scope local_offset
        = .error ⟨lexer.current_token.location,
            .unknown_word lexer.current_token.str_val⟩)
    ∧ (∀ (lexer₀ : Lexer) (name : String) (signature : TypeSignature) (lexer_body : Lexer),
        parse_function_header lexer₀ program = .ok (name, signature, lexer_body) →
        lexer.current_token.str_val = name →
        parse_scope_loop (fuel + 1) lexer program type_stack end_keyword scope local_offset
          = .error ⟨lexer.current_token.location, .unknown_word name⟩)
    ∧ parse_program ⟨forward_reference_tokens, ⟨1, 23⟩⟩
        = .error ⟨⟨1, 10⟩, .unknown_word "h"⟩
    ∧ parse_program ⟨self_call_tokens, ⟨1, 12⟩⟩ = .error ⟨⟨1, 10⟩, .unknown_word "r"⟩ := by
  have hthrow : program.contains lexer.current_token.str_val = false →
      parse_scope_loop (fuel + 1) lexer program type_stack end_keyword scope local_offset
        = .error ⟨lexer.current_token.location,
            .unknown_word lexer.current_token.str_val⟩ := by
    intro hnew
    have hfind : program.find lexer.current_token.str_val = none := by
      unfold Program.contains at hnew
      cases h : program.find lexer.current_token.str_val with
      | none => rfl
      | some f => rw [h] at hnew; cases hnew
    rw [parse_scope_loop_word _ _ _ _ _ _ _ hword]
    simp only [hfind]
    rfl
  refine ⟨hthrow, ?_, rfl, rfl⟩
  intro lexer₀ name signature lexer_body hheader hname
  have hnew := parse_function_header_new_name hheader
  rw [← hname] at hnew ⊢
  exact hthrow hnew

/-- C12, at instances: the `h` in the body of `g` with the empty program, and the
inner `r` of `func r { r }` after the header of `r` has been read. -/
theorem parse_scope_loop_unknown_word_witness :
    parse_scope_loop (1 + 1) ⟨forward_reference_tokens.drop 3, ⟨1, 23⟩⟩ {} []
        .keyword_end Scope.empty 0
      = .error ⟨⟨1, 10⟩, .unknown_word "h"⟩
    ∧ parse_scope_loop (1 + 1) ⟨self_call_tokens.drop 3, ⟨1, 12⟩⟩ {} []
        .keyword_end Scope.empty 0
      = .error ⟨⟨1, 10⟩, .unknown_word "r"⟩ :=
  ⟨(parse_scope_loop_unknown_word 1 ⟨forward_reference_tokens.drop 3, ⟨1, 23⟩⟩ {} []
      .keyword_end Scope.empty 0 rfl).1 (by decide),
    (parse_scope_loop_unknown_word 1 ⟨self_call_tokens.drop 3, ⟨1, 12⟩⟩ {} []
      .keyword_end Scope.empty 0 rfl).2.1 ⟨self_call_tokens, ⟨1, 12⟩⟩ "r" ⟨[], []⟩
      ⟨self_call_tokens.drop 2, ⟨1, 12⟩⟩ rfl rfl⟩

/-! ## The header of a function definition -/

theorem is_type_word_spec {token : Token} (h : is_type_word token) :
    is_keyword token .keyword_begin = false ∧ token.type = .tok_word
    ∧ token.str_val ≠ "--" ∧ from_name token.str_val ≠ invalid_t := by
  obtain ⟨ht, hs⟩ := h
  refine ⟨is_keyword_eq_false_of_type _ (by rw [ht]; decide), ht, ?_, ?_⟩
  · rcases hs with hs | hs | hs <;> rw [hs] <;> decide
  · rcases hs with hs | hs | hs <;> rw [hs] <;> decide

theorem read_input_types_type_words (eof_location : Location) (rest : List Token) :
    ∀ (ws : List Token) (signature_in : TypeStack), (∀ t ∈ ws, is_type_word t) →
      read_input_types eof_location (ws ++ rest) signature_in
        = read_input_types eof_location rest (signature_in ++ type_names ws) := by
  intro ws
  induction ws with
  | nil => intro signature_in _; simp [type_names]
  | cons t ts ih =>
    intro signature_in h
    obtain ⟨h1, h2, h3, h4⟩ := is_type_word_spec (h t (List.mem_cons_self _ _))
    rw [List.cons_append, read_input_types]
    simp only [h1, Bool.false_eq_true, if_false, h2, ne_eq, not_true_eq_false, h3, h4]
    rw [ih _ (fun x hx => h x (List.mem_cons_of_mem _ hx))]
    simp [type_names]

theorem read_output_types_type_words (eof_location : Location) (rest : List Token) :
    ∀ (vs : List Token) (signature_out : TypeStack), (∀ t ∈ vs, is_type_word t) →
      read_output_types eof_location (vs ++ rest) signature_out
        = read_output_types eof_location rest (signature_out ++ type_names vs) := by
  intro vs
  induction vs with
  | nil => intro signature_out _; simp [type_names]
  | cons t ts ih =>
    intro signature_out h
    obtain ⟨h1, h2, h3, h4⟩ := is_type_word_spec (h t (List.mem_cons_self _ _))
    rw [List.cons_append, read_output_types]
    simp only [h1, Bool.false_eq_true, if_false, h2, ne_eq, not_true_eq_false, h4]
    rw [ih _ (fun x hx => h x (List.mem_cons_of_mem _ hx))]
    simp [type_names]

theorem read_input_types_begin (eof_location : Location) (token : Token) (rest : List Token)
    (signature_in : TypeStack) (h : is_keyword token .keyword_begin = true) :
    read_input_types eof_location (token :: rest) signature_in
      = .ok (signature_in, ⟨token :: rest, eof_location⟩) := by
  rw [read_input_types]
  simp only [h, if_true]

theorem read_output_types_begin (eof_location : Location) (token : Token) (rest : List Token)
    (signature_out : TypeStack) (h : is_keyword token .keyword_begin = true) :
    read_output_types eof_location (token :: rest) signature_out
      = .ok (signature_out, ⟨token :: rest, eof_location⟩) := by
  rw [read_output_types]
  simp only [h, if_true]

theorem read_input_types_separator (eof_location : Location) (token : Token)
    (rest : List Token) (signature_in : TypeStack) (h : is_separator token) :
    read_input_types eof_location (token :: rest) signature_in
      = .ok (signature_in, ⟨rest, eof_location⟩) := by
  obtain ⟨ht, hs⟩ := h
  rw [read_input_types]
  simp only [is_keyword_eq_false_of_type .keyword_begin (by rw [ht]; decide : token.type ≠ _),
    Bool.false_eq_true, if_false, ht, ne_eq, not_true_eq_false, hs, if_true]
  rfl

/-- A token that is neither the opening `{`, nor the separator, nor a type name makes
the loop over the input types throw at it. -/
theorem read_input_types_bad (eof_location : Location) (token : Token) (rest : List Token)
    (signature_in : TypeStack) (hbegin : is_keyword token .keyword_begin = false)
    (hsep : ¬ is_separator token) (hbad : ¬ is_type_word token) :
    read_input_types eof_location (token :: rest) signature_in
      = throw_at ⟨token :: rest, eof_location⟩ (signature_message token) := by
  rw [read_input_types]
  simp only [hbegin, Bool.false_eq_true, if_false]
  unfold signature_message
  by_cases ht : token.type = .tok_word
  · have hs : ¬ token.str_val = "--" := fun hs => hsep ⟨ht, hs⟩
    have hinvalid : from_name token.str_val = invalid_t := by
      unfold from_name
      by_cases h1 : token.str_val = "int"
      · exact absurd ⟨ht, Or.inl h1⟩ hbad
      · by_cases h2 : token.str_val = "bool"
        · exact absurd ⟨ht, Or.inr (Or.inl h2)⟩ hbad
        · by_cases h3 : token.str_val = "char"
          · exact absurd ⟨ht, Or.inr (Or.inr h3)⟩ hbad
          · rw [if_neg h1, if_neg h2, if_neg h3]
    simp only [ht, ne_eq, not_true_eq_false, if_false, hs, hinvalid, if_true]
  · simp only [ne_eq, ht, not_false_eq_true, if_true]

/-- A token that is neither the opening `{` nor a type name makes the loop over the
output types throw at it. -/
theorem read_output_types_bad (eof_location : Location) (token : Token) (rest : List Token)
    (signature_out : TypeStack) (hbegin : is_keyword token .keyword_begin = false)
    (hbad : ¬ is_type_word token) :
    read_output_types eof_location (token :: rest) signature_out
      = throw_at ⟨token :: rest, eof_location⟩ (signature_message token) := by
  rw [read_output_types]
  simp only [hbegin, Bool.false_eq_true, if_false]
  unfold signature_message
  by_cases ht : token.type = .tok_word
  · have hinvalid : from_name token.str_val = invalid_t := by
      unfold from_name
      by_cases h1 : token.str_val = "int"
      · exact absurd ⟨ht, Or.inl h1⟩ hbad
      · by_cases h2 : token.str_val = "bool"
        · exact absurd ⟨ht, Or.inr (Or.inl h2)⟩ hbad
        · by_cases h3 : token.str_val = "char"
          · exact absurd ⟨ht, Or.inr (Or.inr h3)⟩ hbad
          · rw [if_neg h1, if_neg h2, if_neg h3]
    simp only [ht, ne_eq, not_true_eq_false, if_false, hinvalid, if_true]
  · simp only [ne_eq, ht, not_false_eq_true, if_true]

/-- The header of a function once its name has been accepted. -/
theorem parse_function_header_eq (lexer : Lexer) (program : Program) (name_token : Token)
    (header : List Token) (htokens : lexer.next_token.tokens = name_token :: header)
    (hname : name_token.type = .tok_word)
    (hnew : program.contains name_token.str_val = false) :
    parse_function_header lexer program
      = (read_input_types lexer.eof_location header []).bind fun i =>
        (read_output_types i.2.eof_location i.2.tokens []).bind fun o =>
        .ok (name_token.str_val, ⟨i.1, o.1⟩, o.2) := by
  have hcur : lexer.next_token.current_token = name_token := by
    simp [Lexer.current_token, htokens]
  have hnext : lexer.next_token.next_token.tokens = header := by
    show lexer.next_token.tokens.tail = header
    rw [htokens]
    rfl
  have heof : lexer.next_token.next_token.eof_location = lexer.eof_location := rfl
  unfold parse_function_header
  simp only [hcur, hname, ne_eq, not_true_eq_false, if_false, hnew, Bool.false_eq_true,
    hnext, heof]

theorem parse_function_of_header_error (fuel : Nat) (lexer : Lexer) (program : Program)
    (e : ParseException) (h : parse_function_header lexer program = .error e) :
    parse_function fuel lexer program = .error e := by
  unfold parse_function
  rw [h]
  rfl

/-- C19. A function header is read after the name (a new word): type-name words
`ws`, then either the opening `{` or the separator `--`, type-name words `vs` and the
opening `{`. When all of `ws`, `vs` name `int`, `bool` or `char`, the declared
signature is `in = types of ws`, `out = types of vs` (`out = []` without separator)
and the lexer stands on the `{`. A token in the place of a type name that is neither
the `{`, nor the first `--`, nor such a name (a word that names no type, a second
`--`, a token that is not a word, the end of input) makes `parse_function_header`
throw at that token, and then `parse_function` throws the same exception without
parsing a body. -/
theorem parse_function_header_spec (lexer : Lexer) (program : Program) (name_token : Token)
    (ws vs : List Token) (separator begin_token : Token) (rest : List Token)
    (hname : name_token.type = .tok_word)
    (hnew : program.contains name_token.str_val = false)
    (hws : ∀ t ∈ ws, is_type_word t) (hvs : ∀ t ∈ vs, is_type_word t)
    (hsep : is_separator separator)
    (hbegin : is_keyword begin_token .keyword_begin = true) :
    (lexer.next_token.tokens = name_token :: (ws ++ begin_token :: rest) →
      parse_function_header lexer program
        = .ok (name_token.str_val, ⟨type_names ws, []⟩,
            ⟨begin_token :: rest, lexer.eof_location⟩))
    ∧ (lexer.next_token.tokens
          = name_token :: (ws ++ separator :: (vs ++ begin_token :: rest)) →
      parse_function_header lexer program
        = .ok (name_token.str_val, ⟨type_names ws, type_names vs⟩,
            ⟨begin_token :: rest, lexer.eof_location⟩))
    ∧ (∀ (bad : Token) (tail : List Token),
        is_keyword bad .keyword_begin = false → ¬ is_separator bad → ¬ is_type_word bad →
        lexer.next_token.tokens = name_token :: (ws ++ bad :: tail) →
        parse_function_header lexer program
            = .error ⟨bad.location, signature_message bad⟩
          ∧ ∀ fuel, parse_function fuel lexer program
              = .error ⟨bad.location, signature_message bad⟩)
    ∧ (∀ (bad : Token) (tail : List Token),
        is_keyword bad .keyword_begin = false → ¬ is_type_word bad →
        lexer.next_token.tokens = name_token :: (ws ++ separator :: (vs ++ bad :: tail)) →
        parse_function_header lexer program
            = .error ⟨bad.location, signature_message bad⟩
          ∧ ∀ fuel, parse_function fuel lexer program
              = .error ⟨bad.location, signature_message bad⟩)
    ∧ (lexer.next_token.tokens = name_token :: ws →
        parse_function_header lexer program
            = .error ⟨lexer.eof_location, .expected_word_in_signature⟩
          ∧ ∀ fuel, parse_function fuel lexer program
              = .error ⟨lexer.eof_location, .expected_word_in_signature⟩)
    ∧ (lexer.next_token.tokens = name_token :: (ws ++ separator :: vs) →
        parse_function_header lexer program
            = .error ⟨lexer.eof_location, .expected_word_in_signature⟩
          ∧ ∀ fuel, parse_function fuel lexer program
              = .error ⟨lexer.eof_location, .expected_word_in_signature⟩)
    ∧ (from_name "int" = int_t ∧ from_name "bool" = bool_t ∧ from_name "char" = char_t) := by
  have hin : ∀ tail acc, read_input_types lexer.eof_location (ws ++ tail) acc
      = read_input_types lexer.eof_location tail (acc ++ type_names ws) :=
    fun tail acc => read_input_types_type_words _ tail ws acc hws
  have hout : ∀ tail acc, read_output_types lexer.eof_location (vs ++ tail) acc
      = read_output_types lexer.eof_location tail (acc ++ type_names vs) :=
    fun tail acc => read_output_types_type_words _ tail vs acc hvs
  have hfail : ∀ e, parse_function_header lexer program = .error e →
      parse_function_header lexer program = .error e
        ∧ ∀ fuel, parse_function fuel lexer program = .error e :=
    fun e h => ⟨h, fun fuel => parse_function_of_header_error fuel lexer program e h⟩
  refine ⟨?_, ?_, ?_, ?_, ?_, ?_, by decide, by decide, by decide⟩
  · intro htokens
    rw [parse_function_header_eq lexer program name_token _ htokens hname hnew, hin,
      read_input_types_begin _ _ _ _ hbegin]
    simp only [Result.bind, List.nil_append]
    rw [read_output_types_begin _ _ _ _ hbegin]
  · intro htokens
    rw [parse_function_header_eq lexer program name_token _ htokens hname hnew, hin,
      read_input_types_separator _ _ _ _ hsep]
    simp only [Result.bind, List.nil_append]
    rw [hout, read_output_types_begin _ _ _ _ hbegin]
    simp
  · intro bad tail hb hs ht htokens
    apply hfail
    rw [parse_function_header_eq lexer program name_token _ htokens hname hnew, hin,
      read_input_types_bad _ _ _ _ hb hs ht]
    rfl
  · intro bad tail hb ht htokens
    apply hfail
    rw [parse_function_header_eq lexer program name_token _ htokens hname hnew, hin,
      read_input_types_separator _ _ _ _ hsep]
    simp only [Result.bind]
    rw [hout, read_output_types_bad _ _ _ _ hb ht]
    rfl
  · intro htokens
    apply hfail
    have h := hin [] []
    rw [List.append_nil] at h
    rw [parse_function_header_eq lexer program name_token _ htokens hname hnew, h,
      read_input_types]
    rfl
  · intro htokens
    apply hfail
    have h := hout [] []
    rw [List.append_nil] at h
    rw [parse_function_header_eq lexer program name_token _ htokens hname hnew, hin,
      read_input_types_separator _ _ _ _ hsep]
    simp only [Result.bind]
    rw [h, read_output_types]
    rfl

/-- C19, at instances: the header `add2 int -- int {` gives `(int -- int)`, and in
`bad int -- bool -- {` the second `--` is rejected as an unknown type. -/
theorem parse_function_header_spec_witness :
    parse_function_header ⟨add2_tokens, ⟨1, 28⟩⟩ {}
      = .ok ("add2", ⟨[int_t], [int_t]⟩, ⟨add2_tokens.drop 5, ⟨1, 28⟩⟩)
    ∧ (parse_function_header ⟨second_separator_tokens, ⟨1, 26⟩⟩ {}
          = .error ⟨⟨1, 22⟩, .unknown_type "--"⟩
        ∧ ∀ fuel, parse_function fuel ⟨second_separator_tokens, ⟨1, 26⟩⟩ {}
            = .error ⟨⟨1, 22⟩, .unknown_type "--"⟩) :=
  ⟨(parse_function_header_spec ⟨add2_tokens, ⟨1, 28⟩⟩ {} ⟨.tok_word, "add2", 0, ⟨1, 6⟩⟩
      [⟨.tok_word, "int", 0, ⟨1, 11⟩⟩] [⟨.tok_word, "int", 0, ⟨1, 18⟩⟩]
      ⟨.tok_word, "--", 0, ⟨1, 15⟩⟩
      ⟨.tok_keyword, "\x7b", Keyword.keyword_begin.toInt, ⟨1, 22⟩⟩ (add2_tokens.drop 6)
      rfl rfl (by simp [is_type_word]) (by simp [is_type_word]) ⟨rfl, rfl⟩
      (by decide)).2.1 rfl,
    (parse_function_header_spec ⟨second_separator_tokens, ⟨1, 26⟩⟩ {}
      ⟨.tok_word, "bad", 0, ⟨1, 6⟩⟩
      [⟨.tok_word, "int", 0, ⟨1, 10⟩⟩] [⟨.tok_word, "bool", 0, ⟨1, 17⟩⟩]
      ⟨.tok_word, "--", 0, ⟨1, 14⟩⟩
      ⟨.tok_keyword, "\x7b", Keyword.keyword_begin.toInt, ⟨1, 25⟩⟩ []
      rfl rfl (by simp [is_type_word]) (by simp [is_type_word]) ⟨rfl, rfl⟩
      (by decide)).2.2.2.1 ⟨.tok_word, "--", 0, ⟨1, 22⟩⟩
      [⟨.tok_keyword, "\x7b", Keyword.keyword_begin.toInt, ⟨1, 25⟩⟩]
      (by decide) (by simp [is_type_word]) rfl⟩

theorem lookup_of_nodup_names :
    ∀ (fs : List Function), (fs.map Function.name).Nodup → ∀ f ∈ fs,
      (fs.map fun f => (f.name, f)).lookup f.name = some f := by
  intro fs
  induction fs with
  | nil => intro _ f hf; cases hf
  | cons g gs ih =>
    intro hnodup f hf
    simp only [List.map_cons, List.nodup_cons, List.mem_map, not_exists, not_and] at hnodup
    obtain ⟨hg, hgs⟩ := hnodup
    simp only [List.map_cons, List.lookup]
    simp only [List.mem_cons] at hf
    rcases hf with rfl | hf
    · simp
    · have hne : f.name ≠ g.name := fun h => hg f hf h
      have hb : (f.name == g.name) = false := by simpa using hne
      rw [hb]
      exact ih hgs f hf

/-- The loop of `parse_program` on a token that is neither the end of input nor the
`func` keyword. -/
theorem parse_program_loop_other (fuel : Nat) (lexer : Lexer) (program : Program)
    (heof : lexer.current_token.type ≠ .tok_eof)
    (hfunc : is_keyword lexer.current_token .keyword_function = false) :
    parse_program_loop (fuel + 1) lexer program
      = throw_at lexer (top_level_message lexer.current_token) := by
  rw [parse_program_loop, if_neg heof]
  simp only
  unfold top_level_message
  by_cases ht : lexer.current_token.type = .tok_keyword
  · have hv : ¬ lexer.current_token.int_val = Keyword.keyword_function.toInt := by
      intro hv
      unfold is_keyword at hfunc
      simp [ht, hv] at hfunc
    simp only [ht, if_true, hv, if_false]
  · rw [if_neg ht]
    split
    · rename_i h; exact absurd h ht
    · rfl

/-- C20. At top level `parse_program` accepts the `func` keyword only: on any other
token that is not the end of input it throws ("Unexpected keyword" for a keyword,
"Unexpected token" otherwise), also after functions have been parsed. On the empty
token stream it returns the empty program. When it returns a program, the input was
a run of function definitions up to the end of input, and the program holds exactly
these functions, in order, under their names, which are pairwise different; each
function carries the name and the signature that `parse_function_header` read. -/
theorem parse_program_top_level :
    (∀ (fuel : Nat) (lexer : Lexer) (program : Program),
      lexer.current_token.type ≠ .tok_eof →
      is_keyword lexer.current_token .keyword_function = false →
      parse_program_loop (fuel + 1) lexer program
        = .error ⟨lexer.current_token.location, top_level_message lexer.current_token⟩)
    ∧ (∀ eof_location : Location, parse_program ⟨[], eof_location⟩ = .ok ⟨[]⟩)
    ∧ (∀ (lexer : Lexer) (result : Program), parse_program lexer = .ok result →
        ∃ fs, Definitions lexer ⟨[]⟩ fs result
          ∧ result.functions = fs.map (fun f => (f.name, f))
          ∧ result.keys = fs.map Function.name
          ∧ (fs.map Function.name).Nodup
          ∧ ∀ f ∈ fs, result.find f.name = some f)
    ∧ (∀ (fuel : Nat) (lexer : Lexer) (program : Program) (f : Function) (lexer' : Lexer),
        parse_function fuel lexer program = .ok (f, lexer') →
        ∃ lexer_body,
          parse_function_header lexer program = .ok (f.name, f.signature, lexer_body))
    ∧ parse_program ⟨[⟨.tok_int, "1", 1, ⟨1, 1⟩⟩], ⟨1, 1⟩⟩
        = .error ⟨⟨1, 1⟩, .unexpected_token⟩
    ∧ parse_program ⟨add2_tokens ++ [⟨.tok_keyword, "\x7d", Keyword.keyword_end.toInt, ⟨1, 30⟩⟩],
          ⟨1, 30⟩⟩
        = .error ⟨⟨1, 30⟩, .unexpected_keyword "\x7d"⟩
    ∧ parse_program ⟨two_functions_tokens, ⟨1, 45⟩⟩
        = .ok ⟨[("f", passthrough_f), ("g", calling_g)]⟩ := by
  refine ⟨?_, ?_, ?_, ?_, rfl, rfl, rfl⟩
  · intro fuel lexer program heof hfunc
    exact parse_program_loop_other fuel lexer program heof hfunc
  · intro eof_location
    rfl
  · intro lexer result h
    obtain ⟨fs, hfs⟩ := parse_program_loop_eq_ok _ lexer ⟨[]⟩ result h
    obtain ⟨h1, h2, _⟩ := hfs.functions_eq
    simp only [List.nil_append] at h1
    refine ⟨fs, hfs, h1, ?_, h2, ?_⟩
    · simp [Program.keys, h1]
    · intro f hf
      unfold Program.find
      rw [h1]
      exact lookup_of_nodup_names fs h2 f hf
  · intro fuel lexer program f lexer' h
    obtain ⟨lexer_body, hheader, _⟩ := parse_function_eq_ok h
    exact ⟨lexer_body, hheader⟩

/-- C17, on the code: `parse_if` compares no branch with another. For
`func f { if 1 1 = { 1 } else { } }` the first body is sealed as `( -- int)` and the
scope parsed for the else branch as `( -- )`, both from the same type stack height;
`parse_if` returns normally with the type stack `[bool, int]`, and `parse_program`
accepts the function with the declared signature `( -- )`. -/
theorem parse_if_accepts_branch_mismatch :
    (∀ fuel, 3 ≤ fuel →
      parse_scope fuel ⟨branch_mismatch_tokens.drop 7, ⟨1, 34⟩⟩ {} [bool_t] .keyword_end
        = .ok (.mk ⟨[], [int_t]⟩ [.operation_int .op_push_int 1],
            ⟨branch_mismatch_tokens.drop 9, ⟨1, 34⟩⟩, [bool_t, int_t]))
    ∧ (∀ fuel, 5 ≤ fuel →
      parse_scope fuel ⟨branch_mismatch_tokens.drop 10, ⟨1, 34⟩⟩ {} [bool_t, int_t]
          .keyword_end
        = .ok (.mk ⟨[], []⟩ [.scope (.mk ⟨[], []⟩ [])],
            ⟨branch_mismatch_tokens.drop 13, ⟨1, 34⟩⟩, [bool_t, int_t]))
    ∧ (∀ fuel, 6 ≤ fuel →
      parse_if fuel ⟨branch_mismatch_tokens.drop 3, ⟨1, 34⟩⟩ {} []
        = .ok (branch_mismatch_if, ⟨branch_mismatch_tokens.drop 13, ⟨1, 34⟩⟩,
            [bool_t, int_t]))
    ∧ parse_program ⟨branch_mismatch_tokens, ⟨1, 34⟩⟩
        = .ok ⟨[("f", ⟨"f", ⟨[], []⟩, .mk ⟨[], []⟩ [.if_expression branch_mismatch_if]⟩)]⟩ := by
  refine ⟨?_, ?_, ?_, rfl⟩
  · intro fuel hfuel
    obtain ⟨n, rfl⟩ : ∃ n, fuel = n + 3 := ⟨fuel - 3, by omega⟩
    rfl
  · intro fuel hfuel
    obtain ⟨n, rfl⟩ : ∃ n, fuel = n + 5 := ⟨fuel - 5, by omega⟩
    rfl
  · intro fuel hfuel
    obtain ⟨n, rfl⟩ : ∃ n, fuel = n + 6 := ⟨fuel - 6, by omega⟩
    rfl

/-- The loop of `parse_scope` at the end of input. -/
theorem parse_scope_loop_eof (fuel : Nat) (lexer : Lexer) (program : Program)
    (type_stack : TypeStack) (end_keyword : Keyword) (scope : Scope) (local_offset : Int)
    (heof : lexer.current_token.type = .tok_eof) :
    parse_scope_loop (fuel + 1) lexer program type_stack end_keyword scope local_offset
      = throw_at lexer .scope_left_unclosed := by
  rw [parse_scope_loop,
    is_keyword_eq_false_of_type end_keyword (by rw [heof]; decide)]
  simp only [Bool.false_eq_true, if_false, heof]

theorem Lexer.next_token_suffix (lexer : Lexer) :
    lexer.next_token.tokens <:+ lexer.tokens := by
  show lexer.tokens.tail <:+ lexer.tokens
  exact List.tail_suffix _

theorem Iteration.suffix {n : Nat} {program : Program} {lexer : Lexer}
    {type_stack : TypeStack} {scope : Scope} {local_offset : Int} {lexer' : Lexer}
    {type_stack' : TypeStack} {scope' : Scope} {local_offset' : Int}
    (h : Iteration n program lexer type_stack scope local_offset
      lexer' type_stack' scope' local_offset')
    (hscope : ∀ p, parse_scope n lexer program type_stack .keyword_end = .ok p →
      p.2.1.tokens <:+ lexer.tokens)
    (hif : ∀ p, parse_if n lexer program type_stack = .ok p →
      p.2.1.tokens <:+ lexer.tokens) :
    lexer'.tokens <:+ lexer.tokens := by
  cases h with
  | literal _ => exact Lexer.next_token_suffix _
  | call _ _ _ _ _ _ => exact Lexer.next_token_suffix _
  | intrinsic _ _ _ _ _ _ _ => exact Lexer.next_token_suffix _
  | block p _ _ hp => exact (Lexer.next_token_suffix _).trans (hscope p hp)
  | conditional p _ _ hp => exact hif p hp
  | skip _ _ => exact Lexer.next_token_suffix _

/-- A scope is sealed on its terminator only, and the parsing functions leave the
lexer on a later part of the tokens they were given. -/
theorem parse_lexer_suffix (program : Program) :
    ∀ (fuel : Nat),
      (∀ (lexer : Lexer) (type_stack : TypeStack) (end_keyword : Keyword) (scope : Scope)
        (local_offset : Int) (r : Scope × Lexer × TypeStack),
        parse_scope_loop fuel lexer program type_stack end_keyword scope local_offset = .ok r →
        is_keyword r.2.1.current_token end_keyword = true ∧ r.2.1.tokens <:+ lexer.tokens)
      ∧ (∀ (lexer : Lexer) (type_stack : TypeStack) (end_keyword : Keyword)
        (r : Scope × Lexer × TypeStack),
        parse_scope fuel lexer program type_stack end_keyword = .ok r →
        is_keyword r.2.1.current_token end_keyword = true
          ∧ r.2.1.tokens <:+ lexer.tokens.tail)
      ∧ (∀ (lexer : Lexer) (type_stack : TypeStack) (r : IfExpression × Lexer × TypeStack),
        parse_if fuel lexer program type_stack = .ok r → r.2.1.tokens <:+ lexer.tokens)
      ∧ (∀ (lexer : Lexer) (type_stack : TypeStack) (r : Lexer × TypeStack),
        parse_if_loop fuel lexer program type_stack = .ok r →
        r.1.tokens <:+ lexer.tokens) := by
  intro fuel
  induction fuel with
  | zero =>
    refine ⟨?_, ?_, ?_, ?_⟩
    · intro lexer type_stack end_keyword scope local_offset r h
      simp [parse_scope_loop] at h
    · intro lexer type_stack end_keyword r h
      simp [parse_scope] at h
    · intro lexer type_stack r h
      simp [parse_if] at h
    · intro lexer type_stack r h
      simp [parse_if_loop] at h
  | succ n ih =>
    obtain ⟨ih_loop, ih_scope, ih_if, ih_if_loop⟩ := ih
    have tail_le : ∀ (l : Lexer), l.tokens.tail <:+ l.tokens := fun l => List.tail_suffix _
    refine ⟨?_, ?_, ?_, ?_⟩
    · intro lexer type_stack end_keyword scope local_offset r h
      rcases parse_scope_loop_ok_cases h with ⟨hk, hs⟩ | ⟨_, lexer', st', scope', k', hit, hrec⟩
      · obtain ⟨_, _, rfl⟩ := seal_scope_eq_ok hs
        exact ⟨hk, List.suffix_refl _⟩
      · have h1 := ih_loop _ _ _ _ _ _ hrec
        have h2 := hit.suffix
          (fun p hp => ((ih_scope _ _ _ _ hp).2).trans (tail_le _))
          (fun p hp => ih_if _ _ _ hp)
        exact ⟨h1.1, h1.2.trans h2⟩
    · intro lexer type_stack end_keyword r h
      rw [parse_scope] at h
      exact ih_loop _ _ _ _ _ _ h
    · intro lexer type_stack r h
      rw [parse_if] at h
      obtain ⟨c, hc, h⟩ := Result.bind_eq_ok h
      obtain ⟨b, hb, h⟩ := Result.bind_eq_ok h
      obtain ⟨s, hs, h⟩ := Result.bind_eq_ok h
      have h1 := ((ih_scope _ _ _ _ hc).2).trans (tail_le _)
      have h2 := ((ih_scope _ _ _ _ hb).2).trans (tail_le _)
      have h3 := (ih_if_loop _ _ _ hs).trans (Lexer.next_token_suffix _)
      split at h
      · obtain ⟨e, he, h⟩ := Result.bind_eq_ok h
        have h4 := ((ih_scope _ _ _ _ he).2).trans (tail_le _)
        cases h
        exact ((h4.trans h3).trans h2).trans h1
      · cases h
        exact (h3.trans h2).trans h1
    · intro lexer type_stack r h
      rw [parse_if_loop] at h
      split at h
      · obtain ⟨c, hc, h⟩ := Result.bind_eq_ok h
        obtain ⟨b, hb, h⟩ := Result.bind_eq_ok h
        have h1 := ((ih_scope _ _ _ _ hc).2).trans (tail_le _)
        have h2 := ((ih_scope _ _ _ _ hb).2).trans (tail_le _)
        have h3 := (ih_if_loop _ _ _ h).trans (Lexer.next_token_suffix _)
        exact (h3.trans h2).trans h1
      · cases h
        exact List.suffix_refl _

theorem Lexer.current_token_mem {lexer : Lexer} {keyword : Keyword}
    (h : is_keyword lexer.current_token keyword = true) :
    lexer.current_token ∈ lexer.tokens := by
  cases hl : lexer.tokens with
  | nil => simp [is_keyword, Lexer.current_token, hl] at h
  | cons t ts => simp [Lexer.current_token, hl]

/-- C21. When the loop of `parse_scope` stands at the end of input, it throws
"Unexpected end of file. Scope is left unclosed." there, whatever the state of the
scope. When `parse_scope` returns a scope, the lexer stands on the terminating
keyword of that scope, which is one of the tokens after the opening one: a scope is
sealed on its terminator only, and on tokens that hold no terminator `parse_scope`
returns no scope. `func f { 1` and `func f { { 1 }` fail at the end of input. -/
theorem parse_scope_loop_end_of_input (fuel : Nat) (lexer : Lexer) (program : Program)
    (type_stack : TypeStack) (end_keyword : Keyword) (scope : Scope) (local_offset : Int)
    (heof : lexer.current_token.type = .tok_eof) :
    parse_scope_loop (fuel + 1) lexer program type_stack end_keyword scope local_offset
      = .error ⟨lexer.current_token.location, .scope_left_unclosed⟩
    ∧ (∀ (fuel : Nat) (lexer₀ : Lexer) (S : TypeStack) (keyword : Keyword)
        (r : Scope × Lexer × TypeStack),
        parse_scope fuel lexer₀ program S keyword = .ok r →
        is_keyword r.2.1.current_token keyword = true
          ∧ r.2.1.current_token.type ≠ .tok_eof
          ∧ r.2.1.tokens <:+ lexer₀.tokens.tail
          ∧ r.2.1.current_token ∈ lexer₀.tokens.tail)
    ∧ (∀ (fuel : Nat) (lexer₀ : Lexer) (S : TypeStack) (keyword : Keyword),
        (∀ t ∈ lexer₀.tokens.tail, is_keyword t keyword = false) →
        ∀ r, parse_scope fuel lexer₀ program S keyword ≠ .ok r)
    ∧ parse_program ⟨unclosed_tokens, ⟨1, 10⟩⟩ = .error ⟨⟨1, 10⟩, .scope_left_unclosed⟩
    ∧ parse_program ⟨unclosed_outer_tokens, ⟨1, 14⟩⟩
        = .error ⟨⟨1, 14⟩, .scope_left_unclosed⟩ := by
  have hsealed : ∀ (fuel : Nat) (lexer₀ : Lexer) (S : TypeStack) (keyword : Keyword)
      (r : Scope × Lexer × TypeStack),
      parse_scope fuel lexer₀ program S keyword = .ok r →
      is_keyword r.2.1.current_token keyword = true
        ∧ r.2.1.current_token.type ≠ .tok_eof
        ∧ r.2.1.tokens <:+ lexer₀.tokens.tail
        ∧ r.2.1.current_token ∈ lexer₀.tokens.tail := by
    intro fuel lexer₀ S keyword r h
    obtain ⟨h1, h2⟩ := (parse_lexer_suffix program fuel).2.1 _ _ _ _ h
    refine ⟨h1, ?_, h2, h2.subset (Lexer.current_token_mem h1)⟩
    unfold is_keyword at h1
    simp only [Bool.and_eq_true, decide_eq_true_eq] at h1
    rw [h1.1]
    decide
  refine ⟨parse_scope_loop_eof _ _ _ _ _ _ _ heof, hsealed, ?_, rfl, rfl⟩
  intro fuel lexer₀ S keyword hnone r h
  obtain ⟨h1, _, _, h4⟩ := hsealed fuel lexer₀ S keyword r h
  rw [hnone _ h4] at h1
  cases h1

/-- C21, at an instance: the loop of the body of `func f { 1` after the `1`. -/
theorem parse_scope_loop_end_of_input_witness :
    parse_scope_loop (0 + 1) ⟨[], ⟨1, 10⟩⟩ {} [int_t] .keyword_end
        (Scope.empty.emplace_back (.operation_int .op_push_int 1)) 1
      = .error ⟨⟨1, 10⟩, .scope_left_unclosed⟩ :=
  (parse_scope_loop_end_of_input 0 ⟨[], ⟨1, 10⟩⟩ {} [int_t] .keyword_end
    (Scope.empty.emplace_back (.operation_int .op_push_int 1)) 1 rfl).1

theorem Keyword.ofInt_toInt (keyword : Keyword) :
    Keyword.ofInt keyword.toInt = some keyword := by
  cases keyword <;> decide

theorem Keyword.toInt_injective {a b : Keyword} (h : a.toInt = b.toInt) : a = b := by
  have := congrArg Keyword.ofInt h
  rw [Keyword.ofInt_toInt, Keyword.ofInt_toInt] at this
  exact Option.some.inj this

/-- The parts of `is_keyword`, and that a keyword token is no other keyword. -/
theorem is_keyword_spec {token : Token} {keyword : Keyword}
    (h : is_keyword token keyword = true) :
    token.type = .tok_keyword ∧ Keyword.ofInt token.int_val = some keyword
    ∧ ∀ other : Keyword, other ≠ keyword → is_keyword token other = false := by
  unfold is_keyword at h
  simp only [Bool.and_eq_true, decide_eq_true_eq] at h
  obtain ⟨ht, hv⟩ := h
  refine ⟨ht, by rw [hv]; exact Keyword.ofInt_toInt keyword, ?_⟩
  intro other hne
  unfold is_keyword
  simp only [ht, decide_True, Bool.true_and, decide_eq_false_iff_not, hv]
  exact fun h => hne (Keyword.toInt_injective h).symm

/-- C23. In the loop of `parse_scope` for a scope that ends with `}` or with `{`
(the two terminators that `parser.cpp` uses), the keyword `func` throws "Functions
are only allowed at toplevel.", `else` throws "Unexpected else.", `elif` throws
"Unexpected else if.", a `}` in a scope that ends with `{` (the condition of a
conditional) throws "Unexpected end of scope.", a token of type `tok_unexpected`
throws "Unexpected token." and the invalid intrinsic throws "Unknown Intrinsic.". -/
theorem parse_scope_loop_misplaced (fuel : Nat) (lexer : Lexer) (program : Program)
    (type_stack : TypeStack) (end_keyword : Keyword) (scope : Scope) (local_offset : Int)
    (hend : end_keyword = .keyword_begin ∨ end_keyword = .keyword_end) :
    (is_keyword lexer.current_token .keyword_function = true →
      parse_scope_loop (fuel + 1) lexer program type_stack end_keyword scope local_offset
        = .error ⟨lexer.current_token.location, .functions_only_at_toplevel⟩)
    ∧ (is_keyword lexer.current_token .keyword_else = true →
      parse_scope_loop (fuel + 1) lexer program type_stack end_keyword scope local_offset
        = .error ⟨lexer.current_token.location, .unexpected_else⟩)
    ∧ (is_keyword lexer.current_token .keyword_else_if = true →
      parse_scope_loop (fuel + 1) lexer program type_stack end_keyword scope local_offset
        = .error ⟨lexer.current_token.location, .unexpected_else_if⟩)
    ∧ (end_keyword = .keyword_begin → is_keyword lexer.current_token .keyword_end = true →
      parse_scope_loop (fuel + 1) lexer program type_stack end_keyword scope local_offset
        = .error ⟨lexer.current_token.location, .unexpected_end_of_scope⟩)
    ∧ (lexer.current_token.type = .tok_unexpected →
      parse_scope_loop (fuel + 1) lexer program type_stack end_keyword scope local_offset
        = .error ⟨lexer.current_token.location, .unexpected_token_in_scope⟩)
    ∧ (lexer.current_token.type = .tok_intrinsic →
      lexer.current_token.int_val = intrinsic_invalid →
      parse_scope_loop (fuel + 1) lexer program type_stack end_keyword scope local_offset
        = .error ⟨lexer.current_token.location, .unknown_intrinsic⟩)
    ∧ parse_program ⟨misplaced_else_tokens, ⟨1, 15⟩⟩ = .error ⟨⟨1, 10⟩, .unexpected_else⟩
    ∧ parse_program ⟨end_in_condition_tokens, ⟨1, 21⟩⟩
        = .error ⟨⟨1, 15⟩, .unexpected_end_of_scope⟩ := by
  have hkw : ∀ keyword : Keyword, is_keyword lexer.current_token keyword = true →
      keyword ≠ end_keyword →
      parse_scope_loop (fuel + 1) lexer program type_stack end_keyword scope local_offset
        = match some keyword with
          | some .keyword_const => throw_at lexer .const_not_implemented
          | some .keyword_begin =>
            (parse_scope fuel lexer program type_stack .keyword_end).bind fun p =>
              parse_scope_loop fuel p.2.1.next_token program p.2.2 end_keyword
                ((scope.with_signature
                    (recalibrate_offset local_offset p.1.signature
                      scope.signature).2).emplace_back
                  (.scope p.1))
                (recalibrate_offset local_offset p.1.signature scope.signature).1
          | some .keyword_end => throw_at lexer .unexpected_end_of_scope
          | some .keyword_if =>
            (parse_if fuel lexer program type_stack).bind fun p =>
              parse_scope_loop fuel p.2.1 program p.2.2 end_keyword
                ((scope.with_signature
                    (recalibrate_offset local_offset (IfExpression.signature p.1)
                      scope.signature).2).emplace_back
                  (.if_expression p.1))
                (recalibrate_offset local_offset (IfExpression.signature p.1)
                  scope.signature).1
          | some .keyword_while =>
            (parse_while lexer program type_stack).bind fun p =>
              parse_scope_loop fuel p.2.1.next_token program p.2.2 end_keyword
                ((scope.with_signature
                    (recalibrate_offset local_offset (WhileExpression.signature p.1)
                      scope.signature).2).emplace_back
                  (.while_expression p.1))
                (recalibrate_offset local_offset (WhileExpression.signature p.1)
                  scope.signature).1
          | some .keyword_else => throw_at lexer .unexpected_else
          | some .keyword_else_if => throw_at lexer .unexpected_else_if
          | some .keyword_function => throw_at lexer .functions_only_at_toplevel
          | none =>
            parse_scope_loop fuel lexer.next_token program type_stack end_keyword scope
              local_offset := by
    intro keyword hk hne
    obtain ⟨ht, hof, hother⟩ := is_keyword_spec hk
    rw [parse_scope_loop_keyword _ _ _ _ _ _ _ ht (hother end_keyword (Ne.symm hne)), hof]
  refine ⟨?_, ?_, ?_, ?_, ?_, ?_, rfl, rfl⟩
  · intro hk
    rw [hkw _ hk (by rcases hend with h | h <;> rw [h] <;> decide)]
    rfl
  · intro hk
    rw [hkw _ hk (by rcases hend with h | h <;> rw [h] <;> decide)]
    rfl
  · intro hk
    rw [hkw _ hk (by rcases hend with h | h <;> rw [h] <;> decide)]
    rfl
  · intro hbegin hk
    rw [hkw _ hk (by rw [hbegin]; decide)]
    rfl
  · intro ht
    rw [parse_scope_loop, is_keyword_eq_false_of_type end_keyword (by rw [ht]; decide)]
    simp only [Bool.false_eq_true, if_false, ht]
    rfl
  · intro ht hv
    rw [parse_scope_loop_intrinsic _ _ _ _ _ _ _ ht, if_pos hv]
    rfl

/-- C23, at an instance: the `}` in the condition of `if 1 } { } }`. -/
theorem parse_scope_loop_misplaced_witness :
    parse_scope_loop (0 + 1) ⟨end_in_condition_tokens.drop 5, ⟨1, 21⟩⟩ {} [int_t]
        .keyword_begin (Scope.empty.emplace_back (.operation_int .op_push_int 1)) 1
      = .error ⟨⟨1, 15⟩, .unexpected_end_of_scope⟩ :=
  (parse_scope_loop_misplaced 0 ⟨end_in_condition_tokens.drop 5, ⟨1, 21⟩⟩ {} [int_t]
    .keyword_begin (Scope.empty.emplace_back (.operation_int .op_push_int 1)) 1
    (Or.inl rfl)).2.2.2.1 rfl (by decide)

theorem has_unimplemented_list_append (xs ys : List Expression) :
    has_unimplemented_list (xs ++ ys)
      = (has_unimplemented_list xs || has_unimplemented_list ys) := by
  induction xs with
  | nil => simp [has_unimplemented_list]
  | cons x xs ih => simp [has_unimplemented_list, ih, Bool.or_assoc]

theorem Scope.has_unimplemented_eq (s : Scope) :
    s.has_unimplemented = has_unimplemented_list s.expressions := by
  cases s; simp [Scope.has_unimplemented, Scope.expressions]

theorem Scope.has_unimplemented_emplace_back (s : Scope) (e : Expression) :
    (s.emplace_back e).has_unimplemented = (s.has_unimplemented || e.has_unimplemented) := by
  simp [Scope.has_unimplemented_eq, Scope.emplace_back_expressions,
    has_unimplemented_list_append, has_unimplemented_list]

theorem Scope.has_unimplemented_with_signature (s : Scope) (sig : TypeSignature) :
    (s.with_signature sig).has_unimplemented = s.has_unimplemented := by
  simp [Scope.has_unimplemented_eq, Scope.with_signature_expressions]

theorem if_expression_has_unimplemented (c b : Scope) :
    (if_expression c b).has_unimplemented = (c.has_unimplemented || b.has_unimplemented) := by
  simp [if_expression, IfExpression.has_unimplemented, ConditionalBranch.has_unimplemented,
    has_unimplemented_branches, Scope.empty, Scope.has_unimplemented, has_unimplemented_list]

/-- An iteration appends a literal, a call, an operation, a parsed block or a parsed
conditional. -/
theorem Iteration.has_unimplemented {n : Nat} {program : Program} {lexer : Lexer}
    {type_stack : TypeStack} {scope : Scope} {local_offset : Int} {lexer' : Lexer}
    {type_stack' : TypeStack} {scope' : Scope} {local_offset' : Int}
    (h : Iteration n program lexer type_stack scope local_offset
      lexer' type_stack' scope' local_offset')
    (hscope : ∀ p, parse_scope n lexer program type_stack .keyword_end = .ok p →
      p.1.has_unimplemented = false)
    (hif : ∀ p, parse_if n lexer program type_stack = .ok p →
      p.1.has_unimplemented = false)
    (hs : scope.has_unimplemented = false) :
    scope'.has_unimplemented = false := by
  cases h with
  | literal _ =>
    simp [Scope.has_unimplemented_emplace_back, hs, Expression.has_unimplemented]
  | call _ _ _ _ _ _ =>
    simp [Scope.has_unimplemented_emplace_back, Scope.has_unimplemented_with_signature, hs,
      Expression.has_unimplemented]
  | intrinsic _ _ _ _ _ _ _ =>
    simp [Scope.has_unimplemented_emplace_back, Scope.has_unimplemented_with_signature, hs,
      Expression.has_unimplemented]
  | block p _ _ hp =>
    simp [Scope.has_unimplemented_emplace_back, Scope.has_unimplemented_with_signature, hs,
      Expression.has_unimplemented, hscope p hp]
  | conditional p _ _ hp =>
    simp [Scope.has_unimplemented_emplace_back, Scope.has_unimplemented_with_signature, hs,
      Expression.has_unimplemented, hif p hp]
  | skip _ _ => exact hs

/-- The scopes and conditionals that the parsing functions return hold no loop and
no string operation other than a call. -/
theorem parse_has_unimplemented (program : Program) :
    ∀ (fuel : Nat),
      (∀ (lexer : Lexer) (type_stack : TypeStack) (end_keyword : Keyword) (scope : Scope)
        (local_offset : Int) (r : Scope × Lexer × TypeStack),
        parse_scope_loop fuel lexer program type_stack end_keyword scope local_offset = .ok r →
        scope.has_unimplemented = false → r.1.has_unimplemented = false)
      ∧ (∀ (lexer : Lexer) (type_stack : TypeStack) (end_keyword : Keyword)
        (r : Scope × Lexer × TypeStack),
        parse_scope fuel lexer program type_stack end_keyword = .ok r →
        r.1.has_unimplemented = false)
      ∧ (∀ (lexer : Lexer) (type_stack : TypeStack) (r : IfExpression × Lexer × TypeStack),
        parse_if fuel lexer program type_stack = .ok r → r.1.has_unimplemented = false) := by
  intro fuel
  induction fuel with
  | zero =>
    refine ⟨?_, ?_, ?_⟩
    · intro lexer type_stack end_keyword scope local_offset r h
      simp [parse_scope_loop] at h
    · intro lexer type_stack end_keyword r h
      simp [parse_scope] at h
    · intro lexer type_stack r h
      simp [parse_if] at h
  | succ n ih =>
    obtain ⟨ih_loop, ih_scope, ih_if⟩ := ih
    refine ⟨?_, ?_, ?_⟩
    · intro lexer type_stack end_keyword scope local_offset r h hs
      rcases parse_scope_loop_ok_cases h with ⟨hk, hseal⟩ | ⟨_, lexer', st', scope', k', hit, hrec⟩
      · obtain ⟨_, _, hr⟩ := seal_scope_eq_ok hseal
        rw [hr, Scope.has_unimplemented_with_signature]
        exact hs
      · exact ih_loop _ _ _ _ _ _ hrec
          (hit.has_unimplemented (fun p hp => ih_scope _ _ _ _ hp)
            (fun p hp => ih_if _ _ _ hp) hs)
    · intro lexer type_stack end_keyword r h
      rw [parse_scope] at h
      exact ih_loop _ _ _ _ _ _ h (by
        simp [Scope.empty, Scope.has_unimplemented, has_unimplemented_list])
    · intro lexer type_stack r h
      obtain ⟨c, b, hc, hb, hr⟩ := parse_if_eq_ok h
      rw [hr, if_expression_has_unimplemented, ih_scope _ _ _ _ hc, ih_scope _ _ _ _ hb]
      rfl

/-- The body of a function that `parse_function` returns is a scope that
`parse_scope` returned. -/
theorem parse_function_body {fuel : Nat} {lexer : Lexer} {program : Program}
    {f : Function} {lexer' : Lexer}
    (h : parse_function fuel lexer program = .ok (f, lexer')) :
    ∃ (lexer_body : Lexer) (type_stack : TypeStack),
      parse_scope fuel lexer_body program f.signature.in .keyword_end
        = .ok (f.body, lexer', type_stack) := by
  unfold parse_function at h
  obtain ⟨hd, hhd, h⟩ := Result.bind_eq_ok h
  simp only at h
  obtain ⟨b, hb, h⟩ := Result.bind_eq_ok h
  split at h
  · cases h
  · cases h
  · simp only [Result.ok.injEq, Prod.mk.injEq] at h
    obtain ⟨hf, hl⟩ := h
    subst hf
    subst hl
    exact ⟨hd.2.2, b.2.2, hb⟩

theorem Definitions.bodies_implemented {lexer : Lexer} {program : Program}
    {fs : List Function} {result : Program} (h : Definitions lexer program fs result) :
    ∀ f ∈ fs, f.body.has_unimplemented = false := by
  induction h with
  | eof lexer program _ => simp
  | func fuel lexer program f lexer' fs result _ hf _ ih =>
    intro g hg
    simp only [List.mem_cons] at hg
    rcases hg with rfl | hg
    · obtain ⟨lb, S, hb⟩ := parse_function_body hf
      exact (parse_has_unimplemented program fuel).2.1 _ _ _ _ hb
    · exact ih g hg

/-- C22. In the loop of `parse_scope` for a scope that ends with `}` or with `{`, the
keyword `while` throws "While loops are not supported yet." (`parse_while` always
throws), a string token throws "Strings are not implemented yet." and the keyword
`const` throws "Constants are not implemented yet."; and in a program that
`parse_program` returns, no function body holds a loop node or an operation with a
string value other than a call, at any depth. -/
theorem parse_scope_loop_unimplemented (fuel : Nat) (lexer : Lexer) (program : Program)
    (type_stack : TypeStack) (end_keyword : Keyword) (scope : Scope) (local_offset : Int)
    (hend : end_keyword = .keyword_begin ∨ end_keyword = .keyword_end) :
    (is_keyword lexer.current_token .keyword_while = true →
      parse_scope_loop (fuel + 1) lexer program type_stack end_keyword scope local_offset
        = .error ⟨lexer.current_token.location, .while_not_supported⟩)
    ∧ (lexer.current_token.type = .tok_str →
      parse_scope_loop (fuel + 1) lexer program type_stack end_keyword scope local_offset
        = .error ⟨lexer.current_token.location, .strings_not_implemented⟩)
    ∧ (is_keyword lexer.current_token .keyword_const = true →
      parse_scope_loop (fuel + 1) lexer program type_stack end_keyword scope local_offset
        = .error ⟨lexer.current_token.location, .const_not_implemented⟩)
    ∧ (∀ (lexer₀ : Lexer) (result : Program), parse_program lexer₀ = .ok result →
        ∀ entry ∈ result.functions, entry.2.body.has_unimplemented = false)
    ∧ parse_program ⟨while_tokens, ⟨1, 22⟩⟩ = .error ⟨⟨1, 10⟩, .while_not_supported⟩
    ∧ parse_program ⟨string_tokens, ⟨1, 15⟩⟩
        = .error ⟨⟨1, 10⟩, .strings_not_implemented⟩ := by
  refine ⟨?_, ?_, ?_, ?_, rfl, rfl⟩
  · intro hk
    obtain ⟨ht, hof, hother⟩ := is_keyword_spec hk
    rw [parse_scope_loop_keyword _ _ _ _ _ _ _ ht
      (hother end_keyword (by rcases hend with h | h <;> rw [h] <;> decide)), hof]
    rfl
  · intro ht
    rw [parse_scope_loop, is_keyword_eq_false_of_type end_keyword (by rw [ht]; decide)]
    simp only [Bool.false_eq_true, if_false, ht]
    rfl
  · intro hk
    obtain ⟨ht, hof, hother⟩ := is_keyword_spec hk
    rw [parse_scope_loop_keyword _ _ _ _ _ _ _ ht
      (hother end_keyword (by rcases hend with h | h <;> rw [h] <;> decide)), hof]
    rfl
  · intro lexer₀ result h entry hentry
    obtain ⟨fs, hfs⟩ := parse_program_loop_eq_ok _ _ _ _ h
    have hfun := (Definitions.functions_eq hfs).1
    rw [hfun] at hentry
    simp only [List.nil_append, List.mem_map] at hentry
    obtain ⟨f, hf, rfl⟩ := hentry
    exact hfs.bodies_implemented f hf

/-- C22, at an instance: the `while` of `func f { while 1 { } }`. -/
theorem parse_scope_loop_unimplemented_witness :
    parse_scope_loop (0 + 1) ⟨while_tokens.drop 3, ⟨1, 22⟩⟩ {} [] .keyword_end Scope.empty 0
      = .error ⟨⟨1, 10⟩, .while_not_supported⟩ :=
  (parse_scope_loop_unimplemented 0 ⟨while_tokens.drop 3, ⟨1, 22⟩⟩ {} [] .keyword_end
    Scope.empty 0 (Or.inr rfl)).1 (by decide)

/-- C25. For signatures whose vectors have sizes that the counters of
`match_signature` hold exactly (`declared.in` below `2 ^ 31`, the range of the `int`
counter of the loop; the other sizes below `2 ^ 63`, the range of `int64_t`):
when `inferred.in` is longer than `declared.in`, the first test succeeds (the
negative offset is a large unsigned number) and `match_signature` returns `false`
before it reads any element; and for every pair, when the first test fails each `i`
below the offset is an index of `declared.in` and of `declared.out`, the loop reads
no element outside them, and `match_signature` returns `true` or `false`. -/
theorem match_signature_in_bounds (declared inferred : TypeSignature)
    (hin : declared.in.length < 2 ^ 31) (hout : declared.out.length < 2 ^ 63)
    (hinf : inferred.in.length < 2 ^ 63) :
    (declared.in.length < inferred.in.length →
      size_lt_int64 declared.out.length
          ((declared.in.length : Int) - (inferred.in.length : Int)) = true
        ∧ match_signature declared inferred = some false)
    ∧ (size_lt_int64 declared.out.length
          ((declared.in.length : Int) - (inferred.in.length : Int)) = false →
        (∀ i : Nat, (i : Int) < (declared.in.length : Int) - (inferred.in.length : Int) →
          i < declared.in.length ∧ i < declared.out.length)
        ∧ match_signature_loop declared
            ((declared.in.length : Int) - (inferred.in.length : Int)).toNat 0 ≠ none)
    ∧ (match_signature declared inferred = some true
        ∨ match_signature declared inferred = some false) := by
  have hneg : declared.in.length < inferred.in.length →
      size_lt_int64 declared.out.length
        ((declared.in.length : Int) - (inferred.in.length : Int)) = true := by
    intro h
    unfold size_lt_int64
    simp only [decide_eq_true_eq]
    omega
  have hfalse : declared.in.length < inferred.in.length →
      match_signature declared inferred = some false := by
    intro h
    unfold match_signature
    simp only [hneg h, if_true]
  refine ⟨fun h => ⟨hneg h, hfalse h⟩, ?_, ?_⟩
  · intro hguard
    have hle : inferred.in.length ≤ declared.in.length := by
      by_contra hc
      rw [hneg (by omega)] at hguard
      cases hguard
    obtain ⟨o, ho⟩ : ∃ o : Nat, (declared.in.length : Int) - (inferred.in.length : Int)
        = (o : Int) := ⟨declared.in.length - inferred.in.length, by omega⟩
    rw [ho, size_lt_int64_of_nonneg _ _ (by omega)] at hguard
    simp only [decide_eq_false_iff_not, not_lt] at hguard
    rw [ho]
    refine ⟨fun i hi => ⟨by omega, by omega⟩, ?_⟩
    rw [Int.toNat_ofNat, match_signature_loop_eq declared hin o 0 (by omega) (by omega)]
    simp
  · by_cases h : declared.in.length < inferred.in.length
    · exact Or.inr (hfalse h)
    · rw [match_signature_eq declared inferred (declared.in.length - inferred.in.length)
        (by omega) (by omega) (by omega)]
      by_cases hd : (declared.in.length - inferred.in.length ≤ declared.out.length
          ∧ declared.in.take (declared.in.length - inferred.in.length)
              = declared.out.take (declared.in.length - inferred.in.length)
          ∧ declared.out.drop (declared.in.length - inferred.in.length) = inferred.out)
      · exact Or.inl (by rw [decide_eq_true hd])
      · exact Or.inr (by rw [decide_eq_false hd])

/-- C25, at an instance: a body that takes two values for a declared input of
one. -/
theorem match_signature_in_bounds_witness :
    match_signature ⟨[int_t], [int_t]⟩ ⟨[int_t, int_t], []⟩ = some false :=
  ((match_signature_in_bounds ⟨[int_t], [int_t]⟩ ⟨[int_t, int_t], []⟩
    (by decide) (by decide) (by decide)).1 (by decide)).2

/-- C24, on the code: in `func f { 1 if drop { } }` the body pushes `1`
(`local_offset` 1, stack `[int]`), the condition of the conditional drops it (stack
`[]`), and the conditional is folded with the empty signature, so `local_offset`
stays 1: when the body reaches its `}` it is sealed with `local_offset` 1 on the
empty stack, and `type_stack.end() - local_offset` lies before `type_stack.begin()`.
The lower bound holds: an iteration of the loop keeps `0 ≤ local_offset`. -/
theorem parse_scope_seals_above_stack :
    (∀ fuel, 4 ≤ fuel →
      parse_if fuel ⟨drop_in_condition_tokens.drop 4, ⟨1, 24⟩⟩ {} [int_t]
        = .ok (drop_in_condition_if, ⟨drop_in_condition_tokens.drop 8, ⟨1, 24⟩⟩, []))
    ∧ (∀ fuel,
      parse_scope_loop (fuel + 6) ⟨drop_in_condition_tokens.drop 3, ⟨1, 24⟩⟩ {} []
          .keyword_end Scope.empty 0
        = parse_scope_loop (fuel + 4) ⟨drop_in_condition_tokens.drop 8, ⟨1, 24⟩⟩ {} []
            .keyword_end drop_in_condition_body 1)
    ∧ (∀ fuel,
      parse_scope_loop (fuel + 1) ⟨drop_in_condition_tokens.drop 8, ⟨1, 24⟩⟩ {} []
          .keyword_end drop_in_condition_body 1
        = seal_scope drop_in_condition_body 1 [] ⟨drop_in_condition_tokens.drop 8, ⟨1, 24⟩⟩)
    ∧ seal_scope drop_in_condition_body 1 [] ⟨drop_in_condition_tokens.drop 8, ⟨1, 24⟩⟩
        = .out_of_bounds
    ∧ ¬ ((1 : Int) ≤ (([] : TypeStack).length : Int))
    ∧ (∀ fuel, 7 ≤ fuel →
      parse_scope fuel ⟨drop_in_condition_tokens.drop 2, ⟨1, 24⟩⟩ {} [] .keyword_end
        = .out_of_bounds)
    ∧ parse_program ⟨drop_in_condition_tokens, ⟨1, 24⟩⟩ = .out_of_bounds
    ∧ (∀ (fuel : Nat) (program : Program) (lexer lexer' : Lexer)
        (type_stack type_stack' : TypeStack) (scope scope' : Scope)
        (local_offset local_offset' : Int),
        Iteration fuel program lexer type_stack scope local_offset
          lexer' type_stack' scope' local_offset' →
        0 ≤ local_offset → 0 ≤ local_offset') := by
  refine ⟨?_, ?_, ?_, rfl, by decide, ?_, rfl, ?_⟩
  · intro fuel hfuel
    obtain ⟨n, rfl⟩ : ∃ n, fuel = n + 4 := ⟨fuel - 4, by omega⟩
    rfl
  · intro fuel
    rfl
  · intro fuel
    rfl
  · intro fuel hfuel
    obtain ⟨n, rfl⟩ : ∃ n, fuel = n + 7 := ⟨fuel - 7, by omega⟩
    rfl
  · intro fuel program lexer lexer' type_stack type_stack' scope scope' local_offset
      local_offset' h hk
    exact h.local_offset_nonneg hk

/-! ## Termination -/

end sorth
